import Mathlib

/-!
Verification development for the move-ordering core and SAN/LAN codec of a
Stockfish-derived chess engine (sources: movepick.cpp, san.cpp).

The C++ sources are shallowly embedded: pure helpers become Lean functions,
the stateful MovePicker becomes explicit state passing over a `Picker`
structure, buffers become `List` values indexed by natural numbers, and the
board/`Position` collaborator (declared out of scope by the specification)
becomes an abstract record of query functions.  Machine integers are mapped
to mathematical `Int`; C++ integer division (truncation toward zero) is
mapped to `Int.tdiv`.
-/

namespace SFClassic

/-! ## Core data model

A move is a 16-bit word: from-square, to-square, promotion piece type and a
special-move tag (types.h is not among the sources; the encoding follows the
specification's data model: from, to, optional promotion piece,
special-type tag, with bit equality as move equality).  We represent the
four fields directly; `DecidableEq` equality coincides with bit equality of
the packed word.  In the packed encoding the promotion bits store
`pt - KNIGHT`, so every move built without an explicit promotion carries
promotion piece KNIGHT (ordinal 2). -/

inductive MoveType where
  | NORMAL
  | PROMOTION
  | EN_PASSANT
  | CASTLING
deriving DecidableEq, Repr

structure Move where
  fromSq : Nat
  toSq : Nat
  typ : MoveType
  promo : Nat
deriving DecidableEq, Repr

/-- Move::none() is the all-zero word. -/
def Move.none : Move := ⟨0, 0, MoveType.NORMAL, 2⟩

/-- Move::null() is the word 65: from = 1, to = 1, normal, no promotion bits. -/
def Move.null : Move := ⟨1, 1, MoveType.NORMAL, 2⟩

/-- Constructor `Move(from, to)`: normal move, promotion bits zero. -/
def Move.mkNormal (f t : Nat) : Move := ⟨f, t, MoveType.NORMAL, 2⟩

/-- Constructor `Move::make<PROMOTION>(from, to, pt)`. -/
def Move.mkPromotion (f t p : Nat) : Move := ⟨f, t, MoveType.PROMOTION, p⟩

/-- Constructor `Move::make<CASTLING>(from, to)`. -/
def Move.mkCastling (f t : Nat) : Move := ⟨f, t, MoveType.CASTLING, 2⟩

/-- Constructor `Move::make<EN_PASSANT>(from, to)`. -/
def Move.mkEnPassant (f t : Nat) : Move := ⟨f, t, MoveType.EN_PASSANT, 2⟩

/-- Move::from_to(): the low twelve bits, `(from << 6) | to`. -/
def Move.fromTo (m : Move) : Nat := m.fromSq * 64 + m.toSq

/-- An `ExtMove` pairs a move with its ordering score (a C++ `int`). -/
structure ExtMove where
  move : Move
  value : Int
deriving DecidableEq, Repr

instance : Inhabited ExtMove := ⟨⟨Move.none, 0⟩⟩

/-! Piece types are the ordinals of types.h: NO_PIECE_TYPE 0, PAWN 1, KNIGHT 2,
BISHOP 3, ROOK 4, QUEEN 5, KING 6.  A piece is `(color << 3) + pieceType`. -/

def PAWN : Nat := 1
def KNIGHT : Nat := 2
def BISHOP : Nat := 3
def ROOK : Nat := 4
def QUEEN : Nat := 5
def KING : Nat := 6

def typeOfPiece (p : Nat) : Nat := p % 8
def makePiece (c pt : Nat) : Nat := c * 8 + pt
def fileOf (s : Nat) : Nat := s % 8
def rankOf (s : Nat) : Nat := s / 8
def mkSquare (f r : Nat) : Nat := r * 8 + f
def relativeRank (c r : Nat) : Nat := if c = 0 then r else 7 - r
def relativeSquare (c s : Nat) : Nat := if c = 0 then s else s ^^^ 56

/-! ## partial_insertion_sort (movepick.cpp)

The C++ routine sorts the scored segment in place.  The buffer segment
`[begin, end)` is embedded as a `List ExtMove` with position `begin` at
index 0; the pointers `sortedEnd`, `p`, `q` become indices.  The ExtMove
comparison `operator<` compares scores (the specification's partial sorter
is "stable insertion sort restricted to entries above a threshold", which
fixes the comparison as strict value comparison). -/

/-- Inner shift loop of partial_insertion_sort:
`for (q = sortedEnd; q != begin && *(q-1) < tmp; --q) *q = *(q-1); *q = tmp;`. -/
def insertShift (l : List ExtMove) (q : Nat) (tmp : ExtMove) : List ExtMove :=
  match q with
  | 0 => l.set 0 tmp
  | q' + 1 =>
      if (l.getD q' default).value < tmp.value then
        insertShift (l.set (q' + 1) (l.getD q' default)) q' tmp
      else
        l.set (q' + 1) tmp

theorem length_insertShift (l : List ExtMove) (q : Nat) (tmp : ExtMove) :
    (insertShift l q tmp).length = l.length := by
  induction q generalizing l with
  | zero => simp [insertShift]
  | succ q ih =>
      simp only [insertShift]
      split
      · rw [ih, List.length_set]
      · simp

/-- Outer loop of partial_insertion_sort.  At each qualifying position `p`
the element is extracted, the first element after the sorted prefix is moved
to position `p` (`*p = *++sortedEnd`), and the extracted element is inserted
into the sorted prefix by the shift loop.  The loop advances `p` by one per
iteration and stops at the end of the buffer, so a fuel of `l.length`
iterations is always sufficient; the fuel parameter only makes the
recursion structural. -/
def pisLoop (limit : Int) : Nat → List ExtMove → Nat → Nat → List ExtMove
  | 0, l, _, _ => l
  | fuel + 1, l, sortedEnd, p =>
      if p < l.length then
        if limit ≤ (l.getD p default).value then
          pisLoop limit fuel
            (insertShift (l.set p (l.getD (sortedEnd + 1) default))
              (sortedEnd + 1) (l.getD p default))
            (sortedEnd + 1) (p + 1)
        else
          pisLoop limit fuel l sortedEnd (p + 1)
      else l

/-- partial_insertion_sort(begin, end, limit): sorts moves with value ≥ limit
in descending order up to and including the limit; the order of moves
smaller than the limit is left unspecified. -/
def partial_insertion_sort (l : List ExtMove) (limit : Int) : List ExtMove :=
  pisLoop limit l.length l 0 1

/-! ### Functional characterization of the loop

`insertDesc` is the list-level effect of the shift loop on the sorted
prefix: the new element is placed before the first strictly smaller entry
(so equal entries keep their order).  `loopSpec` is the list-level effect of
the outer loop: the state is split into the sorted prefix `P` (indices
`0..sortedEnd`), the middle region `M` of skipped entries, and the unscanned
suffix `S`. -/

def insertDesc (x : ExtMove) : List ExtMove → List ExtMove
  | [] => [x]
  | y :: ys => if y.value < x.value then x :: y :: ys else y :: insertDesc x ys

def loopSpec (limit : Int) : List ExtMove → List ExtMove → List ExtMove →
    List ExtMove × List ExtMove
  | P, M, [] => (P, M)
  | P, M, x :: S =>
      if limit ≤ x.value then
        loopSpec limit (insertDesc x P) (M.drop 1 ++ M.take 1) S
      else
        loopSpec limit P (M ++ [x]) S

/-- Descending order on scores (weak: ties allowed). -/
def SortedDesc (l : List ExtMove) : Prop :=
  List.Pairwise (fun a b => b.value ≤ a.value) l

theorem getD_append_cons (A : List ExtMove) (z : ExtMove) (rest : List ExtMove) :
    (A ++ z :: rest).getD A.length default = z := by
  induction A with
  | nil => rfl
  | cons a A ih => simpa using ih

theorem set_append_cons (A : List ExtMove) (z : ExtMove) (rest : List ExtMove)
    (v : ExtMove) : (A ++ z :: rest).set A.length v = A ++ v :: rest := by
  induction A with
  | nil => rfl
  | cons a A ih => simpa using ih

theorem insertDesc_append_last (x y : ExtMove) (P : List ExtMove)
    (h : y.value < x.value) :
    insertDesc x (P ++ [y]) = insertDesc x P ++ [y] := by
  induction P with
  | nil => simp [insertDesc, h]
  | cons a P ih =>
      by_cases ha : a.value < x.value <;> simp [insertDesc, ha, ih]

theorem insertDesc_all_ge (x : ExtMove) (P : List ExtMove)
    (h : ∀ e ∈ P, ¬ e.value < x.value) :
    insertDesc x P = P ++ [x] := by
  induction P with
  | nil => rfl
  | cons a P ih =>
      have ha : ¬ a.value < x.value := h a (by simp)
      simp [insertDesc, ha, ih (fun e he => h e (by simp [he]))]

/-- Key bridge: on a buffer whose first `|P|` entries are the sorted prefix,
the shift loop starting at index `|P|` realizes `insertDesc` on the prefix,
overwriting the entry at index `|P|`. -/
theorem insertShift_eq (P : List ExtMove) (z : ExtMove) (rest : List ExtMove)
    (tmp : ExtMove) (hs : SortedDesc P) :
    insertShift (P ++ z :: rest) P.length tmp = insertDesc tmp P ++ rest := by
  induction P using List.reverseRecOn generalizing z rest with
  | nil => simp [insertShift, insertDesc]
  | append_singleton P y ih =>
      have hlen : (P ++ [y]).length = P.length + 1 := by simp
      rw [hlen]
      simp only [insertShift]
      have hget : ((P ++ [y]) ++ z :: rest).getD P.length default = y := by
        have := getD_append_cons P y ([] ++ z :: rest)
        simpa using this
      rw [hget]
      by_cases hy : y.value < tmp.value
      · simp only [if_pos hy]
        have hset : ((P ++ [y]) ++ z :: rest).set (P.length + 1) y
            = P ++ y :: (y :: rest) := by
          have := set_append_cons (P ++ [y]) z rest y
          simpa using this
        rw [hset]
        have hsP : SortedDesc P := by
          have := (List.pairwise_append.mp hs).1
          exact this
        rw [ih y (y :: rest) hsP]
        rw [insertDesc_append_last tmp y P hy]
        simp
      · simp only [if_neg hy]
        have hset : ((P ++ [y]) ++ z :: rest).set (P.length + 1) tmp
            = (P ++ [y]) ++ tmp :: rest := by
          have := set_append_cons (P ++ [y]) z rest tmp
          simpa using this
        rw [hset]
        have hall : ∀ e ∈ P ++ [y], ¬ e.value < tmp.value := by
          intro e he
          rcases List.mem_append.mp he with heP | hey
          · have hyle : ∀ b ∈ [y], b.value ≤ e.value := by
              have := (List.pairwise_append.mp hs).2.2
              intro b hb
              exact this e heP b hb
            have : y.value ≤ e.value := hyle y (by simp)
            omega
          · simp at hey; subst hey; exact hy
        rw [insertDesc_all_ge tmp (P ++ [y]) hall]
        simp

theorem insertDesc_length (x : ExtMove) (P : List ExtMove) :
    (insertDesc x P).length = P.length + 1 := by
  induction P with
  | nil => rfl
  | cons y P ih =>
      by_cases hy : y.value < x.value <;> simp [insertDesc, hy, ih]

theorem mem_insertDesc {b x : ExtMove} {P : List ExtMove} :
    b ∈ insertDesc x P ↔ b = x ∨ b ∈ P := by
  induction P with
  | nil => simp [insertDesc]
  | cons y P ih =>
      by_cases hy : y.value < x.value
      · simp only [insertDesc, if_pos hy, List.mem_cons]
      · simp only [insertDesc, if_neg hy, List.mem_cons, ih]
        tauto

theorem insertDesc_perm (x : ExtMove) (P : List ExtMove) :
    (insertDesc x P).Perm (x :: P) := by
  induction P with
  | nil => simp [insertDesc]
  | cons y P ih =>
      by_cases hy : y.value < x.value
      · simp [insertDesc, hy]
      · simp only [insertDesc, if_neg hy]
        exact (ih.cons y).trans (List.Perm.swap x y P)

theorem insertDesc_sorted {x : ExtMove} {P : List ExtMove} (hs : SortedDesc P) :
    SortedDesc (insertDesc x P) := by
  induction P with
  | nil => simp [insertDesc, SortedDesc]
  | cons y P ih =>
      rcases List.pairwise_cons.mp hs with ⟨hy, hP⟩
      by_cases hlt : y.value < x.value
      · simp only [insertDesc, if_pos hlt]
        refine List.pairwise_cons.mpr ⟨?_, hs⟩
        intro b hb
        rcases List.mem_cons.mp hb with rfl | hbP
        · omega
        · have := hy b hbP; omega
      · simp only [insertDesc, if_neg hlt]
        refine List.pairwise_cons.mpr ⟨?_, ih hP⟩
        intro b hb
        rcases mem_insertDesc.mp hb with rfl | hbP
        · omega
        · exact hy b hbP

/-- The outer loop of partial_insertion_sort realizes `loopSpec`: the sorted
prefix `P`, the region `M` of already skipped below-limit entries, and the
unscanned suffix `S` evolve as described by the functional recursion. -/
theorem insertDesc_ne_nil (x : ExtMove) (P : List ExtMove) :
    insertDesc x P ≠ [] := by
  intro hc
  have := insertDesc_length x P
  simp [hc] at this

theorem pisLoop_eq (S : List ExtMove) :
    ∀ (fuel : Nat) (P M : List ExtMove) (limit : Int),
    S.length ≤ fuel → P ≠ [] → SortedDesc P →
    pisLoop limit fuel (P ++ M ++ S) (P.length - 1) (P.length + M.length)
      = (loopSpec limit P M S).1 ++ (loopSpec limit P M S).2 := by
  induction S with
  | nil =>
      intro fuel P M limit _ _ _
      cases fuel with
      | zero => simp [pisLoop, loopSpec]
      | succ f =>
          simp only [pisLoop]
          have hnot : ¬ P.length + M.length < (P ++ M ++ []).length := by simp
          rw [if_neg hnot]
          simp [loopSpec]
  | cons x S ih =>
      intro fuel P M limit hfuel hne hs
      cases fuel with
      | zero => simp at hfuel
      | succ f =>
      have hf : S.length ≤ f := by simp at hfuel; omega
      have hPlen : 1 ≤ P.length := by
        cases P with
        | nil => exact absurd rfl hne
        | cons a P => simp
      have hget : (P ++ M ++ x :: S).getD (P.length + M.length) default = x := by
        have h1 : P ++ M ++ x :: S = (P ++ M) ++ x :: S := by simp
        rw [h1]
        have h2 := getD_append_cons (P ++ M) x S
        simpa using h2
      simp only [pisLoop]
      have hlt : P.length + M.length < (P ++ M ++ x :: S).length := by
        simp
      rw [if_pos hlt, hget]
      by_cases hq : limit ≤ x.value
      · rw [if_pos hq]
        have hse : P.length - 1 + 1 = P.length := by omega
        rw [hse]
        cases M with
        | nil =>
            have hget2 : (P ++ [] ++ x :: S).getD P.length default = x := by
              have h2 := getD_append_cons P x S
              simpa using h2
            have hset : (P ++ [] ++ x :: S).set (P.length + ([] : List ExtMove).length) x
                = P ++ x :: S := by
              have h2 := set_append_cons P x S x
              simpa using h2
            rw [hget2, hset, insertShift_eq P x S x hs]
            have hIH := ih f (insertDesc x P) [] limit hf (insertDesc_ne_nil x P)
              (insertDesc_sorted hs)
            simp only [List.nil_append, List.append_nil, List.length_nil,
              Nat.add_zero, insertDesc_length, Nat.add_sub_cancel] at hIH ⊢
            rw [hIH]
            simp [loopSpec, hq]
        | cons m0 M =>
            have hget2 : (P ++ m0 :: M ++ x :: S).getD P.length default = m0 := by
              have h1 : P ++ m0 :: M ++ x :: S = P ++ m0 :: (M ++ x :: S) := by simp
              rw [h1]
              exact getD_append_cons P m0 (M ++ x :: S)
            have hset : (P ++ m0 :: M ++ x :: S).set (P.length + (m0 :: M).length) m0
                = P ++ m0 :: (M ++ m0 :: S) := by
              have h1 : P ++ m0 :: M ++ x :: S = (P ++ m0 :: M) ++ x :: S := by simp
              rw [h1]
              have h2 := set_append_cons (P ++ m0 :: M) x S m0
              have h3 : (P ++ m0 :: M).length = P.length + (m0 :: M).length := by simp
              rw [h3] at h2
              rw [h2]
              simp
            rw [hget2, hset, insertShift_eq P m0 (M ++ m0 :: S) x hs]
            have hIH := ih f (insertDesc x P) (M ++ [m0]) limit hf
              (insertDesc_ne_nil x P) (insertDesc_sorted hs)
            have harr : insertDesc x P ++ (M ++ [m0]) ++ S
                = insertDesc x P ++ (M ++ m0 :: S) := by simp
            rw [harr] at hIH
            have harith : (insertDesc x P).length + (M ++ [m0]).length
                = P.length + (m0 :: M).length + 1 := by
              simp [insertDesc_length]
              omega
            have hend : (insertDesc x P).length - 1 = P.length := by
              simp [insertDesc_length]
            rw [harith, hend] at hIH
            rw [hIH]
            simp [loopSpec, hq]
      · rw [if_neg hq]
        have hIH := ih f P (M ++ [x]) limit hf hne hs
        have harr : P ++ (M ++ [x]) ++ S = P ++ M ++ x :: S := by simp
        have harith : P.length + (M ++ [x]).length = P.length + M.length + 1 := by
          simp
          omega
        rw [harr, harith] at hIH
        rw [hIH]
        have hq2 : ¬ limit ≤ x.value := hq
        simp [loopSpec, hq2]

theorem partial_insertion_sort_nil (limit : Int) :
    partial_insertion_sort [] limit = [] := rfl

theorem partial_insertion_sort_eq (a : ExtMove) (rest : List ExtMove) (limit : Int) :
    partial_insertion_sort (a :: rest) limit
      = (loopSpec limit [a] [] rest).1 ++ (loopSpec limit [a] [] rest).2 := by
  have h := pisLoop_eq rest (rest.length + 1) [a] [] limit (by omega) (by simp)
    (by simp [SortedDesc])
  simpa [partial_insertion_sort] using h

theorem loopSpec_perm (limit : Int) (S : List ExtMove) :
    ∀ (P M : List ExtMove),
    ((loopSpec limit P M S).1 ++ (loopSpec limit P M S).2).Perm (P ++ M ++ S) := by
  induction S with
  | nil => intro P M; simp [loopSpec]
  | cons x S ih =>
      intro P M
      by_cases hq : limit ≤ x.value
      · simp only [loopSpec, if_pos hq]
        refine (ih (insertDesc x P) (M.drop 1 ++ M.take 1)).trans ?_
        have h1 : (insertDesc x P).Perm (x :: P) := insertDesc_perm x P
        have h2 : ((M.drop 1 ++ M.take 1) ++ S).Perm (M ++ S) := by
          refine List.Perm.append ?_ (List.Perm.refl S)
          refine List.perm_append_comm.trans ?_
          rw [List.take_append_drop]
        have step1 : (insertDesc x P ++ ((M.drop 1 ++ M.take 1) ++ S)).Perm
            ((x :: P) ++ (M ++ S)) := List.Perm.append h1 h2
        have step2 : ((x :: P) ++ (M ++ S)).Perm (P ++ (M ++ x :: S)) := by
          have h3 : (x :: (P ++ (M ++ S))).Perm (P ++ x :: (M ++ S)) :=
            List.perm_middle.symm

          have h4 : (x :: (M ++ S)).Perm (M ++ x :: S) := List.perm_middle.symm
          have h5 : (P ++ x :: (M ++ S)).Perm (P ++ (M ++ x :: S)) :=
            List.Perm.append_left P h4
          have h6 : (x :: P) ++ (M ++ S) = x :: (P ++ (M ++ S)) := by simp
          rw [h6]
          exact h3.trans h5
        have e1 : insertDesc x P ++ (M.drop 1 ++ M.take 1) ++ S
            = insertDesc x P ++ ((M.drop 1 ++ M.take 1) ++ S) := by
          rw [List.append_assoc]
        have e2 : P ++ M ++ x :: S = P ++ (M ++ x :: S) := by
          rw [List.append_assoc]
        rw [e1, e2]
        exact step1.trans step2
      · simp only [loopSpec, if_neg hq]
        refine (ih P (M ++ [x])).trans ?_
        have h7 : P ++ (M ++ [x]) ++ S = P ++ M ++ x :: S := by simp
        rw [h7]

theorem loopSpec_sorted (limit : Int) (S : List ExtMove) :
    ∀ (P M : List ExtMove), SortedDesc P →
    SortedDesc (loopSpec limit P M S).1 := by
  induction S with
  | nil => intro P M hs; simpa [loopSpec] using hs
  | cons x S ih =>
      intro P M hs
      by_cases hq : limit ≤ x.value
      · simp only [loopSpec, if_pos hq]
        exact ih _ _ (insertDesc_sorted hs)
      · simp only [loopSpec, if_neg hq]
        exact ih _ _ hs

theorem loopSpec_below (limit : Int) (S : List ExtMove) :
    ∀ (P M : List ExtMove), (∀ m ∈ M, m.value < limit) →
    ∀ m ∈ (loopSpec limit P M S).2, m.value < limit := by
  induction S with
  | nil => intro P M hM; simpa [loopSpec] using hM
  | cons x S ih =>
      intro P M hM
      by_cases hq : limit ≤ x.value
      · simp only [loopSpec, if_pos hq]
        refine ih _ _ ?_
        intro m hm
        rcases List.mem_append.mp hm with h | h
        · exact hM m (List.mem_of_mem_drop h)
        · exact hM m (List.mem_of_mem_take h)
      · simp only [loopSpec, if_neg hq]
        refine ih _ _ ?_
        intro m hm
        rcases List.mem_append.mp hm with h | h
        · exact hM m h
        · simp at h; subst h; omega

theorem sortedDesc_all_le {y : ExtMove} {P : List ExtMove}
    (hs : SortedDesc (y :: P)) : ∀ e ∈ P, e.value ≤ y.value := by
  intro e he
  exact (List.pairwise_cons.mp hs).1 e he

theorem insertDesc_filter_ne (x : ExtMove) (P : List ExtMove) (v : Int)
    (hx : ¬ x.value = v) :
    (insertDesc x P).filter (fun m => m.value == v)
      = P.filter (fun m => m.value == v) := by
  induction P with
  | nil => simp [insertDesc, List.filter_cons, hx]
  | cons y P ih =>
      by_cases hy : y.value < x.value
      · simp only [insertDesc, if_pos hy]
        simp [List.filter_cons, hx]
      · simp only [insertDesc, if_neg hy]
        simp only [List.filter_cons, ih]

theorem insertDesc_filter_eq (x : ExtMove) (P : List ExtMove) (v : Int)
    (hs : SortedDesc P) (hx : x.value = v) :
    (insertDesc x P).filter (fun m => m.value == v)
      = P.filter (fun m => m.value == v) ++ [x] := by
  induction P with
  | nil => simp [insertDesc, List.filter_cons, hx]
  | cons y P ih =>
      by_cases hy : y.value < x.value
      · simp only [insertDesc, if_pos hy]
        have hnil : (y :: P).filter (fun m => m.value == v) = [] := by
          rw [List.filter_eq_nil_iff]
          intro a ha
          have hle : a.value ≤ y.value := by
            rcases List.mem_cons.mp ha with rfl | haP
            · omega
            · exact sortedDesc_all_le hs a haP
          simp only [beq_iff_eq]
          omega
        rw [hnil]
        simp [List.filter_cons, hx, hnil]
      · simp only [insertDesc, if_neg hy]
        rcases List.pairwise_cons.mp hs with ⟨_, hP⟩
        by_cases hyv : y.value = v
        · simp [List.filter_cons, hyv, ih hP]
        · simp [List.filter_cons, hyv, ih hP]

theorem loopSpec_filter (limit v : Int) (hv : limit ≤ v) (S : List ExtMove) :
    ∀ (P M : List ExtMove), SortedDesc P →
    (loopSpec limit P M S).1.filter (fun m => m.value == v)
      = P.filter (fun m => m.value == v) ++ S.filter (fun m => m.value == v) := by
  induction S with
  | nil => intro P M _; simp [loopSpec]
  | cons x S ih =>
      intro P M hs
      by_cases hq : limit ≤ x.value
      · simp only [loopSpec, if_pos hq]
        rw [ih _ _ (insertDesc_sorted hs)]
        by_cases hx : x.value = v
        · rw [insertDesc_filter_eq x P v hs hx]
          simp [List.filter_cons, hx]
        · rw [insertDesc_filter_ne x P v hx]
          simp [List.filter_cons, hx]
      · simp only [loopSpec, if_neg hq]
        rw [ih _ _ hs]
        have hx : ¬ x.value = v := by omega
        simp [List.filter_cons, hx]

/-! ### Results of partial_insertion_sort -/

theorem pairwise_of_parts {l : List ExtMove} {limit : Int}
    {Q R : List ExtMove} (hl : l = Q ++ R) (hQ : SortedDesc Q)
    (hR : ∀ m ∈ R, m.value < limit) :
    List.Pairwise
      (fun a b => limit ≤ a.value → limit ≤ b.value → b.value ≤ a.value) l ∧
    List.Pairwise (fun a b => limit ≤ b.value → limit ≤ a.value) l := by
  subst hl
  constructor
  · rw [List.pairwise_append]
    refine ⟨hQ.imp ?_, ?_, ?_⟩
    · intro a b hab
      intro _ _; exact hab
    · apply List.Pairwise.imp_of_mem (R := fun _ _ => True)
      · intro a b ha _ _
        intro hla
        have := hR a ha
        omega
      · induction R with
        | nil => exact List.Pairwise.nil
        | cons r R ihp =>
            refine List.pairwise_cons.mpr ⟨fun b _ => trivial, ?_⟩
            apply ihp
            intro m hm; exact hR m (by simp [hm])
    · intro a _ b hb
      intro _ hlb
      have := hR b hb
      omega
  · rw [List.pairwise_append]
    refine ⟨hQ.imp_of_mem ?_, ?_, ?_⟩
    · intro a b _ _ hab hlb
      omega
    · apply List.Pairwise.imp_of_mem (R := fun _ _ => True)
      · intro a b _ hb _
        intro hlb
        have := hR b hb
        omega
      · induction R with
        | nil => exact List.Pairwise.nil
        | cons r R ihp =>
            refine List.pairwise_cons.mpr ⟨fun b _ => trivial, ?_⟩
            apply ihp
            intro m hm; exact hR m (by simp [hm])
    · intro a _ b hb
      intro hlb
      have := hR b hb
      omega

/-- C8: partial_insertion_sort is a permutation — the multiset of
(move, value) entries of the segment after the call equals the multiset
before the call; no entry is lost, duplicated or modified, only reordered. -/
theorem partial_insertion_sort_perm (l : List ExtMove) (limit : Int) :
    (partial_insertion_sort l limit).Perm l := by
  cases l with
  | nil => rw [partial_insertion_sort_nil]
  | cons a rest =>
      rw [partial_insertion_sort_eq]
      refine (loopSpec_perm limit rest [a] []).trans ?_
      simp

/-- C3 (amended): after partial_insertion_sort, (1) any two qualifying
entries (value ≥ limit) appear in weakly descending order of value;
(2) every qualifying entry precedes every below-limit entry; (3) the sort
is stable: for every value v ≥ limit, the entries of value v appear in
their original relative order (the filter by value v is unchanged).
The prefix is weakly, not strictly, descending: equal-valued qualifying
entries are kept, in order. -/
theorem partial_insertion_sort_ordering (l : List ExtMove) (limit v : Int)
    (hv : limit ≤ v) :
    List.Pairwise
        (fun a b => limit ≤ a.value → limit ≤ b.value → b.value ≤ a.value)
        (partial_insertion_sort l limit)
      ∧ List.Pairwise (fun a b => limit ≤ b.value → limit ≤ a.value)
        (partial_insertion_sort l limit)
      ∧ (partial_insertion_sort l limit).filter (fun m => m.value == v)
        = l.filter (fun m => m.value == v) := by
  cases l with
  | nil =>
      rw [partial_insertion_sort_nil]
      exact ⟨List.Pairwise.nil, List.Pairwise.nil, by simp⟩
  | cons a rest =>
      rw [partial_insertion_sort_eq]
      have hQ : SortedDesc (loopSpec limit [a] [] rest).1 :=
        loopSpec_sorted limit rest [a] [] (by simp [SortedDesc])
      have hR : ∀ m ∈ (loopSpec limit [a] [] rest).2, m.value < limit :=
        loopSpec_below limit rest [a] [] (by simp)
      have hparts := pairwise_of_parts rfl hQ hR
      refine ⟨hparts.1, hparts.2, ?_⟩
      rw [List.filter_append]
      have hRnil :
          (loopSpec limit [a] [] rest).2.filter (fun m => m.value == v) = [] := by
        rw [List.filter_eq_nil_iff]
        intro b hb
        have := hR b hb
        simp only [beq_iff_eq]
        omega
      rw [hRnil, List.append_nil,
        loopSpec_filter limit v hv rest [a] [] (by simp [SortedDesc])]
      by_cases ha : a.value = v <;> simp [List.filter_cons, ha]

/-- Witness: the stability part of partial_insertion_sort_ordering applied
at a concrete input with a duplicate value. -/
theorem partial_insertion_sort_ordering_witness :
    ((0 : Int) ≤ 5)
      ∧ ((partial_insertion_sort
            [⟨Move.mkNormal 8 16, 5⟩, ⟨Move.mkNormal 8 24, 7⟩,
             ⟨Move.mkNormal 8 24, 5⟩] 0).filter (fun m => m.value == 5)
          = ([⟨Move.mkNormal 8 16, 5⟩, ⟨Move.mkNormal 8 24, 7⟩,
             ⟨Move.mkNormal 8 24, 5⟩] : List ExtMove).filter
              (fun m => m.value == 5)) :=
  ⟨by decide,
   (partial_insertion_sort_ordering
      [⟨Move.mkNormal 8 16, 5⟩, ⟨Move.mkNormal 8 24, 7⟩,
       ⟨Move.mkNormal 8 24, 5⟩] 0 5 (by decide)).2.2⟩

/-- Counterexample to C3 as stated: with two equal-valued qualifying
entries the sorted prefix is not strictly descending — the call leaves the
two tied entries adjacent, in their original order. -/
theorem partial_insertion_sort_ties_not_strict :
    ¬ List.Pairwise (fun a b : ExtMove => b.value < a.value)
      (partial_insertion_sort
        [⟨Move.mkNormal 8 16, 5⟩, ⟨Move.mkNormal 8 24, 5⟩] 0) := by
  decide

/-! ## The abstract Position surface

The board module (position.h/position.cpp) is an external collaborator of
both subsystems; the specification fixes only its query surface.  It is
embedded as a record of query functions.  Colors are 0 (white) and 1
(black); squares 0..63; pieces `(color << 3) + pieceType`; bitboards are
64-bit words read as natural numbers. -/

structure Position where
  checkers : Bool := false
  sideToMove : Nat := 0
  isChess960 : Bool := false
  pieceOn : Nat → Nat := fun _ => 0
  movedPiece : Move → Nat := fun _ => 0
  pseudoLegal : Move → Bool := fun _ => false
  capture : Move → Bool := fun _ => false
  captureStage : Move → Bool := fun _ => false
  seeGe : Move → Int → Bool := fun _ _ => true
  givesCheck : Move → Bool := fun _ => false
  pieceValueMG : Nat → Int := fun _ => 0
  pieces : Nat → Nat → Nat := fun _ _ => 0
  attacksByPawn : Nat → Nat := fun _ => 0
  attacksByKnight : Nat → Nat := fun _ => 0
  attacksByBishop : Nat → Nat := fun _ => 0
  attacksByRook : Nat → Nat := fun _ => 0
  checkSquares : Nat → Nat := fun _ => 0
  kingSq : Nat → Nat := fun _ => 0
  attacksFrom : Nat → Nat → Nat := fun _ _ => 0
  pseudoAttacks : Nat → Nat → Nat := fun _ _ => 0
  castlingRookSquare : Nat → Nat := fun _ => 0
  legalMoves : List Move := []
  legalRepliesAfter : Move → Nat := fun _ => 0
  genCaptures : List Move := []
  genQuiets : List Move := []
  genEvasions : List Move := []
  genQuietChecks : List Move := []

/-- Castling-rights encoding of types.h (modelled): WHITE_OO = 1,
WHITE_OOO = 2, BLACK_OO = 4, BLACK_OOO = 8. -/
def KING_SIDE : Nat := 5
def QUEEN_SIDE : Nat := 10

/-- Mixed operator `Color & CastlingRights` of types.h (modelled):
restricts the rights to the given color. -/
def colorAndCastling (us cr : Nat) : Nat := (if us = 0 then 3 else 12) &&& cr

/-- Population count of a 64-bit word (fuel-bounded binary recursion so
that the definition reduces by evaluation). -/
def popcountAux : Nat → Nat → Nat
  | 0, _ => 0
  | f + 1, n => if n = 0 then 0 else n % 2 + popcountAux f (n / 2)

def popcountNat (n : Nat) : Nat := popcountAux 64 n

/-! ## SAN/LAN codec (san.cpp)

Strings are embedded as `List Char`.  The two `std::regex` patterns of
san.cpp are implemented directly with ECMAScript semantics: each optional
single-character group greedily tries the present alternative first and
falls back to the empty alternative when the continuation fails; `.`
matches any character except a line terminator; `regex_match` anchors the
whole string. -/

def isFileChar (c : Char) : Bool := decide (97 ≤ c.toNat ∧ c.toNat ≤ 104)
def isRankChar (c : Char) : Bool := decide (49 ≤ c.toNat ∧ c.toNat ≤ 56)
def isDigitChar (c : Char) : Bool := decide (48 ≤ c.toNat ∧ c.toNat ≤ 57)
def isUpperPieceChar (c : Char) : Bool :=
  decide (c = 'N' ∨ c = 'B' ∨ c = 'R' ∨ c = 'Q' ∨ c = 'K')
def isUpperPromChar (c : Char) : Bool :=
  decide (c = 'N' ∨ c = 'B' ∨ c = 'R' ∨ c = 'Q')
def isLowerPromChar (c : Char) : Bool :=
  decide (c = 'q' ∨ c = 'r' ∨ c = 'b' ∨ c = 'n')
def isDotChar (c : Char) : Bool :=
  decide (c.toNat ≠ 10 ∧ c.toNat ≠ 13 ∧ c.toNat ≠ 8232 ∧ c.toNat ≠ 8233)

/-- C tolower on the ASCII range (as used by san.cpp). -/
def toLowerChar (c : Char) : Char :=
  if 65 ≤ c.toNat ∧ c.toNat ≤ 90 then Char.ofNat (c.toNat + 32) else c

/-- Matcher for the LAN pattern `([a-h][1-8])([a-h][1-8])([qrbn]?)`
(anchored): the four square characters and the optional promotion glyph. -/
def lanMatch : List Char → Option (Char × Char × Char × Char × Option Char)
  | [c0, c1, c2, c3] =>
      if isFileChar c0 && isRankChar c1 && isFileChar c2 && isRankChar c3 then
        some (c0, c1, c2, c3, Option.none)
      else Option.none
  | [c0, c1, c2, c3, c4] =>
      if isFileChar c0 && isRankChar c1 && isFileChar c2 && isRankChar c3
          && isLowerPromChar c4 then
        some (c0, c1, c2, c3, some c4)
      else Option.none
  | _ => Option.none

/-- Trailing `.*` of the SAN pattern. -/
def matchTail (s : List Char) : Bool := s.all isDotChar

/-- Group 6 `(\=[NBRQ])?` followed by `.*`; returns the promotion letter. -/
def match6 : List Char → Option (Option Char)
  | '=' :: c :: rest =>
      if isUpperPromChar c && matchTail rest then some (some c)
      else if matchTail ('=' :: c :: rest) then some Option.none
      else Option.none
  | s => if matchTail s then some Option.none else Option.none

/-- Group 5 `([a-h][1-8])` followed by group 6. -/
def match5 : List Char → Option ((Char × Char) × Option Char)
  | a :: b :: rest =>
      if isFileChar a && isRankChar b then
        (match6 rest).map (fun g6 => ((a, b), g6))
      else Option.none
  | _ => Option.none

/-- Group 4 `([x])?` followed by group 5. -/
def match4 : List Char → Option (Bool × (Char × Char) × Option Char)
  | 'x' :: rest =>
      match match5 rest with
      | some r => some (true, r)
      | Option.none => (match5 ('x' :: rest)).map (fun r => (false, r))
  | s => (match5 s).map (fun r => (false, r))

/-- Group 3 `([1-8])?` followed by group 4. -/
def match3 : List Char → Option (Option Char × Bool × (Char × Char) × Option Char)
  | [] => (match4 []).map (fun r => (Option.none, r))
  | c :: rest =>
      if isRankChar c then
        match match4 rest with
        | some r => some (some c, r)
        | Option.none => (match4 (c :: rest)).map (fun r => (Option.none, r))
      else (match4 (c :: rest)).map (fun r => (Option.none, r))

/-- Group 2 `([a-h1-8])?` followed by group 3. -/
def match2 : List Char →
    Option (Option Char × Option Char × Bool × (Char × Char) × Option Char)
  | [] => (match3 []).map (fun r => (Option.none, r))
  | c :: rest =>
      if isFileChar c || isRankChar c then
        match match3 rest with
        | some r => some (some c, r)
        | Option.none => (match3 (c :: rest)).map (fun r => (Option.none, r))
      else (match3 (c :: rest)).map (fun r => (Option.none, r))

/-- The SAN pattern
`([NBRQK])?([a-h1-8])?([1-8])?([x])?([a-h][1-8])(\=[NBRQ])?.*` (anchored).
Returns the six capture groups. -/
def sanMatch : List Char →
    Option (Option Char × Option Char × Option Char × Bool × (Char × Char) × Option Char)
  | [] => (match2 []).map (fun r => (Option.none, r))
  | c :: rest =>
      if isUpperPieceChar c then
        match match2 rest with
        | some r => some (some c, r)
        | Option.none => (match2 (c :: rest)).map (fun r => (Option.none, r))
      else (match2 (c :: rest)).map (fun r => (Option.none, r))

/-- is_ok of san.cpp: LAN shape, SAN shape, or a castling token.  The
lowercased copy `castle` is compared for the kingside token, but the
queenside comparison uses the original string `s` (the source reads
`return castle == "o-o" || s == "o-o-o";`). -/
def is_ok (s : List Char) : Bool :=
  if (lanMatch s).isSome then true
  else if (sanMatch s).isSome then true
  else decide (s.map toLowerChar = "o-o".toList ∨ s = "o-o-o".toList)

/-- First index of a character in a string (std::string_view::find). -/
def charIdxAux : List Char → Char → Nat → Option Nat
  | [], _, _ => Option.none
  | a :: l, c, i => if a = c then some i else charIdxAux l c (i + 1)

/-- get_pt_from_prom: index of the lowercased character in "  nbrq",
QUEEN when absent. -/
def get_pt_from_prom (c : Char) : Nat :=
  match charIdxAux "  nbrq".toList (toLowerChar c) 0 with
  | some idx => idx
  | Option.none => QUEEN

/-- get_pt: index of the lowercased character in " pnbrqk", PAWN when
absent. -/
def get_pt (c : Char) : Nat :=
  match charIdxAux " pnbrqk".toList (toLowerChar c) 0 with
  | some idx => idx
  | Option.none => PAWN

/-- get_square_from: square from the two characters of an AN string. -/
def get_square_from (c0 c1 : Char) : Nat :=
  mkSquare (c0.toNat - 97) (c1.toNat - 49)

def squareChars (s : Nat) : List Char :=
  [Char.ofNat (97 + fileOf s), Char.ofNat (49 + rankOf s)]

/-- Character table " pnbrqk" used for promotion letters. -/
def promoChar (pt : Nat) : Char := " pnbrqk".toList.getD pt ' '

/-- Character table "  NBRQK" used for piece letters in SAN. -/
def pieceLetter (pt : Nat) : Char := "  NBRQK".toList.getD pt ' '

/-- Modelled from the spec: UCI::move of uci.cpp (not among the sources)
renders the engine's LAN: from-square then to-square (for castling in
standard chess the to-square is rewritten to the king's g- or c-file
destination on the same rank), then the promotion letter if any;
`none` renders as "(none)" and `null` as "0000". -/
def uciMove (m : Move) (chess960 : Bool) : List Char :=
  if m = Move.none then "(none)".toList
  else if m = Move.null then "0000".toList
  else
    let t := if m.typ = MoveType.CASTLING ∧ ¬ chess960 then
        mkSquare (if m.fromSq < m.toSq then 6 else 2) (rankOf m.fromSq)
      else m.toSq
    squareChars m.fromSq ++ squareChars t ++
      (if m.typ = MoveType.PROMOTION then [promoChar m.promo] else [])

/-- get_move_from: among the legal moves keep those with matching target,
moving piece type and (when expected) promotion; if several candidates
remain, filter by the file and/or rank disambiguators; return the unique
survivor or the none sentinel. -/
def get_move_from (pos : Position) (pt tsq promotion : Nat) (file rank : Int) :
    List Char × Move :=
  let l1 := pos.legalMoves.filter (fun m =>
    decide (m.toSq = tsq ∧ typeOfPiece (pos.pieceOn m.fromSq) = pt ∧
      ¬ (m.typ = MoveType.PROMOTION ∧ (promotion = 0 ∨ m.promo ≠ promotion))))
  if l1.length = 0 then ([], Move.none)
  else
    let l2 :=
      if 1 < l1.length then
        let la := if 0 ≤ file ∧ file ≤ 7 then
            l1.filter (fun m => decide ((fileOf m.fromSq : Int) = file))
          else l1
        if 0 ≤ rank ∧ rank ≤ 7 then
          la.filter (fun m => decide ((rankOf m.fromSq : Int) = rank))
        else la
      else l1
    if l2.length = 1 then
      (uciMove (l2.getD 0 Move.none) pos.isChess960, l2.getD 0 Move.none)
    else ([], Move.none)

/-- algebraic_to_move of san.cpp: try LAN, then SAN, then castling
tokens. -/
def algebraic_to_move (s : List Char) (pos : Position) : Move :=
  let us := pos.sideToMove
  match lanMatch s with
  | some (c0, c1, c2, c3, promOpt) =>
      let sq_from := get_square_from c0 c1
      let sq_to := get_square_from c2 c3
      if typeOfPiece (pos.pieceOn sq_from) = PAWN ∧
          relativeRank us (rankOf sq_to) = 7 then
        Move.mkPromotion sq_from sq_to
          (match promOpt with
           | some c => get_pt_from_prom c
           | Option.none => QUEEN)
      else if typeOfPiece (pos.pieceOn sq_from) = KING then
        if pos.isChess960 then
          if pos.pieceOn sq_to = makePiece us ROOK then
            Move.mkCastling sq_from sq_to
          else Move.mkNormal sq_from sq_to
        else if s = "e1g1".toList ∨ s = "e8g8".toList then
          Move.mkCastling (relativeSquare us 4)
            (pos.castlingRookSquare (colorAndCastling us KING_SIDE))
        else if s = "e1c1".toList ∨ s = "e8c8".toList then
          Move.mkCastling (relativeSquare us 4)
            (pos.castlingRookSquare (colorAndCastling us QUEEN_SIDE))
        else Move.mkNormal sq_from sq_to
      else Move.mkNormal sq_from sq_to
  | Option.none =>
  match sanMatch s with
  | some (g1, g2, g3, _g4, (t0, t1), g6) =>
      let p := match g1 with
        | some c => get_pt c
        | Option.none => PAWN
      let ambFile : Int := match g2 with
        | some c => if isDigitChar c then -1 else (c.toNat : Int) - 97
        | Option.none => -1
      let ambRank : Int := match g3 with
        | some c => (c.toNat : Int) - 49
        | Option.none =>
            match g2 with
            | some c => if isDigitChar c then (c.toNat : Int) - 49 else -1
            | Option.none => -1
      let sq_to := get_square_from t0 t1
      let promotion : Nat :=
        if p = PAWN ∧ relativeRank us (rankOf sq_to) = 7 then
          match g6 with
          | some c => get_pt_from_prom c
          | Option.none => QUEEN
        else 0
      (get_move_from pos p sq_to promotion ambFile ambRank).2
  | Option.none =>
      if s = "O-O".toList ∨ s = "o-o".toList ∨ s = "0-0".toList then
        Move.mkCastling (relativeSquare us 4)
          (pos.castlingRookSquare (colorAndCastling us KING_SIDE))
      else if s = "O-O-O".toList ∨ s = "o-o-o".toList ∨ s = "0-0-0".toList then
        Move.mkCastling (relativeSquare us 4)
          (pos.castlingRookSquare (colorAndCastling us QUEEN_SIDE))
      else Move.none

/-- to_san of san.cpp.  The check marker at the end makes the move on a
copy of the position and counts the legal replies; that board computation
belongs to the out-of-scope board module and is represented by the
abstract field `legalRepliesAfter`. -/
def to_san (m : Move) (pos : Position) : List Char :=
  if m = Move.none then "(none)".toList
  else if m = Move.null then "0000".toList
  else
    let body :=
      if m.typ = MoveType.CASTLING then
        if m.toSq < m.fromSq then "O-O-O".toList else "O-O".toList
      else
        let pt := typeOfPiece (pos.movedPiece m)
        let pieceStr :=
          if pt ≠ PAWN then
            [pieceLetter pt] ++
              (if popcountNat (if 1 < pos.pieces pos.sideToMove pt then 1 else 0)
                  ≠ 0 then
                let amb := pos.legalMoves.filter (fun n =>
                  decide (n.toSq = m.toSq ∧ typeOfPiece (pos.movedPiece n) = pt))
                if 1 < amb.length then
                  if amb.countP
                      (fun n => decide (fileOf m.fromSq = fileOf n.fromSq)) = 1 then
                    [Char.ofNat (97 + fileOf m.fromSq)]
                  else if amb.countP
                      (fun n => decide (rankOf m.fromSq = rankOf n.fromSq)) = 1 then
                    [Char.ofNat (49 + rankOf m.fromSq)]
                  else squareChars m.fromSq
                else []
              else [])
          else []
        let capStr :=
          if pos.capture m then
            (if pt = PAWN then [Char.ofNat (97 + fileOf m.fromSq)] else []) ++ ['x']
          else []
        pieceStr ++ capStr ++ squareChars m.toSq ++
          (if m.typ = MoveType.EN_PASSANT then "/e.p.".toList
           else if m.typ = MoveType.PROMOTION then ['=', pieceLetter m.promo]
           else [])
    body ++
      (if pos.givesCheck m then
        [if 0 < pos.legalRepliesAfter m then '+' else '#']
      else [])

/-- validate_move of san.cpp: with no legal moves return the none sentinel
immediately; otherwise parse the token and return the first legal move
equal to the parse, or the none sentinel. -/
def validate_move (pos : Position) (token : List Char) : Move :=
  match pos.legalMoves with
  | [] => Move.none
  | _ :: _ =>
      match pos.legalMoves.find? (fun m => m == algebraic_to_move token pos) with
      | some m => m
      | Option.none => Move.none

/-! ### Helper lemmas for the codec proofs -/

theorem toNat_ofNat_small (n : Nat) (h : n < 55296) : (Char.ofNat n).toNat = n := by
  unfold Char.ofNat
  split
  · rfl
  · rename_i hn
    exact absurd (Or.inl h) hn

theorem isFileChar_ofNat (f : Nat) (h : f < 8) :
    isFileChar (Char.ofNat (97 + f)) = true := by
  simp only [isFileChar, toNat_ofNat_small (97 + f) (by omega), decide_eq_true_eq]
  omega

theorem isRankChar_ofNat (r : Nat) (h : r < 8) :
    isRankChar (Char.ofNat (49 + r)) = true := by
  simp only [isRankChar, toNat_ofNat_small (49 + r) (by omega), decide_eq_true_eq]
  omega

theorem isLowerPromChar_promoChar (p : Nat) (h2 : 2 ≤ p) (h5 : p ≤ 5) :
    isLowerPromChar (promoChar p) = true := by
  interval_cases p <;> decide

theorem get_pt_from_prom_promoChar (p : Nat) (h2 : 2 ≤ p) (h5 : p ≤ 5) :
    get_pt_from_prom (promoChar p) = p := by
  interval_cases p <;> decide

theorem get_square_from_squareChars (s : Nat) (h : s < 64) :
    get_square_from (Char.ofNat (97 + fileOf s)) (Char.ofNat (49 + rankOf s)) = s := by
  have h1 : fileOf s < 8 := Nat.mod_lt _ (by omega)
  have h2 : rankOf s < 8 := Nat.div_lt_of_lt_mul (by omega)
  simp only [get_square_from, toNat_ofNat_small (97 + fileOf s) (by omega),
    toNat_ofNat_small (49 + rankOf s) (by omega)]
  simp only [mkSquare, fileOf, rankOf]
  omega

theorem square_of_chars {a u v : Nat} (ha : a < 64) (hu : u < 8) (hv : v < 8)
    (h1 : Char.ofNat (97 + fileOf a) = Char.ofNat (97 + u))
    (h2 : Char.ofNat (49 + rankOf a) = Char.ofNat (49 + v)) :
    a = mkSquare u v := by
  have hf : fileOf a < 8 := Nat.mod_lt _ (by omega)
  have hr : rankOf a < 8 := Nat.div_lt_of_lt_mul (by omega)
  have e1 := congrArg Char.toNat h1
  have e2 := congrArg Char.toNat h2
  rw [toNat_ofNat_small _ (by omega), toNat_ofNat_small _ (by omega)] at e1
  rw [toNat_ofNat_small _ (by omega), toNat_ofNat_small _ (by omega)] at e2
  simp only [fileOf, rankOf] at e1 e2
  simp only [mkSquare]
  omega

/-! ### C10: empty legal-move list -/

/-- C10: when the position has no legal moves, validate_move returns the
none sentinel for every input token (the function returns before any
parsing is attempted). -/
theorem validate_move_no_legal (pos : Position) (tok : List Char)
    (h : pos.legalMoves = []) : validate_move pos tok = Move.none := by
  unfold validate_move
  rw [h]

/-- Witness: a position with an empty legal-move list rejects an arbitrary
token. -/
theorem validate_move_no_legal_witness :
    validate_move { legalMoves := [] } "e2e4".toList = Move.none :=
  validate_move_no_legal { legalMoves := [] } "e2e4".toList rfl

/-! ### C9: en-passant rendering of to_san -/

/-- C9: for an en-passant move (not none, not null, a pawn capture in the
position), to_san emits the pawn-capture notation followed by the literal
suffix "/e.p." directly after the target square and before any check
marker. -/
theorem to_san_en_passant (pos : Position) (m : Move)
    (hn : m ≠ Move.none) (hnl : m ≠ Move.null)
    (ht : m.typ = MoveType.EN_PASSANT)
    (hc : pos.capture m = true)
    (hp : typeOfPiece (pos.movedPiece m) = PAWN) :
    to_san m pos
      = [Char.ofNat (97 + fileOf m.fromSq), 'x'] ++ squareChars m.toSq
          ++ "/e.p.".toList
          ++ (if pos.givesCheck m then
                [if 0 < pos.legalRepliesAfter m then '+' else '#']
              else []) := by
  rw [to_san, if_neg hn, if_neg hnl]
  have hnc : ¬ m.typ = MoveType.CASTLING := by rw [ht]; intro hcon; cases hcon
  rw [if_neg hnc, hp]
  simp [ht, hc]

/-- Demonstration position for the en-passant rendering: a white pawn on
e5 with the en-passant capture to d6 available. -/
def epDemoPos : Position :=
  { pieceOn := fun s => if s = 36 then 1 else 0,
    capture := fun _ => true,
    movedPiece := fun _ => 1,
    legalMoves := [Move.mkEnPassant 36 43] }

/-- Witness for the en-passant rendering: a white pawn on e5 capturing on
d6 en passant renders as "exd6/e.p.". -/
theorem to_san_en_passant_witness :
    to_san (Move.mkEnPassant 36 43) epDemoPos = "exd6/e.p.".toList := by
  rw [to_san_en_passant epDemoPos (Move.mkEnPassant 36 43) (by decide) (by decide)
    (by decide) (by decide) (by decide)]
  decide

/-! ### C1: validate_move on the engine's own LAN rendering -/

/-- Shape of uciMove on a normal (or en-passant) move. -/
theorem uciMove_plain (m : Move) (c : Bool) (hn : m ≠ Move.none)
    (hnl : m ≠ Move.null) (ht : m.typ = MoveType.NORMAL ∨ m.typ = MoveType.EN_PASSANT) :
    uciMove m c = squareChars m.fromSq ++ squareChars m.toSq := by
  rw [uciMove, if_neg hn, if_neg hnl]
  rcases ht with ht | ht <;> simp [ht]

/-- Shape of uciMove on a promotion. -/
theorem uciMove_promo (m : Move) (c : Bool) (hn : m ≠ Move.none)
    (hnl : m ≠ Move.null) (ht : m.typ = MoveType.PROMOTION) :
    uciMove m c = squareChars m.fromSq ++ squareChars m.toSq ++ [promoChar m.promo] := by
  rw [uciMove, if_neg hn, if_neg hnl]
  simp [ht]

/-- Shape of uciMove on a Chess960 castling move. -/
theorem uciMove_castle960 (m : Move) (hn : m ≠ Move.none)
    (hnl : m ≠ Move.null) (ht : m.typ = MoveType.CASTLING) :
    uciMove m true = squareChars m.fromSq ++ squareChars m.toSq := by
  rw [uciMove, if_neg hn, if_neg hnl]
  simp [ht]

/-- Shape of uciMove on a standard-chess castling move: the to-square is the
king's g- or c-file destination. -/
theorem uciMove_castleStd (m : Move) (hn : m ≠ Move.none)
    (hnl : m ≠ Move.null) (ht : m.typ = MoveType.CASTLING) :
    uciMove m false = squareChars m.fromSq
      ++ squareChars (mkSquare (if m.fromSq < m.toSq then 6 else 2) (rankOf m.fromSq)) := by
  rw [uciMove, if_neg hn, if_neg hnl]
  simp [ht]

theorem fileOf_lt (s : Nat) : fileOf s < 8 := Nat.mod_lt _ (by omega)

theorem rankOf_lt (s : Nat) (h : s < 64) : rankOf s < 8 :=
  Nat.div_lt_of_lt_mul (by omega)

/-- The LAN matcher accepts the rendering of two squares. -/
theorem lanMatch_squares (a b : Nat) (ha : a < 64) (hb : b < 64) :
    lanMatch (squareChars a ++ squareChars b)
      = some (Char.ofNat (97 + fileOf a), Char.ofNat (49 + rankOf a),
              Char.ofNat (97 + fileOf b), Char.ofNat (49 + rankOf b), Option.none) := by
  simp only [squareChars, List.cons_append, List.nil_append, lanMatch,
    isFileChar_ofNat _ (fileOf_lt a), isRankChar_ofNat _ (rankOf_lt a ha),
    isFileChar_ofNat _ (fileOf_lt b), isRankChar_ofNat _ (rankOf_lt b hb),
    Bool.and_self, Bool.and_true, Bool.true_and, if_true]

/-- The LAN matcher accepts the rendering of two squares plus a promotion
glyph. -/
theorem lanMatch_squares_promo (a b p : Nat) (ha : a < 64) (hb : b < 64)
    (h2 : 2 ≤ p) (h5 : p ≤ 5) :
    lanMatch (squareChars a ++ squareChars b ++ [promoChar p])
      = some (Char.ofNat (97 + fileOf a), Char.ofNat (49 + rankOf a),
              Char.ofNat (97 + fileOf b), Char.ofNat (49 + rankOf b), some (promoChar p)) := by
  simp only [squareChars, List.cons_append, List.nil_append, lanMatch,
    isFileChar_ofNat _ (fileOf_lt a), isRankChar_ofNat _ (rankOf_lt a ha),
    isFileChar_ofNat _ (fileOf_lt b), isRankChar_ofNat _ (rankOf_lt b hb),
    isLowerPromChar_promoChar p h2 h5,
    Bool.and_self, Bool.and_true, Bool.true_and, if_true]

/-- A plain two-square rendering differs from a given four-character string
unless the squares match. -/
theorem squares_string_ne (a b : Nat) (ha : a < 64) (hb : b < 64)
    (u v p q : Nat) (hu : u < 8) (hv : v < 8) (hp : p < 8) (hq : q < 8)
    (hne : ¬ (a = mkSquare u v ∧ b = mkSquare p q)) :
    squareChars a ++ squareChars b
      ≠ [Char.ofNat (97 + u), Char.ofNat (49 + v),
         Char.ofNat (97 + p), Char.ofNat (49 + q)] := by
  intro h
  simp only [squareChars, List.cons_append, List.nil_append, List.cons.injEq,
    and_true] at h
  exact hne ⟨square_of_chars ha hu hv h.1 h.2.1,
    square_of_chars hb hp hq h.2.2.1 h.2.2.2⟩

/-- Well-formedness of a position's legal-move list with respect to the
board rules that san.cpp relies on.  All conditions quantify over the legal
moves only (they hold for every chess position: normal moves carry zero
promotion bits, a pawn reaching the relative eighth rank promotes, kings
move a single square except in castling, a castling move goes from the
king square to the rook square with the side given by the direction). -/
@[reducible] def SanWF (pos : Position) : Prop :=
  (pos.sideToMove = 0 ∨ pos.sideToMove = 1) ∧
  (∀ n ∈ pos.legalMoves, n.fromSq < 64 ∧ n.toSq < 64) ∧
  (∀ n ∈ pos.legalMoves, n ≠ Move.none ∧ n ≠ Move.null) ∧
  (∀ n ∈ pos.legalMoves, n.typ ≠ MoveType.PROMOTION → n.promo = 2) ∧
  (∀ n ∈ pos.legalMoves, n.typ = MoveType.PROMOTION →
      (2 ≤ n.promo ∧ n.promo ≤ 5) ∧ typeOfPiece (pos.pieceOn n.fromSq) = PAWN ∧
      relativeRank pos.sideToMove (rankOf n.toSq) = 7) ∧
  (∀ n ∈ pos.legalMoves, n.typ = MoveType.NORMAL →
      typeOfPiece (pos.pieceOn n.fromSq) = PAWN →
      relativeRank pos.sideToMove (rankOf n.toSq) ≠ 7) ∧
  (∀ n ∈ pos.legalMoves, n.typ = MoveType.NORMAL →
      typeOfPiece (pos.pieceOn n.fromSq) = KING →
      (pos.isChess960 = true → pos.pieceOn n.toSq ≠ makePiece pos.sideToMove ROOK) ∧
      (pos.isChess960 = false →
        ¬ ((n.fromSq = 4 ∧ n.toSq = 6) ∨ (n.fromSq = 4 ∧ n.toSq = 2) ∨
           (n.fromSq = 60 ∧ n.toSq = 62) ∨ (n.fromSq = 60 ∧ n.toSq = 58)))) ∧
  (∀ n ∈ pos.legalMoves, n.typ = MoveType.CASTLING →
      typeOfPiece (pos.pieceOn n.fromSq) = KING ∧
      (pos.isChess960 = true → pos.pieceOn n.toSq = makePiece pos.sideToMove ROOK) ∧
      (pos.isChess960 = false →
        n.fromSq = relativeSquare pos.sideToMove 4 ∧
        ((n.fromSq < n.toSq ∧
            n.toSq = pos.castlingRookSquare (colorAndCastling pos.sideToMove KING_SIDE)) ∨
         (n.toSq < n.fromSq ∧
            n.toSq = pos.castlingRookSquare (colorAndCastling pos.sideToMove QUEEN_SIDE)))))

/-- Parsing the engine's own LAN rendering recovers the move, for every
legal move that is not an en-passant capture. -/
theorem atm_uci (pos : Position) (m : Move) (hm : m ∈ pos.legalMoves)
    (hep : m.typ ≠ MoveType.EN_PASSANT) (wf : SanWF pos) :
    algebraic_to_move (uciMove m pos.isChess960) pos = m := by
  obtain ⟨wfus, wfb, wfnn, wfp2, wfpr, wfpw, wfkn, wfca⟩ := wf
  obtain ⟨hf64, ht64⟩ := wfb m hm
  obtain ⟨hn, hnl⟩ := wfnn m hm
  obtain ⟨f, t, ty, pr⟩ := m
  simp only at hf64 ht64
  cases ty with
  | EN_PASSANT => exact absurd rfl hep
  | NORMAL =>
      have hpromo : pr = 2 := wfp2 _ hm (by intro hc; cases hc)
      rw [uciMove_plain _ _ hn hnl (Or.inl rfl)]
      simp only [algebraic_to_move, lanMatch_squares f t hf64 ht64,
        get_square_from_squareChars f hf64, get_square_from_squareChars t ht64]
      by_cases hpawn : typeOfPiece (pos.pieceOn f) = PAWN
      · have hr7 := wfpw _ hm rfl hpawn
        simp only at hr7
        rw [if_neg (by intro hc; exact hr7 hc.2)]
        have hnk : ¬ typeOfPiece (pos.pieceOn f) = KING := by
          rw [hpawn]; decide
        rw [if_neg hnk]
        simp [Move.mkNormal, hpromo]
      · rw [if_neg (by intro hc; exact hpawn hc.1)]
        by_cases hking : typeOfPiece (pos.pieceOn f) = KING
        · rw [if_pos hking]
          obtain ⟨h960i, hstdi⟩ := wfkn _ hm rfl hking
          simp only at h960i hstdi
          cases h960 : pos.isChess960 with
          | true =>
              rw [if_pos rfl]
              rw [if_neg (h960i h960)]
              simp [Move.mkNormal, hpromo]
          | false =>
              rw [if_neg (by simp)]
              have hnot := hstdi h960
              have hne1 : squareChars f ++ squareChars t ≠ "e1g1".toList := by
                intro h
                exact squares_string_ne f t hf64 ht64 4 0 6 0 (by omega) (by omega)
                  (by omega) (by omega)
                  (by intro hc; exact hnot (Or.inl (by
                    simp [mkSquare] at hc; omega)))
                  (h.trans (by decide))
              have hne2 : squareChars f ++ squareChars t ≠ "e8g8".toList := by
                intro h
                exact squares_string_ne f t hf64 ht64 4 7 6 7 (by omega) (by omega)
                  (by omega) (by omega)
                  (by intro hc; exact hnot (Or.inr (Or.inr (Or.inl (by
                    simp [mkSquare] at hc; omega)))))
                  (h.trans (by decide))
              have hne3 : squareChars f ++ squareChars t ≠ "e1c1".toList := by
                intro h
                exact squares_string_ne f t hf64 ht64 4 0 2 0 (by omega) (by omega)
                  (by omega) (by omega)
                  (by intro hc; exact hnot (Or.inr (Or.inl (by
                    simp [mkSquare] at hc; omega))))
                  (h.trans (by decide))
              have hne4 : squareChars f ++ squareChars t ≠ "e8c8".toList := by
                intro h
                exact squares_string_ne f t hf64 ht64 4 7 2 7 (by omega) (by omega)
                  (by omega) (by omega)
                  (by intro hc; exact hnot (Or.inr (Or.inr (Or.inr (by
                    simp [mkSquare] at hc; omega)))))
                  (h.trans (by decide))
              rw [if_neg (fun hc => hc.elim hne1 hne2)]
              rw [if_neg (fun hc => hc.elim hne3 hne4)]
              simp [Move.mkNormal, hpromo]
        · rw [if_neg hking]
          simp [Move.mkNormal, hpromo]
  | PROMOTION =>
      obtain ⟨⟨hp2, hp5⟩, hpawn, hrank⟩ := wfpr _ hm rfl
      simp only at hpawn hrank
      rw [uciMove_promo _ _ hn hnl rfl]
      simp only [algebraic_to_move, lanMatch_squares_promo f t pr hf64 ht64 hp2 hp5,
        get_square_from_squareChars f hf64, get_square_from_squareChars t ht64]
      rw [if_pos ⟨hpawn, hrank⟩]
      simp [Move.mkPromotion, get_pt_from_prom_promoChar pr hp2 hp5]
  | CASTLING =>
      have hpromo : pr = 2 := wfp2 _ hm (by intro hc; cases hc)
      obtain ⟨hking, h960i, hstdi⟩ := wfca _ hm rfl
      simp only at hking h960i hstdi
      have hnp : ¬ (typeOfPiece (pos.pieceOn f) = PAWN ∧
          relativeRank pos.sideToMove (rankOf t) = 7) := by
        intro hc
        rw [hking] at hc
        exact absurd hc.1 (by decide)
      cases h960 : pos.isChess960 with
      | true =>
          rw [uciMove_castle960 _ hn hnl rfl]
          simp only [algebraic_to_move, lanMatch_squares f t hf64 ht64,
            get_square_from_squareChars f hf64, get_square_from_squareChars t ht64]
          rw [if_neg hnp, if_pos hking, if_pos h960, if_pos (h960i h960)]
          simp [Move.mkCastling, hpromo]
      | false =>
          obtain ⟨hfrom, hside⟩ := hstdi h960
          rw [uciMove_castleStd _ hn hnl rfl]
          rcases wfus with hus | hus
          · -- white
            rw [hus] at hfrom hside
            rw [show relativeSquare 0 4 = 4 from rfl] at hfrom
            subst hfrom
            rcases hside with ⟨hlt, hto⟩ | ⟨hlt, hto⟩
            · -- kingside: rendered "e1g1"
              simp only [if_pos hlt]
              have hs : squareChars 4 ++ squareChars (mkSquare 6 (rankOf 4))
                  = "e1g1".toList := by decide
              rw [hs]
              simp only [algebraic_to_move]
              rw [show lanMatch "e1g1".toList
                  = some ('e', '1', 'g', '1', Option.none) from rfl]
              simp only
              rw [show get_square_from 'e' '1' = 4 from rfl,
                show get_square_from 'g' '1' = 6 from rfl]
              rw [if_neg (by intro hc; rw [hking] at hc; exact absurd hc.1 (by decide)),
                if_pos hking, h960]
              rw [if_neg (by simp), if_pos (by decide)]
              rw [hus]
              simp [Move.mkCastling, relativeSquare, hpromo, hto]
            · -- queenside: rendered "e1c1"
              have hnlt : ¬ (4 < t) := by omega
              simp only [if_neg hnlt]
              have hs : squareChars 4 ++ squareChars (mkSquare 2 (rankOf 4))
                  = "e1c1".toList := by decide
              rw [hs]
              simp only [algebraic_to_move]
              rw [show lanMatch "e1c1".toList
                  = some ('e', '1', 'c', '1', Option.none) from rfl]
              simp only
              rw [show get_square_from 'e' '1' = 4 from rfl,
                show get_square_from 'c' '1' = 2 from rfl]
              rw [if_neg (by intro hc; rw [hking] at hc; exact absurd hc.1 (by decide)),
                if_pos hking, h960]
              rw [if_neg (by simp), if_neg (by decide), if_pos (by decide)]
              rw [hus]
              simp [Move.mkCastling, relativeSquare, hpromo, hto]
          · -- black
            rw [hus] at hfrom hside
            rw [show relativeSquare 1 4 = 60 from by decide] at hfrom
            subst hfrom
            rcases hside with ⟨hlt, hto⟩ | ⟨hlt, hto⟩
            · -- kingside: rendered "e8g8"
              simp only [if_pos hlt]
              have hs : squareChars 60 ++ squareChars (mkSquare 6 (rankOf 60))
                  = "e8g8".toList := by decide
              rw [hs]
              simp only [algebraic_to_move]
              rw [show lanMatch "e8g8".toList
                  = some ('e', '8', 'g', '8', Option.none) from rfl]
              simp only
              rw [show get_square_from 'e' '8' = 60 from rfl,
                show get_square_from 'g' '8' = 62 from rfl]
              rw [if_neg (by intro hc; rw [hking] at hc; exact absurd hc.1 (by decide)),
                if_pos hking, h960]
              rw [if_neg (by simp), if_pos (by decide)]
              rw [hus]
              simp [Move.mkCastling, relativeSquare, hpromo, hto]
            · -- queenside: rendered "e8c8"
              have hnlt : ¬ (60 < t) := by omega
              simp only [if_neg hnlt]
              have hs : squareChars 60 ++ squareChars (mkSquare 2 (rankOf 60))
                  = "e8c8".toList := by decide
              rw [hs]
              simp only [algebraic_to_move]
              rw [show lanMatch "e8c8".toList
                  = some ('e', '8', 'c', '8', Option.none) from rfl]
              simp only
              rw [show get_square_from 'e' '8' = 60 from rfl,
                show get_square_from 'c' '8' = 58 from rfl]
              rw [if_neg (by intro hc; rw [hking] at hc; exact absurd hc.1 (by decide)),
                if_pos hking, h960]
              rw [if_neg (by simp), if_neg (by decide), if_pos (by decide)]
              rw [hus]
              simp [Move.mkCastling, relativeSquare, hpromo, hto]

theorem find_self (l : List Move) (m : Move) (hm : m ∈ l) :
    (match l.find? (fun n => n == m) with
     | some x => x
     | Option.none => Move.none) = m := by
  induction l with
  | nil => cases hm
  | cons a l ih =>
      by_cases ha : (a == m) = true
      · simp only [List.find?, ha]
        exact eq_of_beq ha
      · rw [Bool.not_eq_true] at ha
        simp only [List.find?, ha]
        apply ih
        rcases List.mem_cons.mp hm with rfl | h
        · rw [beq_self_eq_true] at ha; cases ha
        · exact h

/-- C1 (amended): for every well-formed position and every legal move of a
type other than EN_PASSANT, parsing the engine's own LAN rendering with
algebraic_to_move and checking membership in the legal list returns exactly
the move, bit-equal, including the special-type bits for castling and
promotion.  (For an en-passant move the LAN parse produces a NORMAL-typed
word, which is not bit-equal to any legal move, so validate_move returns
the none sentinel: see the counterexample.) -/
theorem validate_move_uci (pos : Position) (m : Move) (hm : m ∈ pos.legalMoves)
    (hep : m.typ ≠ MoveType.EN_PASSANT) (wf : SanWF pos) :
    validate_move pos (uciMove m pos.isChess960) = m := by
  have hatm := atm_uci pos m hm hep wf
  unfold validate_move
  rw [hatm]
  cases hl : pos.legalMoves with
  | nil => rw [hl] at hm; cases hm
  | cons a l =>
      rw [hl] at hm
      exact find_self (a :: l) m hm

/-- Demonstration position for the roundtrip: start position reduced to two
legal pawn moves from e2. -/
def c1DemoPos : Position :=
  { sideToMove := 0,
    pieceOn := fun s => if s = 12 then 1 else 0,
    legalMoves := [Move.mkNormal 12 28, Move.mkNormal 12 20] }

/-- Witness: the roundtrip holds for e2e4 in the demonstration position. -/
theorem validate_move_uci_witness :
    validate_move c1DemoPos (uciMove (Move.mkNormal 12 28) c1DemoPos.isChess960)
      = Move.mkNormal 12 28 :=
  validate_move_uci c1DemoPos (Move.mkNormal 12 28) (by decide) (by decide)
    (by refine ⟨Or.inl rfl, ?_, ?_, ?_, ?_, ?_, ?_, ?_⟩ <;> decide)

/-- Demonstration position with a legal en-passant capture (white pawn e5
takes d6 en passant). -/
def epC1Pos : Position :=
  { sideToMove := 0,
    pieceOn := fun s => if s = 36 then 1 else 0,
    legalMoves := [Move.mkEnPassant 36 43] }

/-- Counterexample to C1 as stated: the en-passant move e5xd6 is legal, but
validate_move on its own LAN rendering "e5d6" returns the none sentinel
(the parse yields a NORMAL-typed move whose special-type bits differ), not
the move itself. -/
theorem validate_move_uci_en_passant_counterexample :
    Move.mkEnPassant 36 43 ∈ epC1Pos.legalMoves ∧
    validate_move epC1Pos (uciMove (Move.mkEnPassant 36 43) epC1Pos.isChess960)
      = Move.none := by
  constructor
  · decide
  · decide

/-! ### C5: is_ok on the outputs of to_san

Acceptance lemmas for the SAN pattern: a string that contains, after the
optional one-character groups, a file-rank pair followed by
non-line-terminator characters is matched.  Each lemma corresponds to one
ECMAScript alternative (present or empty) of a group. -/

theorem match6_isSome (s : List Char) (h : matchTail s = true) :
    (match6 s).isSome = true := by
  cases s with
  | nil => simp [match6, h]
  | cons a rest =>
      by_cases ha : a = '='
      · subst ha
        cases rest with
        | nil => simp [match6, h]
        | cons c r =>
            simp only [match6]
            by_cases hc : (isUpperPromChar c && matchTail r) = true
            · simp [hc]
            · simp [hc, h]
      · cases rest with
        | nil => simp [match6, ha, h]
        | cons c r => simp [match6, ha, h]

theorem match5_isSome (a b : Char) (tail : List Char) (ha : isFileChar a = true)
    (hb : isRankChar b = true) (ht : matchTail tail = true) :
    (match5 (a :: b :: tail)).isSome = true := by
  simp only [match5, ha, hb, Bool.and_self, if_true]
  have h6 := match6_isSome tail ht
  cases hopt : match6 tail with
  | none => rw [hopt] at h6; cases h6
  | some g => simp

theorem match4_of_match5 (s : List Char) (h : (match5 s).isSome = true) :
    (match4 s).isSome = true := by
  cases hopt : match5 s with
  | none => rw [hopt] at h; cases h
  | some r =>
      cases s with
      | nil => cases hopt
      | cons c rest =>
          by_cases hx : c = 'x'
          · subst hx
            simp only [match4]
            cases h5 : match5 rest with
            | none => simp [hopt]
            | some r2 => simp
          · simp [match4, hx, hopt]

theorem match4_consume_x (s : List Char) (h : (match5 s).isSome = true) :
    (match4 ('x' :: s)).isSome = true := by
  cases hopt : match5 s with
  | none => rw [hopt] at h; cases h
  | some r => simp [match4, hopt]

theorem match3_of_match4 (s : List Char) (h : (match4 s).isSome = true) :
    (match3 s).isSome = true := by
  cases hopt : match4 s with
  | none => rw [hopt] at h; cases h
  | some r =>
      cases s with
      | nil => simp [match3, hopt]
      | cons c rest =>
          by_cases hc : isRankChar c = true
          · simp only [match3, hc, if_true]
            cases h4 : match4 rest with
            | none => simp [hopt]
            | some r2 => simp
          · simp [match3, hc, hopt]

theorem match3_consume (c : Char) (s : List Char) (hc : isRankChar c = true)
    (h : (match4 s).isSome = true) : (match3 (c :: s)).isSome = true := by
  cases hopt : match4 s with
  | none => rw [hopt] at h; cases h
  | some r => simp [match3, hc, hopt]

theorem match2_of_match3 (s : List Char) (h : (match3 s).isSome = true) :
    (match2 s).isSome = true := by
  cases hopt : match3 s with
  | none => rw [hopt] at h; cases h
  | some r =>
      cases s with
      | nil => simp [match2, hopt]
      | cons c rest =>
          by_cases hc : (isFileChar c || isRankChar c) = true
          · simp only [match2, hc, if_true]
            cases h3 : match3 rest with
            | none => simp [hopt]
            | some r2 => simp
          · simp [match2, hc, hopt]

theorem match2_consume (c : Char) (s : List Char)
    (hc : (isFileChar c || isRankChar c) = true)
    (h : (match3 s).isSome = true) : (match2 (c :: s)).isSome = true := by
  cases hopt : match3 s with
  | none => rw [hopt] at h; cases h
  | some r => simp [match2, hc, hopt]

theorem sanMatch_of_match2 (s : List Char) (h : (match2 s).isSome = true) :
    (sanMatch s).isSome = true := by
  cases hopt : match2 s with
  | none => rw [hopt] at h; cases h
  | some r =>
      cases s with
      | nil => simp [sanMatch, hopt]
      | cons c rest =>
          by_cases hc : isUpperPieceChar c = true
          · simp only [sanMatch, hc, if_true]
            cases h2 : match2 rest with
            | none => simp [hopt]
            | some r2 => simp
          · simp [sanMatch, hc, hopt]

theorem sanMatch_consume (c : Char) (s : List Char)
    (hc : isUpperPieceChar c = true)
    (h : (match2 s).isSome = true) : (sanMatch (c :: s)).isSome = true := by
  cases hopt : match2 s with
  | none => rw [hopt] at h; cases h
  | some r => simp [sanMatch, hc, hopt]

theorem is_ok_of_san (s : List Char) (h : (sanMatch s).isSome = true) :
    is_ok s = true := by
  unfold is_ok
  by_cases hl : (lanMatch s).isSome
  · simp [hl]
  · simp [hl, h]

theorem pieceLetter_dot (p : Nat) : isDotChar (pieceLetter p) = true := by
  unfold pieceLetter
  by_cases h : p < 7
  · interval_cases p <;> decide
  · rw [List.getD_eq_default]
    · decide
    · simp
      omega

theorem isUpperPieceChar_pieceLetter (p : Nat) (h2 : 2 ≤ p) (h6 : p ≤ 6) :
    isUpperPieceChar (pieceLetter p) = true := by
  interval_cases p <;> decide

theorem accept_sq_tail (tsq : Nat) (hto : tsq < 64) (tail : List Char)
    (ht : matchTail tail = true) :
    (match4 (squareChars tsq ++ tail)).isSome = true := by
  simp only [squareChars, List.cons_append, List.nil_append]
  exact match4_of_match5 _
    (match5_isSome _ _ tail (isFileChar_ofNat _ (fileOf_lt tsq))
      (isRankChar_ofNat _ (rankOf_lt tsq hto)) ht)

theorem accept_x_sq_tail (tsq : Nat) (hto : tsq < 64) (tail : List Char)
    (ht : matchTail tail = true) :
    (match4 ('x' :: (squareChars tsq ++ tail))).isSome = true := by
  simp only [squareChars, List.cons_append, List.nil_append]
  exact match4_consume_x _
    (match5_isSome _ _ tail (isFileChar_ofNat _ (fileOf_lt tsq))
      (isRankChar_ofNat _ (rankOf_lt tsq hto)) ht)

/-- The SAN pattern accepts every non-castling to_san output (under the
board facts that hold for legal moves: real squares, a real moved piece,
the move being neither sentinel). -/
theorem sanMatch_to_san (pos : Position) (m : Move)
    (hn : m ≠ Move.none) (hnl : m ≠ Move.null)
    (hf : m.fromSq < 64) (ht : m.toSq < 64)
    (hpt1 : 1 ≤ typeOfPiece (pos.movedPiece m))
    (hpt6 : typeOfPiece (pos.movedPiece m) ≤ 6)
    (hnc : m.typ ≠ MoveType.CASTLING) :
    (sanMatch (to_san m pos)).isSome = true := by
  rw [to_san, if_neg hn, if_neg hnl]
  simp only [if_neg hnc]
  have htail : matchTail
      ((if m.typ = MoveType.EN_PASSANT then "/e.p.".toList
        else if m.typ = MoveType.PROMOTION then ['=', pieceLetter m.promo]
        else []) ++
       (if pos.givesCheck m then
          [if 0 < pos.legalRepliesAfter m then '+' else '#']
        else [])) = true := by
    simp only [matchTail, List.all_append, Bool.and_eq_true]
    constructor
    · by_cases h1 : m.typ = MoveType.EN_PASSANT
      · simp [h1]; decide
      · by_cases h2 : m.typ = MoveType.PROMOTION
        · simp [h1, h2, List.all_cons, pieceLetter_dot]
          decide
        · simp [h1, h2]
    · by_cases h1 : pos.givesCheck m
      · by_cases h2 : 0 < pos.legalRepliesAfter m <;> simp [h1, h2] <;> decide
      · simp [h1]
  set tail := (if m.typ = MoveType.EN_PASSANT then "/e.p.".toList
        else if m.typ = MoveType.PROMOTION then ['=', pieceLetter m.promo]
        else []) ++
       (if pos.givesCheck m then
          [if 0 < pos.legalRepliesAfter m then '+' else '#']
        else []) with htaildef
  by_cases hp : typeOfPiece (pos.movedPiece m) = PAWN
  · -- pawn: no piece letter, origin file before x on captures
    simp only [hp]
    rw [if_neg (by simp [PAWN])]
    by_cases hc : pos.capture m
    · simp only [hc, if_pos rfl, if_pos rfl]
      have h3 : (match3 ('x' :: (squareChars m.toSq ++ tail))).isSome = true :=
        match3_of_match4 _ (accept_x_sq_tail m.toSq ht tail htail)
      have h2 : (match2 (Char.ofNat (97 + fileOf m.fromSq) :: 'x'
          :: (squareChars m.toSq ++ tail))).isSome = true :=
        match2_consume _ _ (by simp [isFileChar_ofNat _ (fileOf_lt m.fromSq)]) h3
      have hs := sanMatch_of_match2 _ h2
      simpa using hs
    · simp only [hc]
      have h4 := accept_sq_tail m.toSq ht tail htail
      have hs := sanMatch_of_match2 _ (match2_of_match3 _ (match3_of_match4 _ h4))
      simpa using hs
  · -- a real piece: letter, optional disambiguation, optional x
    have hpt2 : 2 ≤ typeOfPiece (pos.movedPiece m) := by
      have : typeOfPiece (pos.movedPiece m) ≠ 1 := by simpa [PAWN] using hp
      omega
    simp only [if_pos hp]
    simp only [if_neg hp, List.nil_append]
    have hx4 : (match4 ((if pos.capture m then ['x'] else [])
        ++ (squareChars m.toSq ++ tail))).isSome = true := by
      by_cases hc : pos.capture m
      · simp only [hc, if_pos rfl, List.cons_append, List.nil_append]
        exact accept_x_sq_tail m.toSq ht tail htail
      · simp only [hc, if_neg, List.nil_append]
        · exact accept_sq_tail m.toSq ht tail htail
    have hupper := isUpperPieceChar_pieceLetter _ hpt2 hpt6
    have hfc := isFileChar_ofNat _ (fileOf_lt m.fromSq)
    have hrc := isRankChar_ofNat _ (rankOf_lt m.fromSq hf)
    by_cases hpop :
        popcountNat (if 1 < pos.pieces pos.sideToMove (typeOfPiece (pos.movedPiece m))
          then 1 else 0) ≠ 0
    · simp only [if_pos hpop]
      set amb := pos.legalMoves.filter (fun n =>
        decide (n.toSq = m.toSq ∧
          typeOfPiece (pos.movedPiece n) = typeOfPiece (pos.movedPiece m))) with hambdef
      by_cases hamb : 1 < amb.length
      · simp only [if_pos hamb]
        by_cases hcf : amb.countP
            (fun n => decide (fileOf m.fromSq = fileOf n.fromSq)) = 1
        · -- file disambiguation
          simp only [if_pos hcf]
          have h2 : (match2 (Char.ofNat (97 + fileOf m.fromSq)
              :: ((if pos.capture m then ['x'] else [])
                  ++ (squareChars m.toSq ++ tail)))).isSome = true :=
            match2_consume _ _ (by simp [hfc]) (match3_of_match4 _ hx4)
          have hs := sanMatch_consume _ _ hupper h2
          simpa using hs
        · simp only [if_neg hcf]
          by_cases hcr : amb.countP
              (fun n => decide (rankOf m.fromSq = rankOf n.fromSq)) = 1
          · -- rank disambiguation
            simp only [if_pos hcr]
            have h2 : (match2 (Char.ofNat (49 + rankOf m.fromSq)
                :: ((if pos.capture m then ['x'] else [])
                    ++ (squareChars m.toSq ++ tail)))).isSome = true :=
              match2_consume _ _ (by simp [hrc]) (match3_of_match4 _ hx4)
            have hs := sanMatch_consume _ _ hupper h2
            simpa using hs
          · -- full square disambiguation
            simp only [if_neg hcr]
            have h3 : (match3 (Char.ofNat (49 + rankOf m.fromSq)
                :: ((if pos.capture m then ['x'] else [])
                    ++ (squareChars m.toSq ++ tail)))).isSome = true :=
              match3_consume _ _ hrc hx4
            have h2 : (match2 (Char.ofNat (97 + fileOf m.fromSq)
                :: Char.ofNat (49 + rankOf m.fromSq)
                :: ((if pos.capture m then ['x'] else [])
                    ++ (squareChars m.toSq ++ tail)))).isSome = true :=
              match2_consume _ _ (by simp [hfc]) h3
            have hs := sanMatch_consume _ _ hupper h2
            simpa [squareChars] using hs
      · simp only [if_neg hamb]
        have hs := sanMatch_consume _ _ hupper
          (match2_of_match3 _ (match3_of_match4 _ hx4))
        simpa [htaildef] using hs
    · simp only [if_neg hpop]
      have hs := sanMatch_consume _ _ hupper
        (match2_of_match3 _ (match3_of_match4 _ hx4))
      simpa [htaildef] using hs

/-- C5 (amended): is_ok accepts every to_san output of a non-castling
legal move (real squares, real moved piece, not a sentinel).  Of the
castling outputs, the kingside token "O-O" is accepted, but the queenside
output "O-O-O" is rejected (the queenside comparison reads the original
string instead of the lowercased copy), and a castling output carrying a
check marker (such as "O-O+") is rejected as well. -/
theorem is_ok_to_san (pos : Position) (m : Move)
    (hn : m ≠ Move.none) (hnl : m ≠ Move.null)
    (hf : m.fromSq < 64) (ht : m.toSq < 64)
    (hpt1 : 1 ≤ typeOfPiece (pos.movedPiece m))
    (hpt6 : typeOfPiece (pos.movedPiece m) ≤ 6)
    (hnc : m.typ ≠ MoveType.CASTLING) :
    is_ok (to_san m pos) = true
      ∧ is_ok "O-O".toList = true
      ∧ is_ok "O-O-O".toList = false
      ∧ is_ok ("O-O".toList ++ ['+']) = false := by
  refine ⟨is_ok_of_san _ (sanMatch_to_san pos m hn hnl hf ht hpt1 hpt6 hnc),
    by decide, by decide, by decide⟩

/-- Demonstration position with a legal white queenside castling move and
no check given by it. -/
def c5Pos : Position := { legalMoves := [Move.mkCastling 4 0] }

/-- Counterexample to C5 as stated: queenside castling is legal here and
to_san renders it as "O-O-O", but is_ok rejects that string — the source
compares the original string (not the lowercased copy) against "o-o-o". -/
theorem is_ok_to_san_counterexample :
    Move.mkCastling 4 0 ∈ c5Pos.legalMoves ∧
    to_san (Move.mkCastling 4 0) c5Pos = "O-O-O".toList ∧
    is_ok (to_san (Move.mkCastling 4 0) c5Pos) = false := by
  refine ⟨by decide, by decide, by decide⟩

/-- Demonstration position for the amended C5: a pawn move. -/
def c5WitPos : Position := { sideToMove := 0, movedPiece := fun _ => 1 }

/-- Witness: the amended C5 applied to a pawn push. -/
theorem is_ok_to_san_witness :
    is_ok (to_san (Move.mkNormal 12 28) c5WitPos) = true
      ∧ is_ok "O-O".toList = true
      ∧ is_ok "O-O-O".toList = false
      ∧ is_ok ("O-O".toList ++ ['+']) = false :=
  is_ok_to_san c5WitPos (Move.mkNormal 12 28) (by decide) (by decide) (by decide)
    (by decide) (by decide) (by decide) (by decide)

/-! ## MovePicker (movepick.cpp)

The stage enum of movepick.cpp, kept as natural numbers because the code
computes on it (`++stage`, `stage = X + !cond`). -/

def MAIN_TT : Nat := 0
def CAPTURE_INIT : Nat := 1
def GOOD_CAPTURE : Nat := 2
def REFUTATION : Nat := 3
def QUIET_INIT : Nat := 4
def QUIET : Nat := 5
def BAD_CAPTURE : Nat := 6
def EVASION_TT : Nat := 7
def EVASION_INIT : Nat := 8
def EVASION : Nat := 9
def PROBCUT_TT : Nat := 10
def PROBCUT_INIT : Nat := 11
def PROBCUT : Nat := 12
def QSEARCH_TT : Nat := 13
def QCAPTURE_INIT : Nat := 14
def QCAPTURE : Nat := 15
def QCHECK_INIT : Nat := 16
def QCHECK : Nat := 17

/-- Depth constants of types.h (modelled): DEPTH_QS_CHECKS = 0,
DEPTH_QS_RECAPTURES = -5. -/
def DEPTH_QS_CHECKS : Int := 0
def DEPTH_QS_RECAPTURES : Int := -5

/-- The borrowed history tables (read-only). -/
structure Hists where
  mainHistory : Nat → Nat → Int := fun _ _ => 0
  captureHistory : Nat → Nat → Nat → Int := fun _ _ _ => 0
  contHist : Nat → Nat → Nat → Int := fun _ _ _ => 0

/-- The picker state.  The C++ pointers cur/endMoves address either the
moves buffer or, during the refutation stage, the separate refutations
array; the flag `inRefs` records which array they address.  The C++ leaves
cur, endMoves and endBadCaptures uninitialized at construction; the model
initializes them to zero. -/
structure Picker where
  pos : Position
  hists : Hists := {}
  ttMove : Move := Move.none
  refutations : List ExtMove := [⟨Move.none, 0⟩, ⟨Move.none, 0⟩, ⟨Move.none, 0⟩]
  depth : Int := 1
  threshold : Int := 0
  recaptureSquare : Nat := 0
  stage : Nat
  buf : List ExtMove := []
  cur : Nat := 0
  endMoves : Nat := 0
  inRefs : Bool := false
  endBad : Nat := 0

/-- Main-search constructor of MovePicker. -/
def mkMain (pos : Position) (h : Hists) (ttm : Move) (d : Int)
    (cm k0 k1 : Move) : Picker :=
  { pos := pos, hists := h, ttMove := ttm,
    refutations := [⟨k0, 0⟩, ⟨k1, 0⟩, ⟨cm, 0⟩],
    depth := d,
    stage := (if pos.checkers then EVASION_TT else MAIN_TT)
      + (if ttm ≠ Move.none ∧ pos.pseudoLegal ttm then 0 else 1) }

/-- Quiescence constructor of MovePicker. -/
def mkQuiescence (pos : Position) (h : Hists) (ttm : Move) (d : Int)
    (rs : Nat) : Picker :=
  { pos := pos, hists := h, ttMove := ttm, depth := d, recaptureSquare := rs,
    stage := (if pos.checkers then EVASION_TT else QSEARCH_TT)
      + (if ttm ≠ Move.none ∧ pos.pseudoLegal ttm then 0 else 1) }

/-- ProbCut constructor of MovePicker. -/
def mkProbcut (pos : Position) (h : Hists) (ttm : Move) (th : Int) : Picker :=
  { pos := pos, hists := h, ttMove := ttm, threshold := th,
    stage := PROBCUT_TT
      + (if ttm ≠ Move.none ∧ pos.captureStage ttm ∧ pos.pseudoLegal ttm
            ∧ pos.seeGe ttm th then 0 else 1) }

def flipColor (c : Nat) : Nat := c ^^^ 1
def absDiff (x y : Nat) : Nat := max (x - y) (y - x)
def distance (a b : Nat) : Nat :=
  max (absDiff (fileOf a) (fileOf b)) (absDiff (rankOf a) (rankOf b))
def distanceRank (a b : Nat) : Nat := absDiff (rankOf a) (rankOf b)
def edge_distance (f : Nat) : Nat := min f (7 - f)

/-- The check-seeking bonus block of the templated "search-mate" scorer
(applied to both capture and quiet scores when the variant is active). -/
def smExtra (pos : Position) (m : Move) : Int :=
  let us := pos.sideToMove
  let movedPiece := pos.movedPiece m
  let tsq := m.toSq
  let theirKing := pos.kingSq (flipColor us)
  let kingRing := pos.attacksFrom KING theirKing
  (if pos.givesCheck m then
     (20000 - 400 * (distance theirKing tsq : Int))
     + (if typeOfPiece movedPiece = KNIGHT then 3000
        else if (typeOfPiece movedPiece = QUEEN ∨ typeOfPiece movedPiece = ROOK)
            ∧ distance theirKing tsq = 1 then 4000
        else 0)
   else 0)
  + (if typeOfPiece movedPiece = PAWN then
       640 * (edge_distance (fileOf tsq) : Int)
       + 1280 * (relativeRank us (rankOf tsq) : Int)
       + 4000 * (if distanceRank tsq m.fromSq = 2 then 1 else 0)
     else 0)
  + (if typeOfPiece movedPiece = KNIGHT then
       (if pos.attacksFrom KNIGHT tsq &&& pos.checkSquares KNIGHT ≠ 0 then 6000 else 0)
       + 2560 * (popcountNat (pos.pseudoAttacks KNIGHT tsq &&& kingRing) : Int)
     else if typeOfPiece movedPiece = QUEEN then
       (if pos.attacksFrom QUEEN tsq &&& pos.checkSquares QUEEN ≠ 0 then 5000 else 0)
       + 1280 * (popcountNat (pos.pseudoAttacks QUEEN tsq &&& kingRing) : Int)
     else if typeOfPiece movedPiece = ROOK then
       (if pos.attacksFrom ROOK tsq &&& pos.checkSquares ROOK ≠ 0 then 4000 else 0)
       + 960 * (popcountNat (pos.pseudoAttacks ROOK tsq &&& kingRing) : Int)
     else if typeOfPiece movedPiece = BISHOP then
       (if pos.attacksFrom BISHOP tsq &&& pos.checkSquares BISHOP ≠ 0 then 3000 else 0)
       + 640 * (popcountNat (pos.pseudoAttacks BISHOP tsq &&& kingRing) : Int)
     else 0)

/-- Capture scoring of MovePicker::score<CAPTURES>: 7 × midgame value of
the victim plus the capture history, divided by 16 (C++ int division). -/
def scoreCapture (sm : Bool) (pos : Position) (h : Hists) (m : Move) : ExtMove :=
  let pto := pos.pieceOn m.toSq
  ⟨m, Int.tdiv (7 * pos.pieceValueMG pto
        + h.captureHistory (pos.movedPiece m) m.toSq (typeOfPiece pto)) 16
      + (if sm then smExtra pos m else 0)⟩

/-- Quiet scoring of MovePicker::score<QUIETS>. -/
def scoreQuiet (sm : Bool) (pos : Position) (h : Hists) (m : Move) : Int :=
  let us := pos.sideToMove
  let threatenedByPawn := pos.attacksByPawn (flipColor us)
  let threatenedByMinor := pos.attacksByKnight (flipColor us)
      ||| pos.attacksByBishop (flipColor us) ||| threatenedByPawn
  let threatenedByRook := pos.attacksByRook (flipColor us) ||| threatenedByMinor
  let threatenedPieces := (pos.pieces us QUEEN &&& threatenedByRook)
      ||| (pos.pieces us ROOK &&& threatenedByMinor)
      ||| ((pos.pieces us KNIGHT ||| pos.pieces us BISHOP) &&& threatenedByPawn)
  let movedPiece := pos.movedPiece m
  let pt := typeOfPiece movedPiece
  let tsq := m.toSq
  h.mainHistory us m.fromTo * 2
  + h.contHist 0 movedPiece tsq * 2
  + h.contHist 1 movedPiece tsq
  + h.contHist 3 movedPiece tsq
  + h.contHist 5 movedPiece tsq
  + (if Nat.testBit threatenedPieces m.fromSq then
       (if pt = QUEEN ∧ ¬ Nat.testBit threatenedByRook tsq then 50000
        else if pt = ROOK ∧ ¬ Nat.testBit threatenedByMinor tsq then 25000
        else if ¬ Nat.testBit threatenedByPawn tsq then 15000
        else 0)
     else 0)
  + (if ¬ sm then
       Int.tdiv (h.contHist 2 movedPiece tsq) 4
       + (if Nat.testBit (pos.checkSquares pt) tsq then 16384 else 0)
       - (if ¬ Nat.testBit threatenedPieces m.fromSq then
            (if pt = QUEEN then
               (if Nat.testBit threatenedByRook tsq then 50000 else 0)
               + (if Nat.testBit threatenedByMinor tsq then 10000 else 0)
               + (if Nat.testBit threatenedByPawn tsq then 20000 else 0)
             else if pt = ROOK then
               (if Nat.testBit threatenedByMinor tsq then 25000 else 0)
               + (if Nat.testBit threatenedByPawn tsq then 10000 else 0)
             else if pt ≠ PAWN then
               (if Nat.testBit threatenedByPawn tsq then 15000 else 0)
             else 0)
          else 0)
     else 0)
  + (if sm then smExtra pos m else 0)

/-- Evasion scoring of MovePicker::score<EVASIONS>: captures get the
midgame value of the victim minus the ordinal of the moving piece type plus
2^28; quiet evasions get butterfly plus first continuation history. -/
def scoreEvasion (pos : Position) (h : Hists) (m : Move) : Int :=
  if pos.captureStage m then
    pos.pieceValueMG (pos.pieceOn m.toSq)
      - (typeOfPiece (pos.movedPiece m) : Int) + 268435456
  else
    h.mainHistory pos.sideToMove m.fromTo + h.contHist 0 (pos.movedPiece m) m.toSq

/-- The ExtMove under the cursor (in the moves buffer or, during the
refutation stage, in the refutations array). -/
def getCur (st : Picker) : ExtMove :=
  if st.inRefs then st.refutations.getD st.cur default
  else st.buf.getD st.cur default

/-- Index of the first maximum of buf over positions [k, ...), fuel
iterations (std::max_element keeps the first among equals). -/
def maxFrom (l : List ExtMove) : Nat → Nat → Nat → Nat
  | 0, best, _ => best
  | f + 1, best, k =>
      maxFrom l f
        (if (l.getD best default).value < (l.getD k default).value then k else best)
        (k + 1)

/-- Swap the first maximum of [cur, endMoves) into position cur
(the Best pick mode of MovePicker::select). -/
def swapMax (st : Picker) : Picker :=
  let j := maxFrom st.buf (st.endMoves - (st.cur + 1)) st.cur (st.cur + 1)
  let a := st.buf.getD st.cur default
  let b := st.buf.getD j default
  { st with buf := (st.buf.set st.cur b).set j a }

/-- MovePicker::select: loop over [cur, endMoves); in Best mode swap the
maximum into *cur first; return the first entry different from ttMove that
passes the filter (the filter may mutate the picker, as the good-capture
filter does, and is not run on entries equal to ttMove).  The loop runs at
most endMoves − cur iterations; the fuel makes the recursion structural. -/
def selectAux (best : Bool) (filt : Picker → Bool × Picker) :
    Nat → Picker → Move × Picker
  | 0, st => (Move.none, st)
  | fuel + 1, st =>
      if st.cur < st.endMoves then
        let st1 := if best then swapMax st else st
        if (getCur st1).move ≠ st1.ttMove then
          match filt st1 with
          | (true, st2) => ((getCur st2).move, { st2 with cur := st2.cur + 1 })
          | (false, st2) => selectAux best filt fuel { st2 with cur := st2.cur + 1 }
        else selectAux best filt fuel { st1 with cur := st1.cur + 1 }
      else (Move.none, st)

def select (best : Bool) (filt : Picker → Bool × Picker) (st : Picker) :
    Move × Picker :=
  selectAux best filt (st.endMoves - st.cur) st

/-- GOOD_CAPTURE filter: emit when the capture passes see_ge against
-69·value/1024, otherwise bank it at endBadCaptures++ and skip. -/
def gcFilter (st : Picker) : Bool × Picker :=
  if st.pos.seeGe (getCur st).move (Int.tdiv (-69 * (getCur st).value) 1024) then
    (true, st)
  else
    (false, { st with buf := st.buf.set st.endBad (getCur st),
                      endBad := st.endBad + 1 })

/-- REFUTATION filter: non-empty, not a capture, pseudo-legal. -/
def refFilter (st : Picker) : Bool × Picker :=
  (decide ((getCur st).move ≠ Move.none
      ∧ st.pos.capture (getCur st).move = false
      ∧ st.pos.pseudoLegal (getCur st).move = true), st)

/-- QUIET filter: not one of the three refutations. -/
def quietFilter (st : Picker) : Bool × Picker :=
  (decide ((getCur st).move ≠ (st.refutations.getD 0 default).move
      ∧ (getCur st).move ≠ (st.refutations.getD 1 default).move
      ∧ (getCur st).move ≠ (st.refutations.getD 2 default).move), st)

def trueFilter (st : Picker) : Bool × Picker := (true, st)

def probcutFilter (st : Picker) : Bool × Picker :=
  (st.pos.seeGe (getCur st).move st.threshold, st)

def qcapFilter (st : Picker) : Bool × Picker :=
  (decide (DEPTH_QS_RECAPTURES < st.depth
      ∨ (getCur st).move.toSq = st.recaptureSquare), st)

/-- CAPTURE_INIT / PROBCUT_INIT / QCAPTURE_INIT: generate captures at the
start of the buffer, score them, fully sort (threshold INT_MIN), advance
the stage. -/
def captureInit (sm : Bool) (st : Picker) : Picker :=
  let scored := st.pos.genCaptures.map (fun m => scoreCapture sm st.pos st.hists m)
  { st with
    cur := 0, endBad := 0, inRefs := false,
    buf := partial_insertion_sort scored (-2147483648),
    endMoves := scored.length, stage := st.stage + 1 }

/-- EVASION_INIT: generate and score evasions (no sort). -/
def evasionInit (st : Picker) : Picker :=
  let scored := st.pos.genEvasions.map
    (fun m => (⟨m, scoreEvasion st.pos st.hists m⟩ : ExtMove))
  { st with
    cur := 0, inRefs := false, buf := scored,
    endMoves := scored.length, stage := st.stage + 1 }

/-- QCHECK_INIT: generate quiet checks at the start of the buffer
(unscored). -/
def qcheckInit (st : Picker) : Picker :=
  let gen := st.pos.genQuietChecks.map (fun m => (⟨m, 0⟩ : ExtMove))
  { st with
    cur := 0, inRefs := false, buf := gen,
    endMoves := gen.length, stage := st.stage + 1 }

def badCaptureStep (st : Picker) : Move × Picker := select false trueFilter st

/-- QUIET stage and the transition into BAD_CAPTURE. -/
def quietStep (skip : Bool) (st : Picker) : Move × Picker :=
  let r := if skip then (Move.none, st) else select false quietFilter st
  if r.1 ≠ Move.none then r
  else
    badCaptureStep { r.2 with
      cur := 0, endMoves := r.2.endBad,
      inRefs := false, stage := r.2.stage + 1 }

/-- QUIET_INIT: generate, score and partially sort the quiets after the
bad-capture partition, unless skipQuiets; fall through into QUIET. -/
def quietInitStep (sm skip : Bool) (st : Picker) : Move × Picker :=
  quietStep skip
    (if skip then { st with stage := st.stage + 1 }
    else
      { st with
        cur := st.endBad, inRefs := false,
        buf := st.buf.take st.endBad
          ++ partial_insertion_sort
              (st.pos.genQuiets.map
                (fun m => (⟨m, scoreQuiet sm st.pos st.hists m⟩ : ExtMove)))
              (-3000 * st.depth),
        endMoves := st.endBad + st.pos.genQuiets.length,
        stage := st.stage + 1 })

/-- REFUTATION stage and the fall-through into QUIET_INIT. -/
def refutationStep (sm skip : Bool) (st : Picker) : Move × Picker :=
  let r := select false refFilter st
  if r.1 ≠ Move.none then r
  else quietInitStep sm skip { r.2 with stage := r.2.stage + 1 }

/-- GOOD_CAPTURE stage; on exhaustion prepare the refutations iterator
(dropping the countermove slot when it equals a killer) and fall through. -/
def goodCaptureStep (sm skip : Bool) (st : Picker) : Move × Picker :=
  let r := select false gcFilter st
  if r.1 ≠ Move.none then r
  else
    refutationStep sm skip
      { r.2 with
        cur := 0, inRefs := true,
        endMoves :=
          if (r.2.refutations.getD 0 default).move
                = (r.2.refutations.getD 2 default).move
              ∨ (r.2.refutations.getD 1 default).move
                = (r.2.refutations.getD 2 default).move
          then 2 else 3,
        stage := r.2.stage + 1 }

def evasionStep (st : Picker) : Move × Picker := select true trueFilter st

def probcutStep (st : Picker) : Move × Picker := select false probcutFilter st

def qcheckStep (st : Picker) : Move × Picker := select false trueFilter st

def qcheckInitStep (st : Picker) : Move × Picker := qcheckStep (qcheckInit st)

/-- QCAPTURE stage; on exhaustion stop unless depth = DEPTH_QS_CHECKS, in
which case fall through to the quiet-check stages. -/
def qcaptureStep (st : Picker) : Move × Picker :=
  let r := select false qcapFilter st
  if r.1 ≠ Move.none then r
  else if r.2.depth ≠ DEPTH_QS_CHECKS then (Move.none, r.2)
  else qcheckInitStep { r.2 with stage := r.2.stage + 1 }

/-- MovePicker::next_move (templated on the search-mate Boolean `sm`):
dispatch on the stage; the `goto top` after the generating stages is the
direct dispatch to the following scan stage. -/
def next_move (sm skip : Bool) (st : Picker) : Move × Picker :=
  if st.stage = MAIN_TT ∨ st.stage = EVASION_TT ∨ st.stage = QSEARCH_TT
      ∨ st.stage = PROBCUT_TT then
    (st.ttMove, { st with stage := st.stage + 1 })
  else if st.stage = CAPTURE_INIT then goodCaptureStep sm skip (captureInit sm st)
  else if st.stage = PROBCUT_INIT then probcutStep (captureInit sm st)
  else if st.stage = QCAPTURE_INIT then qcaptureStep (captureInit sm st)
  else if st.stage = GOOD_CAPTURE then goodCaptureStep sm skip st
  else if st.stage = REFUTATION then refutationStep sm skip st
  else if st.stage = QUIET_INIT then quietInitStep sm skip st
  else if st.stage = QUIET then quietStep skip st
  else if st.stage = BAD_CAPTURE then badCaptureStep st
  else if st.stage = EVASION_INIT then evasionStep (evasionInit st)
  else if st.stage = EVASION then evasionStep st
  else if st.stage = PROBCUT then probcutStep st
  else if st.stage = QCAPTURE then qcaptureStep st
  else if st.stage = QCHECK_INIT then qcheckInitStep st
  else if st.stage = QCHECK then qcheckStep st
  else (Move.none, st)

/-- State after n calls to next_move. -/
def stateAfter (sm skip : Bool) (st : Picker) : Nat → Picker
  | 0 => st
  | n + 1 => (next_move sm skip (stateAfter sm skip st n)).2

/-- Result of the (i+1)-st call to next_move (0-indexed). -/
def emitAt (sm skip : Bool) (st : Picker) (i : Nat) : Move :=
  (next_move sm skip (stateAfter sm skip st i)).1

/-! ### C2: TT priority and TT uniqueness -/

theorem getD_set_self (l : List ExtMove) (i : Nat) (v d : ExtMove) :
    (l.set i v).getD i d = if i < l.length then v else d := by
  induction l generalizing i with
  | nil => simp [List.set]
  | cons a l ih =>
      cases i with
      | zero => simp
      | succ i =>
          rw [show (a :: l).set (i + 1) v = a :: l.set i v from rfl,
            List.getD_cons_succ, ih i]
          by_cases h : i < l.length
          · rw [if_pos h, if_pos (by simp; omega)]
          · rw [if_neg h, if_neg (by simp; omega)]

theorem getD_set_other (l : List ExtMove) (i j : Nat) (v d : ExtMove)
    (h : i ≠ j) : (l.set i v).getD j d = l.getD j d := by
  induction l generalizing i j with
  | nil => simp [List.set]
  | cons a l ih =>
      cases i with
      | zero =>
          cases j with
          | zero => exact absurd rfl h
          | succ j => simp [List.set, List.getD]
      | succ i =>
          cases j with
          | zero => simp [List.set, List.getD]
          | succ j =>
              simp only [List.set, List.getD]
              exact ih i j (by omega)

/-- Preservation properties a select filter must have for the select
lemmas: it keeps the cursor, the range, the stage, the TT move and the
entry under the cursor unchanged. -/
structure FPres (filt : Picker → Bool × Picker) : Prop where
  tt : ∀ s, (filt s).2.ttMove = s.ttMove
  cu : ∀ s, (filt s).2.cur = s.cur
  em : ∀ s, (filt s).2.endMoves = s.endMoves
  ir : ∀ s, (filt s).2.inRefs = s.inRefs
  gc : ∀ s, getCur (filt s).2 = getCur s
  stg : ∀ s, (filt s).2.stage = s.stage
  refs : ∀ s, (filt s).2.refutations = s.refutations
  dep : ∀ s, (filt s).2.depth = s.depth
  ps : ∀ s, (filt s).2.pos = s.pos

theorem FPres_pure (filt : Picker → Bool × Picker)
    (h : ∀ s, (filt s).2 = s) : FPres filt :=
  ⟨fun s => by rw [h], fun s => by rw [h], fun s => by rw [h],
   fun s => by rw [h], fun s => by rw [h], fun s => by rw [h],
   fun s => by rw [h], fun s => by rw [h], fun s => by rw [h]⟩

theorem trueFilter_pres : FPres trueFilter := FPres_pure _ (fun _ => rfl)

theorem refFilter_pres : FPres refFilter := FPres_pure _ (fun _ => rfl)

theorem quietFilter_pres : FPres quietFilter := FPres_pure _ (fun _ => rfl)

theorem probcutFilter_pres : FPres probcutFilter := FPres_pure _ (fun _ => rfl)

theorem qcapFilter_pres : FPres qcapFilter := FPres_pure _ (fun _ => rfl)

theorem gcFilter_pres : FPres gcFilter := by
  have hstate : ∀ s, (gcFilter s).2 = s ∨
      (gcFilter s).2 = { s with buf := s.buf.set s.endBad (getCur s),
                                endBad := s.endBad + 1 } := by
    intro s
    unfold gcFilter
    by_cases h : s.pos.seeGe (getCur s).move
        (Int.tdiv (-69 * (getCur s).value) 1024) = true
    · left; rw [if_pos h]
    · right; rw [if_neg h]
  refine ⟨?_, ?_, ?_, ?_, ?_, ?_, ?_, ?_, ?_⟩ <;> intro s <;>
    rcases hstate s with h | h <;> rw [h]
  -- the remaining goal is the getCur field in the banking case
  · unfold getCur
    by_cases hir : s.inRefs = true
    · simp [hir]
    · simp only [hir, Bool.false_eq_true, if_false]
      by_cases he : s.endBad = s.cur
      · rw [he, getD_set_self]
        by_cases hlen : s.cur < s.buf.length
        · rw [if_pos hlen]
        · rw [if_neg hlen, List.getD_eq_default _ _ (by omega)]
      · rw [getD_set_other _ _ _ _ _ he]

/-- The select loop: the result is the none sentinel or differs from the
TT move, and the picker fields other than buf, cur and endBad are
preserved. -/
theorem selectAux_spec (best : Bool) (filt : Picker → Bool × Picker)
    (hf : FPres filt) (fuel : Nat) : ∀ (st : Picker),
    ((selectAux best filt fuel st).1 = Move.none
      ∨ (selectAux best filt fuel st).1 ≠ st.ttMove)
    ∧ (selectAux best filt fuel st).2.ttMove = st.ttMove
    ∧ (selectAux best filt fuel st).2.stage = st.stage
    ∧ (selectAux best filt fuel st).2.endMoves = st.endMoves
    ∧ (selectAux best filt fuel st).2.inRefs = st.inRefs
    ∧ (selectAux best filt fuel st).2.refutations = st.refutations
    ∧ (selectAux best filt fuel st).2.depth = st.depth
    ∧ (selectAux best filt fuel st).2.pos = st.pos := by
  induction fuel with
  | zero =>
      intro st
      exact ⟨Or.inl rfl, rfl, rfl, rfl, rfl, rfl, rfl, rfl⟩
  | succ fuel ih =>
      intro st
      rw [selectAux]
      by_cases hc : st.cur < st.endMoves
      · rw [if_pos hc]
        have hswap : ∀ q : Picker,
            (if best then swapMax q else q).ttMove = q.ttMove
            ∧ (if best then swapMax q else q).stage = q.stage
            ∧ (if best then swapMax q else q).endMoves = q.endMoves
            ∧ (if best then swapMax q else q).inRefs = q.inRefs
            ∧ (if best then swapMax q else q).refutations = q.refutations
            ∧ (if best then swapMax q else q).depth = q.depth
            ∧ (if best then swapMax q else q).pos = q.pos := by
          intro q
          by_cases hb : best = true <;> simp [hb, swapMax]
        obtain ⟨e1, e2, e3, e4, e5, e6, e7⟩ := hswap st
        by_cases hne : (getCur (if best then swapMax st else st)).move
            ≠ (if best then swapMax st else st).ttMove
        · rw [if_pos hne]
          rcases hflt : filt (if best then swapMax st else st) with ⟨ok, st2⟩
          cases ok with
          | true =>
              simp only
              have hgc : getCur st2 = getCur (if best then swapMax st else st) := by
                have := hf.gc (if best then swapMax st else st)
                rw [hflt] at this
                exact this
              have htt2 : st2.ttMove = st.ttMove := by
                have := hf.tt (if best then swapMax st else st)
                rw [hflt] at this
                simp only at this
                rw [this, e1]
              refine ⟨Or.inr ?_, ?_, ?_, ?_, ?_, ?_, ?_, ?_⟩
              · rw [hgc]
                rw [e1] at hne
                intro hcon
                exact hne (by rw [hcon])
              all_goals
                have h2 := hf.stg (if best then swapMax st else st)
                have h3 := hf.em (if best then swapMax st else st)
                have h4 := hf.ir (if best then swapMax st else st)
                have h5 := hf.refs (if best then swapMax st else st)
                have h6 := hf.dep (if best then swapMax st else st)
                have h7 := hf.ps (if best then swapMax st else st)
                rw [hflt] at h2 h3 h4 h5 h6 h7
                simp only at h2 h3 h4 h5 h6 h7
              · exact htt2
              · rw [h2, e2]
              · rw [h3, e3]
              · rw [h4, e4]
              · rw [h5, e5]
              · rw [h6, e6]
              · rw [h7, e7]
          | false =>
              simp only
              have hrec := ih { st2 with cur := st2.cur + 1 }
              have htt2 : st2.ttMove = st.ttMove := by
                have := hf.tt (if best then swapMax st else st)
                rw [hflt] at this
                simp only at this
                rw [this, e1]
              have h2 := hf.stg (if best then swapMax st else st)
              have h3 := hf.em (if best then swapMax st else st)
              have h4 := hf.ir (if best then swapMax st else st)
              have h5 := hf.refs (if best then swapMax st else st)
              have h6 := hf.dep (if best then swapMax st else st)
              have h7 := hf.ps (if best then swapMax st else st)
              rw [hflt] at h2 h3 h4 h5 h6 h7
              simp only at h2 h3 h4 h5 h6 h7
              obtain ⟨r1, r2, r3, r4, r5, r6, r7, r8⟩ := hrec
              refine ⟨?_, ?_, ?_, ?_, ?_, ?_, ?_, ?_⟩
              · rcases r1 with r1 | r1
                · exact Or.inl r1
                · exact Or.inr (fun hcon => r1 (hcon.trans htt2.symm))
              · simp only at r2; rw [r2, htt2]
              · simp only at r3; rw [r3, h2, e2]
              · simp only at r4; rw [r4, h3, e3]
              · simp only at r5; rw [r5, h4, e4]
              · simp only at r6; rw [r6, h5, e5]
              · simp only at r7; rw [r7, h6, e6]
              · simp only at r8; rw [r8, h7, e7]
        · rw [if_neg hne]
          have hrec := ih { (if best then swapMax st else st) with
            cur := (if best then swapMax st else st).cur + 1 }
          obtain ⟨r1, r2, r3, r4, r5, r6, r7, r8⟩ := hrec
          refine ⟨?_, ?_, ?_, ?_, ?_, ?_, ?_, ?_⟩
          · rcases r1 with r1 | r1
            · exact Or.inl r1
            · exact Or.inr (fun hcon => r1 (hcon.trans e1.symm))
          · simp only at r2; rw [r2, e1]
          · simp only at r3; rw [r3, e2]
          · simp only at r4; rw [r4, e3]
          · simp only at r5; rw [r5, e4]
          · simp only at r6; rw [r6, e5]
          · simp only at r7; rw [r7, e6]
          · simp only at r8; rw [r8, e7]
      · rw [if_neg hc]
        exact ⟨Or.inl rfl, rfl, rfl, rfl, rfl, rfl, rfl, rfl⟩

theorem select_spec (best : Bool) (filt : Picker → Bool × Picker)
    (hf : FPres filt) (st : Picker) :
    ((select best filt st).1 = Move.none
      ∨ (select best filt st).1 ≠ st.ttMove)
    ∧ (select best filt st).2.ttMove = st.ttMove
    ∧ (select best filt st).2.stage = st.stage
    ∧ (select best filt st).2.endMoves = st.endMoves
    ∧ (select best filt st).2.inRefs = st.inRefs
    ∧ (select best filt st).2.refutations = st.refutations
    ∧ (select best filt st).2.depth = st.depth
    ∧ (select best filt st).2.pos = st.pos :=
  selectAux_spec best filt hf (st.endMoves - st.cur) st

theorem badCaptureStep_spec (st : Picker) :
    ((badCaptureStep st).1 = Move.none ∨ (badCaptureStep st).1 ≠ st.ttMove)
    ∧ (badCaptureStep st).2.ttMove = st.ttMove
    ∧ (badCaptureStep st).2.stage = st.stage :=
  ⟨(select_spec false trueFilter trueFilter_pres st).1,
   (select_spec false trueFilter trueFilter_pres st).2.1,
   (select_spec false trueFilter trueFilter_pres st).2.2.1⟩

theorem quietStep_spec (skip : Bool) (st : Picker) :
    ((quietStep skip st).1 = Move.none ∨ (quietStep skip st).1 ≠ st.ttMove)
    ∧ (quietStep skip st).2.ttMove = st.ttMove
    ∧ st.stage ≤ (quietStep skip st).2.stage
    ∧ (quietStep skip st).2.stage ≤ st.stage + 1 := by
  unfold quietStep
  by_cases hskip : skip = true
  · simp only [if_pos hskip]
    rw [if_neg (fun hc => hc rfl)]
    have hb := badCaptureStep_spec { st with
      cur := 0, endMoves := st.endBad,
      inRefs := false, stage := st.stage + 1 }
    have hb3 := hb.2.2
    simp only at hb3 ⊢
    refine ⟨?_, hb.2.1, by rw [hb3]; omega, by rw [hb3]⟩
    rcases hb.1 with h | h
    · exact Or.inl h
    · exact Or.inr h
  · simp only [if_neg hskip]
    obtain ⟨s1, s2, s3, _⟩ := select_spec false quietFilter quietFilter_pres st
    by_cases hr : (select false quietFilter st).1 ≠ Move.none
    · rw [if_pos hr]
      refine ⟨?_, s2, by rw [s3], by rw [s3]; omega⟩
      rcases s1 with h | h
      · exact Or.inl h
      · exact Or.inr h
    · rw [if_neg hr]
      have hb := badCaptureStep_spec { (select false quietFilter st).2 with
        cur := 0
        endMoves := (select false quietFilter st).2.endBad
        inRefs := false
        stage := (select false quietFilter st).2.stage + 1 }
      have hb2 := hb.2.1
      have hb3 := hb.2.2
      simp only at hb2 hb3 ⊢
      refine ⟨?_, ?_, ?_, ?_⟩
      · rcases hb.1 with h | h
        · exact Or.inl h
        · exact Or.inr (fun hc => h (by rw [hc]; simp only; rw [s2]))
      · rw [hb2, s2]
      · rw [hb3, s3]; omega
      · rw [hb3, s3]

theorem quietInitStep_spec (sm skip : Bool) (st : Picker) :
    ((quietInitStep sm skip st).1 = Move.none
      ∨ (quietInitStep sm skip st).1 ≠ st.ttMove)
    ∧ (quietInitStep sm skip st).2.ttMove = st.ttMove
    ∧ st.stage + 1 ≤ (quietInitStep sm skip st).2.stage
    ∧ (quietInitStep sm skip st).2.stage ≤ st.stage + 2 := by
  unfold quietInitStep
  by_cases hskip : skip = true
  · rw [if_pos hskip, hskip]
    have h := quietStep_spec true { st with stage := st.stage + 1 }
    have h3 := h.2.2.1
    have h4 := h.2.2.2
    simp only at h3 h4
    refine ⟨?_, h.2.1, by omega, by omega⟩
    rcases h.1 with h1 | h1
    · exact Or.inl h1
    · exact Or.inr h1
  · rw [if_neg hskip]
    have h := quietStep_spec skip
      { st with
        cur := st.endBad, inRefs := false,
        buf := st.buf.take st.endBad
          ++ partial_insertion_sort
              (st.pos.genQuiets.map
                (fun m => (⟨m, scoreQuiet sm st.pos st.hists m⟩ : ExtMove)))
              (-3000 * st.depth),
        endMoves := st.endBad + st.pos.genQuiets.length,
        stage := st.stage + 1 }
    have h3 := h.2.2.1
    have h4 := h.2.2.2
    simp only at h3 h4
    refine ⟨?_, h.2.1, by omega, by omega⟩
    rcases h.1 with h1 | h1
    · exact Or.inl h1
    · exact Or.inr h1

theorem refutationStep_spec (sm skip : Bool) (st : Picker) :
    ((refutationStep sm skip st).1 = Move.none
      ∨ (refutationStep sm skip st).1 ≠ st.ttMove)
    ∧ (refutationStep sm skip st).2.ttMove = st.ttMove
    ∧ st.stage ≤ (refutationStep sm skip st).2.stage
    ∧ (refutationStep sm skip st).2.stage ≤ st.stage + 3 := by
  unfold refutationStep
  obtain ⟨s1, s2, s3, _⟩ := select_spec false refFilter refFilter_pres st
  by_cases hr : (select false refFilter st).1 ≠ Move.none
  · rw [if_pos hr]
    refine ⟨?_, s2, by rw [s3], by rw [s3]; omega⟩
    rcases s1 with h | h
    · exact Or.inl h
    · exact Or.inr h
  · rw [if_neg hr]
    have h := quietInitStep_spec sm skip
      { (select false refFilter st).2 with
        stage := (select false refFilter st).2.stage + 1 }
    simp only
    refine ⟨?_, ?_, ?_, ?_⟩
    · rcases h.1 with h1 | h1
      · exact Or.inl h1
      · exact Or.inr (fun hc => h1 (by rw [hc]; simp only; rw [s2]))
    · rw [h.2.1]; simp only; rw [s2]
    · have := h.2.2.1; simp only at this; omega
    · have := h.2.2.2; simp only at this; omega

theorem goodCaptureStep_spec (sm skip : Bool) (st : Picker) :
    ((goodCaptureStep sm skip st).1 = Move.none
      ∨ (goodCaptureStep sm skip st).1 ≠ st.ttMove)
    ∧ (goodCaptureStep sm skip st).2.ttMove = st.ttMove
    ∧ st.stage ≤ (goodCaptureStep sm skip st).2.stage
    ∧ (goodCaptureStep sm skip st).2.stage ≤ st.stage + 4 := by
  unfold goodCaptureStep
  obtain ⟨s1, s2, s3, _⟩ := select_spec false gcFilter gcFilter_pres st
  by_cases hr : (select false gcFilter st).1 ≠ Move.none
  · rw [if_pos hr]
    refine ⟨?_, s2, by rw [s3], by rw [s3]; omega⟩
    rcases s1 with h | h
    · exact Or.inl h
    · exact Or.inr h
  · rw [if_neg hr]
    have h := refutationStep_spec sm skip
      { (select false gcFilter st).2 with
        cur := 0, inRefs := true,
        endMoves :=
          if ((select false gcFilter st).2.refutations.getD 0 default).move
                = ((select false gcFilter st).2.refutations.getD 2 default).move
              ∨ ((select false gcFilter st).2.refutations.getD 1 default).move
                = ((select false gcFilter st).2.refutations.getD 2 default).move
          then 2 else 3,
        stage := (select false gcFilter st).2.stage + 1 }
    simp only
    refine ⟨?_, ?_, ?_, ?_⟩
    · rcases h.1 with h1 | h1
      · exact Or.inl h1
      · exact Or.inr (fun hc => h1 (by rw [hc]; simp only; rw [s2]))
    · rw [h.2.1]; simp only; rw [s2]
    · have := h.2.2.1; simp only at this; omega
    · have := h.2.2.2; simp only at this; omega

theorem evasionStep_spec (st : Picker) :
    ((evasionStep st).1 = Move.none ∨ (evasionStep st).1 ≠ st.ttMove)
    ∧ (evasionStep st).2.ttMove = st.ttMove
    ∧ (evasionStep st).2.stage = st.stage :=
  ⟨(select_spec true trueFilter trueFilter_pres st).1,
   (select_spec true trueFilter trueFilter_pres st).2.1,
   (select_spec true trueFilter trueFilter_pres st).2.2.1⟩

theorem probcutStep_spec (st : Picker) :
    ((probcutStep st).1 = Move.none ∨ (probcutStep st).1 ≠ st.ttMove)
    ∧ (probcutStep st).2.ttMove = st.ttMove
    ∧ (probcutStep st).2.stage = st.stage :=
  ⟨(select_spec false probcutFilter probcutFilter_pres st).1,
   (select_spec false probcutFilter probcutFilter_pres st).2.1,
   (select_spec false probcutFilter probcutFilter_pres st).2.2.1⟩

theorem qcheckStep_spec (st : Picker) :
    ((qcheckStep st).1 = Move.none ∨ (qcheckStep st).1 ≠ st.ttMove)
    ∧ (qcheckStep st).2.ttMove = st.ttMove
    ∧ (qcheckStep st).2.stage = st.stage :=
  ⟨(select_spec false trueFilter trueFilter_pres st).1,
   (select_spec false trueFilter trueFilter_pres st).2.1,
   (select_spec false trueFilter trueFilter_pres st).2.2.1⟩

theorem qcheckInitStep_spec (st : Picker) :
    ((qcheckInitStep st).1 = Move.none ∨ (qcheckInitStep st).1 ≠ st.ttMove)
    ∧ (qcheckInitStep st).2.ttMove = st.ttMove
    ∧ (qcheckInitStep st).2.stage = st.stage + 1 := by
  unfold qcheckInitStep
  have h := qcheckStep_spec (qcheckInit st)
  have hq1 : (qcheckInit st).ttMove = st.ttMove := rfl
  have hq2 : (qcheckInit st).stage = st.stage + 1 := rfl
  refine ⟨?_, by rw [h.2.1, hq1], by rw [h.2.2, hq2]⟩
  rcases h.1 with h1 | h1
  · exact Or.inl h1
  · exact Or.inr (fun hc => h1 (by rw [hc, hq1]))

theorem qcaptureStep_spec (st : Picker) :
    ((qcaptureStep st).1 = Move.none ∨ (qcaptureStep st).1 ≠ st.ttMove)
    ∧ (qcaptureStep st).2.ttMove = st.ttMove
    ∧ st.stage ≤ (qcaptureStep st).2.stage
    ∧ (qcaptureStep st).2.stage ≤ st.stage + 2 := by
  unfold qcaptureStep
  obtain ⟨s1, s2, s3, _, _, _, s7, _⟩ :=
    select_spec false qcapFilter qcapFilter_pres st
  by_cases hr : (select false qcapFilter st).1 ≠ Move.none
  · rw [if_pos hr]
    refine ⟨?_, s2, by rw [s3], by rw [s3]; omega⟩
    rcases s1 with h | h
    · exact Or.inl h
    · exact Or.inr h
  · rw [if_neg hr]
    by_cases hd : (select false qcapFilter st).2.depth ≠ DEPTH_QS_CHECKS
    · rw [if_pos hd]
      exact ⟨Or.inl rfl, s2, by rw [s3], by rw [s3]; omega⟩
    · rw [if_neg hd]
      have h := qcheckInitStep_spec
        { (select false qcapFilter st).2 with
          stage := (select false qcapFilter st).2.stage + 1 }
      simp only
      refine ⟨?_, ?_, ?_, ?_⟩
      · rcases h.1 with h1 | h1
        · exact Or.inl h1
        · exact Or.inr (fun hc => h1 (by rw [hc]; simp only; rw [s2]))
      · rw [h.2.1]; simp only; rw [s2]
      · have := h.2.2; simp only at this; omega
      · have := h.2.2; simp only at this; omega

/-- The non-TT stages: everything except MAIN_TT (0), EVASION_TT (7),
PROBCUT_TT (10) and QSEARCH_TT (13). -/
def PostTT (st : Picker) : Prop :=
  st.stage ≠ 0 ∧ st.stage ≠ 7 ∧ st.stage ≠ 10 ∧ st.stage ≠ 13

theorem next_move_spec (sm skip : Bool) (st : Picker) :
    (next_move sm skip st).2.ttMove = st.ttMove
    ∧ PostTT (next_move sm skip st).2
    ∧ (PostTT st →
        (next_move sm skip st).1 = Move.none
        ∨ (next_move sm skip st).1 ≠ st.ttMove) := by
  unfold next_move
  by_cases h0 : st.stage = MAIN_TT ∨ st.stage = EVASION_TT
      ∨ st.stage = QSEARCH_TT ∨ st.stage = PROBCUT_TT
  · rw [if_pos h0]
    have h0n : st.stage = 0 ∨ st.stage = 7 ∨ st.stage = 13 ∨ st.stage = 10 := h0
    refine ⟨rfl, ⟨?_, ?_, ?_, ?_⟩, fun hp => ?_⟩
    · show st.stage + 1 ≠ 0; omega
    · show st.stage + 1 ≠ 7; omega
    · show st.stage + 1 ≠ 10; omega
    · show st.stage + 1 ≠ 13; omega
    · rcases h0n with h | h | h | h
      · exact absurd h hp.1
      · exact absurd h hp.2.1
      · exact absurd h hp.2.2.2
      · exact absurd h hp.2.2.1
  · rw [if_neg h0]
    by_cases h1 : st.stage = CAPTURE_INIT
    · rw [if_pos h1]
      have hs : st.stage = 1 := h1
      obtain ⟨g1, g2, g3, g4⟩ := goodCaptureStep_spec sm skip (captureInit sm st)
      have hci : (captureInit sm st).stage = st.stage + 1 := rfl
      have hct : (captureInit sm st).ttMove = st.ttMove := rfl
      rw [hci] at g3 g4
      rw [hct] at g1 g2
      exact ⟨g2, ⟨by omega, by omega, by omega, by omega⟩, fun _ => g1⟩
    · rw [if_neg h1]
      by_cases h2 : st.stage = PROBCUT_INIT
      · rw [if_pos h2]
        have hs : st.stage = 11 := h2
        obtain ⟨g1, g2, g3⟩ := probcutStep_spec (captureInit sm st)
        have hci : (captureInit sm st).stage = st.stage + 1 := rfl
        have hct : (captureInit sm st).ttMove = st.ttMove := rfl
        rw [hci] at g3
        rw [hct] at g1 g2
        exact ⟨g2, ⟨by omega, by omega, by omega, by omega⟩, fun _ => g1⟩
      · rw [if_neg h2]
        by_cases h3 : st.stage = QCAPTURE_INIT
        · rw [if_pos h3]
          have hs : st.stage = 14 := h3
          obtain ⟨g1, g2, g3, g4⟩ := qcaptureStep_spec (captureInit sm st)
          have hci : (captureInit sm st).stage = st.stage + 1 := rfl
          have hct : (captureInit sm st).ttMove = st.ttMove := rfl
          rw [hci] at g3 g4
          rw [hct] at g1 g2
          exact ⟨g2, ⟨by omega, by omega, by omega, by omega⟩, fun _ => g1⟩
        · rw [if_neg h3]
          by_cases h4 : st.stage = GOOD_CAPTURE
          · rw [if_pos h4]
            have hs : st.stage = 2 := h4
            obtain ⟨g1, g2, g3, g4⟩ := goodCaptureStep_spec sm skip st
            exact ⟨g2, ⟨by omega, by omega, by omega, by omega⟩, fun _ => g1⟩
          · rw [if_neg h4]
            by_cases h5 : st.stage = REFUTATION
            · rw [if_pos h5]
              have hs : st.stage = 3 := h5
              obtain ⟨g1, g2, g3, g4⟩ := refutationStep_spec sm skip st
              exact ⟨g2, ⟨by omega, by omega, by omega, by omega⟩, fun _ => g1⟩
            · rw [if_neg h5]
              by_cases h6 : st.stage = QUIET_INIT
              · rw [if_pos h6]
                have hs : st.stage = 4 := h6
                obtain ⟨g1, g2, g3, g4⟩ := quietInitStep_spec sm skip st
                exact ⟨g2, ⟨by omega, by omega, by omega, by omega⟩, fun _ => g1⟩
              · rw [if_neg h6]
                by_cases h7 : st.stage = QUIET
                · rw [if_pos h7]
                  have hs : st.stage = 5 := h7
                  obtain ⟨g1, g2, g3, g4⟩ := quietStep_spec skip st
                  exact ⟨g2, ⟨by omega, by omega, by omega, by omega⟩, fun _ => g1⟩
                · rw [if_neg h7]
                  by_cases h8 : st.stage = BAD_CAPTURE
                  · rw [if_pos h8]
                    have hs : st.stage = 6 := h8
                    obtain ⟨g1, g2, g3⟩ := badCaptureStep_spec st
                    exact ⟨g2, ⟨by omega, by omega, by omega, by omega⟩,
                      fun _ => g1⟩
                  · rw [if_neg h8]
                    by_cases h9 : st.stage = EVASION_INIT
                    · rw [if_pos h9]
                      have hs : st.stage = 8 := h9
                      obtain ⟨g1, g2, g3⟩ := evasionStep_spec (evasionInit st)
                      have hei : (evasionInit st).stage = st.stage + 1 := rfl
                      have het : (evasionInit st).ttMove = st.ttMove := rfl
                      rw [hei] at g3
                      rw [het] at g1 g2
                      exact ⟨g2, ⟨by omega, by omega, by omega, by omega⟩,
                        fun _ => g1⟩
                    · rw [if_neg h9]
                      by_cases h10 : st.stage = EVASION
                      · rw [if_pos h10]
                        have hs : st.stage = 9 := h10
                        obtain ⟨g1, g2, g3⟩ := evasionStep_spec st
                        exact ⟨g2, ⟨by omega, by omega, by omega, by omega⟩,
                          fun _ => g1⟩
                      · rw [if_neg h10]
                        by_cases h11 : st.stage = PROBCUT
                        · rw [if_pos h11]
                          have hs : st.stage = 12 := h11
                          obtain ⟨g1, g2, g3⟩ := probcutStep_spec st
                          exact ⟨g2, ⟨by omega, by omega, by omega, by omega⟩,
                            fun _ => g1⟩
                        · rw [if_neg h11]
                          by_cases h12 : st.stage = QCAPTURE
                          · rw [if_pos h12]
                            have hs : st.stage = 15 := h12
                            obtain ⟨g1, g2, g3, g4⟩ := qcaptureStep_spec st
                            exact ⟨g2,
                              ⟨by omega, by omega, by omega, by omega⟩,
                              fun _ => g1⟩
                          · rw [if_neg h12]
                            by_cases h13 : st.stage = QCHECK_INIT
                            · rw [if_pos h13]
                              have hs : st.stage = 16 := h13
                              obtain ⟨g1, g2, g3⟩ := qcheckInitStep_spec st
                              exact ⟨g2,
                                ⟨by omega, by omega, by omega, by omega⟩,
                                fun _ => g1⟩
                            · rw [if_neg h13]
                              by_cases h14 : st.stage = QCHECK
                              · rw [if_pos h14]
                                have hs : st.stage = 17 := h14
                                obtain ⟨g1, g2, g3⟩ := qcheckStep_spec st
                                exact ⟨g2,
                                  ⟨by omega, by omega, by omega, by omega⟩,
                                  fun _ => g1⟩
                              · rw [if_neg h14]
                                have h0n : ¬(st.stage = 0 ∨ st.stage = 7
                                    ∨ st.stage = 13 ∨ st.stage = 10) := h0
                                push_neg at h0n
                                exact ⟨rfl,
                                  ⟨h0n.1, h0n.2.1, h0n.2.2.2, h0n.2.2.1⟩,
                                  fun _ => Or.inl rfl⟩

theorem stateAfter_ttMove (sm skip : Bool) (st : Picker) (n : Nat) :
    (stateAfter sm skip st n).ttMove = st.ttMove := by
  induction n with
  | zero => rfl
  | succ k ih =>
    show (next_move sm skip (stateAfter sm skip st k)).2.ttMove = st.ttMove
    rw [(next_move_spec sm skip (stateAfter sm skip st k)).1, ih]

theorem stateAfter_postTT (sm skip : Bool) (st : Picker) (n : Nat) :
    PostTT (stateAfter sm skip st (n + 1)) :=
  (next_move_spec sm skip (stateAfter sm skip st n)).2.1

theorem emitAt_ne_tt (sm skip : Bool) (st : Picker)
    (htt : st.ttMove ≠ Move.none) (j : Nat) (hj : 1 ≤ j) :
    emitAt sm skip st j ≠ st.ttMove := by
  obtain ⟨k, rfl⟩ : ∃ k, j = k + 1 := ⟨j - 1, by omega⟩
  have hp := stateAfter_postTT sm skip st k
  rcases (next_move_spec sm skip (stateAfter sm skip st (k + 1))).2.2 hp
    with h | h
  · exact fun hc => htt (hc.symm.trans h)
  · rw [stateAfter_ttMove] at h
    exact h

theorem tt_emit (sm skip : Bool) (st : Picker)
    (h : st.stage = MAIN_TT ∨ st.stage = EVASION_TT
      ∨ st.stage = QSEARCH_TT ∨ st.stage = PROBCUT_TT) :
    (next_move sm skip st).1 = st.ttMove := by
  unfold next_move
  rw [if_pos h]

/-- C2: TT priority and TT uniqueness.  (a) For each picker flavor, when
the TT move is non-empty and pseudo-legal (and, for probcut, additionally
a capture passing see_ge against the threshold), the first call to
next_move returns the TT move.  (b) For every picker state with a
non-empty TT move, no two calls to next_move both return the TT move:
every stage after the first call is a post-TT stage, and every post-TT
stage filters out entries equal to the TT move. -/
theorem movepicker_tt_first_unique (sm skip : Bool) :
    (∀ pos hi ttm d cm k0 k1, ttm ≠ Move.none →
      pos.pseudoLegal ttm = true →
      emitAt sm skip (mkMain pos hi ttm d cm k0 k1) 0 = ttm)
    ∧ (∀ pos hi ttm d rs, ttm ≠ Move.none →
      pos.pseudoLegal ttm = true →
      emitAt sm skip (mkQuiescence pos hi ttm d rs) 0 = ttm)
    ∧ (∀ pos hi ttm th, ttm ≠ Move.none →
      pos.captureStage ttm = true → pos.pseudoLegal ttm = true →
      pos.seeGe ttm th = true →
      emitAt sm skip (mkProbcut pos hi ttm th) 0 = ttm)
    ∧ (∀ st : Picker, st.ttMove ≠ Move.none → ∀ i j : Nat, i < j →
      ¬(emitAt sm skip st i = st.ttMove
        ∧ emitAt sm skip st j = st.ttMove)) := by
  refine ⟨?_, ?_, ?_, ?_⟩
  · intro pos hi ttm d cm k0 k1 htt hpl
    refine tt_emit sm skip (mkMain pos hi ttm d cm k0 k1) ?_
    have hc : (if ttm ≠ Move.none ∧ pos.pseudoLegal ttm = true
        then 0 else 1) = 0 := if_pos ⟨htt, hpl⟩
    by_cases hch : pos.checkers = true
    · refine Or.inr (Or.inl ?_)
      show (if pos.checkers = true then EVASION_TT else MAIN_TT)
        + (if ttm ≠ Move.none ∧ pos.pseudoLegal ttm = true
            then 0 else 1) = EVASION_TT
      rw [if_pos hch, hc]
      rfl
    · refine Or.inl ?_
      show (if pos.checkers = true then EVASION_TT else MAIN_TT)
        + (if ttm ≠ Move.none ∧ pos.pseudoLegal ttm = true
            then 0 else 1) = MAIN_TT
      rw [if_neg hch, hc]
      rfl
  · intro pos hi ttm d rs htt hpl
    refine tt_emit sm skip (mkQuiescence pos hi ttm d rs) ?_
    have hc : (if ttm ≠ Move.none ∧ pos.pseudoLegal ttm = true
        then 0 else 1) = 0 := if_pos ⟨htt, hpl⟩
    by_cases hch : pos.checkers = true
    · refine Or.inr (Or.inl ?_)
      show (if pos.checkers = true then EVASION_TT else QSEARCH_TT)
        + (if ttm ≠ Move.none ∧ pos.pseudoLegal ttm = true
            then 0 else 1) = EVASION_TT
      rw [if_pos hch, hc]
      rfl
    · refine Or.inr (Or.inr (Or.inl ?_))
      show (if pos.checkers = true then EVASION_TT else QSEARCH_TT)
        + (if ttm ≠ Move.none ∧ pos.pseudoLegal ttm = true
            then 0 else 1) = QSEARCH_TT
      rw [if_neg hch, hc]
      rfl
  · intro pos hi ttm th htt hcs hpl hsg
    refine tt_emit sm skip (mkProbcut pos hi ttm th)
      (Or.inr (Or.inr (Or.inr ?_)))
    show PROBCUT_TT + (if ttm ≠ Move.none ∧ pos.captureStage ttm = true
        ∧ pos.pseudoLegal ttm = true ∧ pos.seeGe ttm th = true
        then 0 else 1) = PROBCUT_TT
    rw [if_pos ⟨htt, hcs, hpl, hsg⟩]
    rfl
  · intro st htt i j hij hc
    exact emitAt_ne_tt sm skip st htt j (by omega) hc.2

/-- Position used by the C2 witness: every move is pseudo-legal, every
move is a capture, and see_ge always succeeds. -/
def c2Pos : Position :=
  { pseudoLegal := fun _ => true, captureStage := fun _ => true }

theorem movepicker_tt_first_unique_witness :
    (emitAt false false
        (mkMain c2Pos {} (Move.mkNormal 8 16) 4 Move.none Move.none Move.none) 0
      = Move.mkNormal 8 16)
    ∧ (emitAt false false
        (mkQuiescence c2Pos {} (Move.mkNormal 8 16) 0 0) 0 = Move.mkNormal 8 16)
    ∧ (emitAt false false
        (mkProbcut c2Pos {} (Move.mkNormal 8 16) 0) 0 = Move.mkNormal 8 16)
    ∧ ¬(emitAt false false
          (mkMain c2Pos {} (Move.mkNormal 8 16) 4 Move.none Move.none Move.none) 0
        = (mkMain c2Pos {} (Move.mkNormal 8 16) 4 Move.none Move.none
            Move.none).ttMove
      ∧ emitAt false false
          (mkMain c2Pos {} (Move.mkNormal 8 16) 4 Move.none Move.none Move.none) 1
        = (mkMain c2Pos {} (Move.mkNormal 8 16) 4 Move.none Move.none
            Move.none).ttMove) :=
  ⟨(movepicker_tt_first_unique false false).1 c2Pos {} (Move.mkNormal 8 16) 4
      Move.none Move.none Move.none (by decide) (by decide),
   (movepicker_tt_first_unique false false).2.1 c2Pos {} (Move.mkNormal 8 16) 0 0
      (by decide) (by decide),
   (movepicker_tt_first_unique false false).2.2.1 c2Pos {} (Move.mkNormal 8 16) 0
      (by decide) (by decide) (by decide) (by decide),
   (movepicker_tt_first_unique false false).2.2.2
      (mkMain c2Pos {} (Move.mkNormal 8 16) 4 Move.none Move.none Move.none)
      (by decide) 0 1 (by decide)⟩

/-! ### C7: buffer-bounds invariant -/

theorem pis_length (l : List ExtMove) (limit : Int) :
    (partial_insertion_sort l limit).length = l.length := by
  have hp : (partial_insertion_sort l limit).Perm l := by
    cases l with
    | nil => rw [partial_insertion_sort_nil]
    | cons a rest =>
        rw [partial_insertion_sort_eq]
        refine (loopSpec_perm limit rest [a] []).trans ?_
        simp
  exact hp.length_eq

/-- Inductive bounds invariant of the picker: the cursor stays within
[0, endMoves]; when cur/endMoves address the moves buffer, endMoves is
within the buffer and the bad-capture partition is below endMoves; when
they address the refutations array, the stage is REFUTATION, at most
three entries are addressed and the bad-capture partition still fits the
buffer; during GOOD_CAPTURE the bad-capture partition trails the cursor;
evasion/probcut/qsearch stages have an empty bad-capture partition; the
refutations array has exactly three slots. -/
def PickerInv (st : Picker) : Prop :=
  st.cur ≤ st.endMoves
  ∧ (st.inRefs = false → st.endMoves ≤ st.buf.length
      ∧ st.endBad ≤ st.endMoves)
  ∧ (st.inRefs = true → st.stage = REFUTATION ∧ st.endMoves ≤ 3
      ∧ st.endBad ≤ st.buf.length)
  ∧ (st.stage = GOOD_CAPTURE → st.endBad ≤ st.cur ∧ st.inRefs = false)
  ∧ (7 ≤ st.stage → st.endBad = 0)
  ∧ st.refutations.length = 3

theorem selectAux_pure_bounds (best : Bool) (filt : Picker → Bool × Picker)
    (hpure : ∀ s : Picker, (filt s).2 = s) (fuel : Nat) : ∀ st : Picker,
    st.cur ≤ st.endMoves →
    (selectAux best filt fuel st).2.cur
        ≤ (selectAux best filt fuel st).2.endMoves
    ∧ st.cur ≤ (selectAux best filt fuel st).2.cur
    ∧ (selectAux best filt fuel st).2.endMoves = st.endMoves
    ∧ (selectAux best filt fuel st).2.endBad = st.endBad
    ∧ (selectAux best filt fuel st).2.buf.length = st.buf.length
    ∧ (selectAux best filt fuel st).2.inRefs = st.inRefs
    ∧ (selectAux best filt fuel st).2.stage = st.stage
    ∧ (selectAux best filt fuel st).2.refutations = st.refutations := by
  induction fuel with
  | zero => intro st h; exact ⟨h, le_refl _, rfl, rfl, rfl, rfl, rfl, rfl⟩
  | succ fuel ih =>
      intro st h
      rw [selectAux]
      by_cases hc : st.cur < st.endMoves
      · rw [if_pos hc]
        have e : (if best then swapMax st else st).cur = st.cur
            ∧ (if best then swapMax st else st).endMoves = st.endMoves
            ∧ (if best then swapMax st else st).endBad = st.endBad
            ∧ (if best then swapMax st else st).buf.length = st.buf.length
            ∧ (if best then swapMax st else st).inRefs = st.inRefs
            ∧ (if best then swapMax st else st).stage = st.stage
            ∧ (if best then swapMax st else st).refutations
                = st.refutations := by
          by_cases hb : best = true <;> simp [hb, swapMax]
        obtain ⟨e1, e2, e3, e4, e5, e6, e7⟩ := e
        by_cases hne : (getCur (if best then swapMax st else st)).move
            ≠ (if best then swapMax st else st).ttMove
        · rw [if_pos hne]
          rcases hflt : filt (if best then swapMax st else st) with ⟨ok, st2⟩
          have hst2 : st2 = (if best then swapMax st else st) := by
            have := hpure (if best then swapMax st else st)
            rw [hflt] at this
            exact this
          cases ok with
          | true =>
              simp only
              subst hst2
              refine ⟨?_, ?_, e2, e3, e4, e5, e6, e7⟩
              · show (if best then swapMax st else st).cur + 1
                  ≤ (if best then swapMax st else st).endMoves
                rw [e1, e2]
                omega
              · show st.cur ≤ (if best then swapMax st else st).cur + 1
                rw [e1]
                omega
          | false =>
              simp only
              subst hst2
              have hpre : ({ (if best then swapMax st else st) with
                  cur := (if best then swapMax st else st).cur + 1 }
                    : Picker).cur
                  ≤ ({ (if best then swapMax st else st) with
                  cur := (if best then swapMax st else st).cur + 1 }
                    : Picker).endMoves := by
                show (if best then swapMax st else st).cur + 1
                  ≤ (if best then swapMax st else st).endMoves
                rw [e1, e2]
                omega
              obtain ⟨r1, r2, r3, r4, r5, r6, r7, r8⟩ :=
                ih { (if best then swapMax st else st) with
                  cur := (if best then swapMax st else st).cur + 1 } hpre
              refine ⟨r1, ?_, ?_, ?_, ?_, ?_, ?_, ?_⟩
              · refine le_trans ?_ r2
                show st.cur ≤ (if best then swapMax st else st).cur + 1
                rw [e1]
                omega
              · rw [r3]; exact e2
              · rw [r4]; exact e3
              · rw [r5]; exact e4
              · rw [r6]; exact e5
              · rw [r7]; exact e6
              · rw [r8]; exact e7
        · rw [if_neg hne]
          have hpre : ({ (if best then swapMax st else st) with
              cur := (if best then swapMax st else st).cur + 1 }
                : Picker).cur
              ≤ ({ (if best then swapMax st else st) with
              cur := (if best then swapMax st else st).cur + 1 }
                : Picker).endMoves := by
            show (if best then swapMax st else st).cur + 1
              ≤ (if best then swapMax st else st).endMoves
            rw [e1, e2]
            omega
          obtain ⟨r1, r2, r3, r4, r5, r6, r7, r8⟩ :=
            ih { (if best then swapMax st else st) with
              cur := (if best then swapMax st else st).cur + 1 } hpre
          refine ⟨r1, ?_, ?_, ?_, ?_, ?_, ?_, ?_⟩
          · refine le_trans ?_ r2
            show st.cur ≤ (if best then swapMax st else st).cur + 1
            rw [e1]
            omega
          · rw [r3]; exact e2
          · rw [r4]; exact e3
          · rw [r5]; exact e4
          · rw [r6]; exact e5
          · rw [r7]; exact e6
          · rw [r8]; exact e7
      · rw [if_neg hc]
        exact ⟨h, le_refl _, rfl, rfl, rfl, rfl, rfl, rfl⟩

theorem gcFilter_bounds (s : Picker) :
    (gcFilter s).2.cur = s.cur
    ∧ (gcFilter s).2.endMoves = s.endMoves
    ∧ (gcFilter s).2.buf.length = s.buf.length
    ∧ (gcFilter s).2.inRefs = s.inRefs
    ∧ s.endBad ≤ (gcFilter s).2.endBad
    ∧ (gcFilter s).2.endBad ≤ s.endBad + 1 := by
  unfold gcFilter
  by_cases hsee : s.pos.seeGe (getCur s).move
      (Int.tdiv (-69 * (getCur s).value) 1024) = true
  · rw [if_pos hsee]
    exact ⟨rfl, rfl, rfl, rfl, le_refl s.endBad, Nat.le_succ s.endBad⟩
  · rw [if_neg hsee]
    exact ⟨rfl, rfl, List.length_set s.buf s.endBad (getCur s), rfl,
      Nat.le_succ s.endBad, le_refl (s.endBad + 1)⟩

theorem selectAux_gc_bounds (best : Bool) (fuel : Nat) : ∀ st : Picker,
    st.cur ≤ st.endMoves → st.endBad ≤ st.cur →
    (selectAux best gcFilter fuel st).2.cur
        ≤ (selectAux best gcFilter fuel st).2.endMoves
    ∧ (selectAux best gcFilter fuel st).2.endBad
        ≤ (selectAux best gcFilter fuel st).2.cur
    ∧ (selectAux best gcFilter fuel st).2.endMoves = st.endMoves
    ∧ (selectAux best gcFilter fuel st).2.buf.length = st.buf.length
    ∧ (selectAux best gcFilter fuel st).2.inRefs = st.inRefs := by
  induction fuel with
  | zero => intro st h1 h2; exact ⟨h1, h2, rfl, rfl, rfl⟩
  | succ fuel ih =>
      intro st h1 h2
      rw [selectAux]
      by_cases hc : st.cur < st.endMoves
      · rw [if_pos hc]
        have e : (if best then swapMax st else st).cur = st.cur
            ∧ (if best then swapMax st else st).endMoves = st.endMoves
            ∧ (if best then swapMax st else st).endBad = st.endBad
            ∧ (if best then swapMax st else st).buf.length = st.buf.length
            ∧ (if best then swapMax st else st).inRefs = st.inRefs := by
          by_cases hb : best = true <;> simp [hb, swapMax]
        obtain ⟨e1, e2, e3, e4, e5⟩ := e
        by_cases hne : (getCur (if best then swapMax st else st)).move
            ≠ (if best then swapMax st else st).ttMove
        · rw [if_pos hne]
          rcases hflt : gcFilter (if best then swapMax st else st)
            with ⟨ok, st2⟩
          have hs := gcFilter_bounds (if best then swapMax st else st)
          rw [hflt] at hs
          simp only at hs
          obtain ⟨f1, f2, f3, f4, f5, f6⟩ := hs
          cases ok with
          | true =>
              simp only
              refine ⟨?_, ?_, ?_, ?_, ?_⟩
              · show st2.cur + 1 ≤ st2.endMoves
                rw [f1, f2, e1, e2]
                omega
              · show st2.endBad ≤ st2.cur + 1
                rw [f1, e1, e3] at *
                omega
              · show st2.endMoves = st.endMoves
                rw [f2, e2]
              · show st2.buf.length = st.buf.length
                rw [f3, e4]
              · show st2.inRefs = st.inRefs
                rw [f4, e5]
          | false =>
              simp only
              have hp1 : ({ st2 with cur := st2.cur + 1 } : Picker).cur
                  ≤ ({ st2 with cur := st2.cur + 1 } : Picker).endMoves := by
                show st2.cur + 1 ≤ st2.endMoves
                rw [f1, f2, e1, e2]
                omega
              have hp2 : ({ st2 with cur := st2.cur + 1 } : Picker).endBad
                  ≤ ({ st2 with cur := st2.cur + 1 } : Picker).cur := by
                show st2.endBad ≤ st2.cur + 1
                rw [f1, e1, e3] at *
                omega
              obtain ⟨r1, r2, r3, r4, r5⟩ :=
                ih { st2 with cur := st2.cur + 1 } hp1 hp2
              refine ⟨r1, r2, ?_, ?_, ?_⟩
              · rw [r3]
                show st2.endMoves = st.endMoves
                rw [f2, e2]
              · rw [r4]
                show st2.buf.length = st.buf.length
                rw [f3, e4]
              · rw [r5]
                show st2.inRefs = st.inRefs
                rw [f4, e5]
        · rw [if_neg hne]
          have hp1 : ({ (if best then swapMax st else st) with
              cur := (if best then swapMax st else st).cur + 1 }
                : Picker).cur
              ≤ ({ (if best then swapMax st else st) with
              cur := (if best then swapMax st else st).cur + 1 }
                : Picker).endMoves := by
            show (if best then swapMax st else st).cur + 1
              ≤ (if best then swapMax st else st).endMoves
            rw [e1, e2]
            omega
          have hp2 : ({ (if best then swapMax st else st) with
              cur := (if best then swapMax st else st).cur + 1 }
                : Picker).endBad
              ≤ ({ (if best then swapMax st else st) with
              cur := (if best then swapMax st else st).cur + 1 }
                : Picker).cur := by
            show (if best then swapMax st else st).endBad
              ≤ (if best then swapMax st else st).cur + 1
            rw [e1, e3]
            omega
          obtain ⟨r1, r2, r3, r4, r5⟩ :=
            ih { (if best then swapMax st else st) with
              cur := (if best then swapMax st else st).cur + 1 } hp1 hp2
          refine ⟨r1, r2, ?_, ?_, ?_⟩
          · rw [r3]; exact e2
          · rw [r4]; exact e4
          · rw [r5]; exact e5
      · rw [if_neg hc]
        exact ⟨h1, h2, rfl, rfl, rfl⟩

theorem select_pure_bounds (best : Bool) (filt : Picker → Bool × Picker)
    (hpure : ∀ s : Picker, (filt s).2 = s) (st : Picker)
    (h : st.cur ≤ st.endMoves) :
    (select best filt st).2.cur ≤ (select best filt st).2.endMoves
    ∧ st.cur ≤ (select best filt st).2.cur
    ∧ (select best filt st).2.endMoves = st.endMoves
    ∧ (select best filt st).2.endBad = st.endBad
    ∧ (select best filt st).2.buf.length = st.buf.length
    ∧ (select best filt st).2.inRefs = st.inRefs
    ∧ (select best filt st).2.stage = st.stage
    ∧ (select best filt st).2.refutations = st.refutations :=
  selectAux_pure_bounds best filt hpure (st.endMoves - st.cur) st h

theorem select_gc_bounds (best : Bool) (st : Picker)
    (h1 : st.cur ≤ st.endMoves) (h2 : st.endBad ≤ st.cur) :
    (select best gcFilter st).2.cur ≤ (select best gcFilter st).2.endMoves
    ∧ (select best gcFilter st).2.endBad ≤ (select best gcFilter st).2.cur
    ∧ (select best gcFilter st).2.endMoves = st.endMoves
    ∧ (select best gcFilter st).2.buf.length = st.buf.length
    ∧ (select best gcFilter st).2.inRefs = st.inRefs :=
  selectAux_gc_bounds best (st.endMoves - st.cur) st h1 h2

theorem select_pure_inv (best : Bool) (filt : Picker → Bool × Picker)
    (hpure : ∀ s : Picker, (filt s).2 = s) (st : Picker)
    (hinv : PickerInv st) :
    PickerInv (select best filt st).2 := by
  obtain ⟨r1, r2, r3, r4, r5, r6, r7, r8⟩ :=
    select_pure_bounds best filt hpure st hinv.1
  obtain ⟨i1, i2, i3, i4, i5, i6⟩ := hinv
  refine ⟨r1, ?_, ?_, ?_, ?_, ?_⟩
  · intro h
    rw [r6] at h
    obtain ⟨a, b⟩ := i2 h
    rw [r3, r4, r5]
    exact ⟨a, b⟩
  · intro h
    rw [r6] at h
    obtain ⟨a, b, c⟩ := i3 h
    rw [r3, r4, r5, r7]
    exact ⟨a, b, c⟩
  · intro h
    rw [r7] at h
    obtain ⟨a, b⟩ := i4 h
    rw [r4, r6]
    exact ⟨le_trans a r2, b⟩
  · intro h
    rw [r7] at h
    rw [r4]
    exact i5 h
  · rw [r8]
    exact i6

theorem captureInit_inv (sm : Bool) (st : Picker)
    (hrefs : st.refutations.length = 3) : PickerInv (captureInit sm st) := by
  have hlen : (captureInit sm st).buf.length
      = (captureInit sm st).endMoves := by
    show (partial_insertion_sort (st.pos.genCaptures.map
        (fun m => scoreCapture sm st.pos st.hists m)) (-2147483648)).length
      = (st.pos.genCaptures.map
        (fun m => scoreCapture sm st.pos st.hists m)).length
    rw [pis_length]
  refine ⟨Nat.zero_le _, ?_, ?_, ?_, ?_, hrefs⟩
  · intro _
    exact ⟨le_of_eq hlen.symm, Nat.zero_le _⟩
  · intro h
    exact absurd h Bool.false_ne_true
  · intro _
    exact ⟨Nat.zero_le _, rfl⟩
  · intro _
    rfl

theorem quietStep_inv (skip : Bool) (st : Picker) (hst : st.stage = 5)
    (hbl : st.endBad ≤ st.buf.length)
    (hrefs : st.refutations.length = 3)
    (hsc : skip = false → st.cur ≤ st.endMoves
      ∧ st.endMoves ≤ st.buf.length ∧ st.endBad ≤ st.endMoves
      ∧ st.inRefs = false) :
    PickerInv (quietStep skip st).2 := by
  unfold quietStep
  by_cases hskip : skip = true
  · rw [if_pos hskip]
    rw [if_neg (fun hc => hc rfl)]
    refine select_pure_inv false trueFilter (fun _ => rfl) _ ?_
    refine ⟨Nat.zero_le _, ?_, ?_, ?_, ?_, hrefs⟩
    · intro _
      exact ⟨hbl, le_refl _⟩
    · intro h
      exact absurd h Bool.false_ne_true
    · intro h
      have h' : st.stage + 1 = 2 := h
      omega
    · intro h
      have h' : 7 ≤ st.stage + 1 := h
      omega
  · have hskf : skip = false := by revert hskip; cases skip <;> simp
    rw [if_neg hskip]
    obtain ⟨hcu, hem, hbe, hir⟩ := hsc hskf
    have hinvst : PickerInv st := by
      refine ⟨hcu, fun _ => ⟨hem, hbe⟩, ?_, ?_, ?_, hrefs⟩
      · intro h
        exact absurd (hir.symm.trans h) Bool.false_ne_true
      · intro h
        have h' : (5 : Nat) = 2 := hst.symm.trans h
        exact absurd h' (by decide)
      · intro h
        have h' : (7 : Nat) ≤ 5 := by rw [hst] at h; exact h
        exact absurd h' (by decide)
    have hr := select_pure_inv false quietFilter (fun _ => rfl) st hinvst
    obtain ⟨s1, s2, s3, s4, s5, s6, s7, s8⟩ :=
      select_pure_bounds false quietFilter (fun _ => rfl) st hcu
    by_cases hres : (select false quietFilter st).1 ≠ Move.none
    · rw [if_pos hres]
      exact hr
    · rw [if_neg hres]
      refine select_pure_inv false trueFilter (fun _ => rfl) _ ?_
      refine ⟨Nat.zero_le _, ?_, ?_, ?_, ?_, ?_⟩
      · intro _
        constructor
        · show (select false quietFilter st).2.endBad
            ≤ (select false quietFilter st).2.buf.length
          rw [s4, s5]
          exact le_trans hbe hem
        · exact le_refl _
      · intro h
        exact absurd h Bool.false_ne_true
      · intro h
        have h' : (select false quietFilter st).2.stage + 1 = 2 := h
        rw [s7, hst] at h'
        omega
      · intro h
        have h' : 7 ≤ (select false quietFilter st).2.stage + 1 := h
        rw [s7, hst] at h'
        omega
      · show (select false quietFilter st).2.refutations.length = 3
        rw [s8]
        exact hrefs

theorem ite_le_23 (c : Prop) [Decidable c] : (if c then 2 else 3 : Nat) ≤ 3 := by
  by_cases h : c
  · rw [if_pos h]; omega
  · rw [if_neg h]

theorem quietInitStep_inv (sm skip : Bool) (st : Picker) (hst : st.stage = 4)
    (hbl : st.endBad ≤ st.buf.length) (hrefs : st.refutations.length = 3) :
    PickerInv (quietInitStep sm skip st).2 := by
  unfold quietInitStep
  by_cases hskip : skip = true
  · rw [if_pos hskip]
    refine quietStep_inv skip _ ?_ ?_ ?_ ?_
    · show st.stage + 1 = 5
      omega
    · exact hbl
    · exact hrefs
    · intro h
      rw [hskip] at h
      exact absurd h (by decide)
  · rw [if_neg hskip]
    refine quietStep_inv skip _ ?_ ?_ ?_ ?_
    · show st.stage + 1 = 5
      omega
    · show st.endBad ≤ (st.buf.take st.endBad
        ++ partial_insertion_sort
            (st.pos.genQuiets.map
              (fun m => (⟨m, scoreQuiet sm st.pos st.hists m⟩ : ExtMove)))
            (-3000 * st.depth)).length
      rw [List.length_append, List.length_take, pis_length, List.length_map]
      omega
    · exact hrefs
    · intro _
      refine ⟨?_, ?_, ?_, rfl⟩
      · show st.endBad ≤ st.endBad + st.pos.genQuiets.length
        omega
      · show st.endBad + st.pos.genQuiets.length ≤ (st.buf.take st.endBad
          ++ partial_insertion_sort
              (st.pos.genQuiets.map
                (fun m => (⟨m, scoreQuiet sm st.pos st.hists m⟩ : ExtMove)))
              (-3000 * st.depth)).length
        rw [List.length_append, List.length_take, pis_length, List.length_map]
        omega
      · show st.endBad ≤ st.endBad + st.pos.genQuiets.length
        omega

theorem refutationStep_inv (sm skip : Bool) (st : Picker) (hst : st.stage = 3)
    (hinv : PickerInv st) : PickerInv (refutationStep sm skip st).2 := by
  unfold refutationStep
  have hr := select_pure_inv false refFilter (fun _ => rfl) st hinv
  obtain ⟨s1, s2, s3, s4, s5, s6, s7, s8⟩ :=
    select_pure_bounds false refFilter (fun _ => rfl) st hinv.1
  by_cases hres : (select false refFilter st).1 ≠ Move.none
  · rw [if_pos hres]
    exact hr
  · rw [if_neg hres]
    refine quietInitStep_inv sm skip _ ?_ ?_ ?_
    · show (select false refFilter st).2.stage + 1 = 4
      rw [s7, hst]
    · show (select false refFilter st).2.endBad
        ≤ (select false refFilter st).2.buf.length
      rw [s4, s5]
      cases hir : st.inRefs with
      | false =>
          obtain ⟨a, b⟩ := hinv.2.1 hir
          exact le_trans b a
      | true => exact (hinv.2.2.1 hir).2.2
    · show (select false refFilter st).2.refutations.length = 3
      rw [s8]
      exact hinv.2.2.2.2.2

theorem goodCaptureStep_inv (sm skip : Bool) (st : Picker)
    (hst : st.stage = 2) (hinv : PickerInv st) :
    PickerInv (goodCaptureStep sm skip st).2 := by
  unfold goodCaptureStep
  obtain ⟨hbc, hirf⟩ := hinv.2.2.2.1 hst
  obtain ⟨g1, g2, g3, g4, g5⟩ := select_gc_bounds false st hinv.1 hbc
  obtain ⟨_, _, p3, _, _, p6, _, _⟩ := select_spec false gcFilter gcFilter_pres st
  by_cases hres : (select false gcFilter st).1 ≠ Move.none
  · rw [if_pos hres]
    refine ⟨g1, ?_, ?_, ?_, ?_, ?_⟩
    · intro _
      refine ⟨?_, le_trans g2 g1⟩
      rw [g3, g4]
      exact (hinv.2.1 hirf).1
    · intro h
      rw [g5] at h
      exact absurd (hirf.symm.trans h) Bool.false_ne_true
    · intro _
      refine ⟨g2, ?_⟩
      rw [g5]
      exact hirf
    · intro h
      rw [p3, hst] at h
      exact absurd h (by decide)
    · rw [p6]
      exact hinv.2.2.2.2.2
  · rw [if_neg hres]
    refine refutationStep_inv sm skip _ ?_ ?_
    · show (select false gcFilter st).2.stage + 1 = 3
      rw [p3, hst]
    · refine ⟨Nat.zero_le _, ?_, ?_, ?_, ?_, ?_⟩
      · intro h
        simp at h
      · intro _
        refine ⟨?_, ?_, ?_⟩
        · show (select false gcFilter st).2.stage + 1 = REFUTATION
          rw [p3, hst]
          rfl
        · exact ite_le_23 _
        · show (select false gcFilter st).2.endBad
            ≤ (select false gcFilter st).2.buf.length
          refine le_trans (le_trans g2 g1) ?_
          rw [g3, g4]
          exact (hinv.2.1 hirf).1
      · intro h
        have h' : (select false gcFilter st).2.stage + 1 = 2 := h
        rw [p3, hst] at h'
        exact absurd h' (by decide)
      · intro h
        have h' : 7 ≤ (select false gcFilter st).2.stage + 1 := h
        rw [p3, hst] at h'
        exact absurd h' (by decide)
      · show (select false gcFilter st).2.refutations.length = 3
        rw [p6]
        exact hinv.2.2.2.2.2

theorem qcheckInitStep_inv (st : Picker) (hst : st.stage = 16)
    (hinv : PickerInv st) : PickerInv (qcheckInitStep st).2 := by
  unfold qcheckInitStep qcheckStep
  refine select_pure_inv false trueFilter (fun _ => rfl) _ ?_
  have hb0 : st.endBad = 0 := hinv.2.2.2.2.1 (by omega)
  refine ⟨Nat.zero_le _, ?_, ?_, ?_, ?_, hinv.2.2.2.2.2⟩
  · intro _
    constructor
    · exact le_refl _
    · show st.endBad ≤ _
      rw [hb0]
      exact Nat.zero_le _
  · intro h
    exact absurd h Bool.false_ne_true
  · intro h
    have h' : st.stage + 1 = 2 := h
    omega
  · intro _
    show st.endBad = 0
    exact hb0

theorem qcaptureStep_inv (st : Picker) (hst : st.stage = 15)
    (hinv : PickerInv st) : PickerInv (qcaptureStep st).2 := by
  unfold qcaptureStep
  have hr := select_pure_inv false qcapFilter (fun _ => rfl) st hinv
  obtain ⟨s1, s2, s3, s4, s5, s6, s7, s8⟩ :=
    select_pure_bounds false qcapFilter (fun _ => rfl) st hinv.1
  by_cases hres : (select false qcapFilter st).1 ≠ Move.none
  · rw [if_pos hres]
    exact hr
  · rw [if_neg hres]
    by_cases hd : (select false qcapFilter st).2.depth ≠ DEPTH_QS_CHECKS
    · rw [if_pos hd]
      exact hr
    · rw [if_neg hd]
      refine qcheckInitStep_inv _ ?_ ?_
      · show (select false qcapFilter st).2.stage + 1 = 16
        rw [s7, hst]
      · obtain ⟨i1, i2, i3, i4, i5, i6⟩ := hr
        refine ⟨i1, ?_, ?_, ?_, ?_, i6⟩
        · intro h
          exact i2 h
        · intro h
          exfalso
          have h3 := (i3 h).1
          rw [s7, hst] at h3
          exact absurd h3 (by decide)
        · intro h
          have h' : (select false qcapFilter st).2.stage + 1 = 2 := h
          rw [s7, hst] at h'
          exact absurd h' (by decide)
        · intro _
          show (select false qcapFilter st).2.endBad = 0
          rw [s4]
          exact hinv.2.2.2.2.1 (by omega)

theorem next_move_inv (sm skip : Bool) (st : Picker) (hinv : PickerInv st) :
    PickerInv (next_move sm skip st).2 := by
  unfold next_move
  by_cases h0 : st.stage = MAIN_TT ∨ st.stage = EVASION_TT
      ∨ st.stage = QSEARCH_TT ∨ st.stage = PROBCUT_TT
  · rw [if_pos h0]
    have h0n : st.stage = 0 ∨ st.stage = 7 ∨ st.stage = 13 ∨ st.stage = 10 := h0
    obtain ⟨i1, i2, i3, i4, i5, i6⟩ := hinv
    refine ⟨i1, ?_, ?_, ?_, ?_, i6⟩
    · intro h
      exact i2 h
    · intro h
      exfalso
      have h3 : st.stage = 3 := (i3 h).1
      rcases h0n with hh | hh | hh | hh <;> omega
    · intro h
      have h' : st.stage + 1 = 2 := h
      exfalso
      rcases h0n with hh | hh | hh | hh <;> omega
    · intro h
      have h' : 7 ≤ st.stage + 1 := h
      refine i5 ?_
      rcases h0n with hh | hh | hh | hh <;> omega
  · rw [if_neg h0]
    by_cases h1 : st.stage = CAPTURE_INIT
    · rw [if_pos h1]
      have hs : st.stage = 1 := h1
      exact goodCaptureStep_inv sm skip (captureInit sm st)
        (show st.stage + 1 = 2 by omega)
        (captureInit_inv sm st hinv.2.2.2.2.2)
    · rw [if_neg h1]
      by_cases h2 : st.stage = PROBCUT_INIT
      · rw [if_pos h2]
        exact select_pure_inv false probcutFilter (fun _ => rfl)
          (captureInit sm st) (captureInit_inv sm st hinv.2.2.2.2.2)
      · rw [if_neg h2]
        by_cases h3 : st.stage = QCAPTURE_INIT
        · rw [if_pos h3]
          have hs : st.stage = 14 := h3
          exact qcaptureStep_inv (captureInit sm st)
            (show st.stage + 1 = 15 by omega)
            (captureInit_inv sm st hinv.2.2.2.2.2)
        · rw [if_neg h3]
          by_cases h4 : st.stage = GOOD_CAPTURE
          · rw [if_pos h4]
            exact goodCaptureStep_inv sm skip st h4 hinv
          · rw [if_neg h4]
            by_cases h5 : st.stage = REFUTATION
            · rw [if_pos h5]
              exact refutationStep_inv sm skip st h5 hinv
            · rw [if_neg h5]
              by_cases h6 : st.stage = QUIET_INIT
              · rw [if_pos h6]
                have hbl : st.endBad ≤ st.buf.length := by
                  cases hir : st.inRefs with
                  | false =>
                      obtain ⟨a, b⟩ := hinv.2.1 hir
                      exact le_trans b a
                  | true => exact (hinv.2.2.1 hir).2.2
                exact quietInitStep_inv sm skip st h6 hbl hinv.2.2.2.2.2
              · rw [if_neg h6]
                by_cases h7 : st.stage = QUIET
                · rw [if_pos h7]
                  have hs : st.stage = 5 := h7
                  have hirf : st.inRefs = false := by
                    cases hir : st.inRefs with
                    | false => rfl
                    | true =>
                        exfalso
                        have h3' : st.stage = 3 := (hinv.2.2.1 hir).1
                        omega
                  have hbl : st.endBad ≤ st.buf.length := by
                    obtain ⟨a, b⟩ := hinv.2.1 hirf
                    exact le_trans b a
                  refine quietStep_inv skip st hs hbl hinv.2.2.2.2.2 ?_
                  intro _
                  exact ⟨hinv.1, (hinv.2.1 hirf).1, (hinv.2.1 hirf).2, hirf⟩
                · rw [if_neg h7]
                  by_cases h8 : st.stage = BAD_CAPTURE
                  · rw [if_pos h8]
                    exact select_pure_inv false trueFilter (fun _ => rfl)
                      st hinv
                  · rw [if_neg h8]
                    by_cases h9 : st.stage = EVASION_INIT
                    · rw [if_pos h9]
                      have hs : st.stage = 8 := h9
                      have hb0 : st.endBad = 0 :=
                        hinv.2.2.2.2.1 (by omega)
                      refine select_pure_inv true trueFilter (fun _ => rfl)
                        (evasionInit st) ?_
                      refine ⟨Nat.zero_le _, ?_, ?_, ?_, ?_,
                        hinv.2.2.2.2.2⟩
                      · intro _
                        refine ⟨le_refl _, ?_⟩
                        show st.endBad ≤ _
                        rw [hb0]
                        exact Nat.zero_le _
                      · intro h
                        exact absurd h Bool.false_ne_true
                      · intro h
                        have h' : st.stage + 1 = 2 := h
                        exfalso
                        omega
                      · intro _
                        show st.endBad = 0
                        exact hb0
                    · rw [if_neg h9]
                      by_cases h10 : st.stage = EVASION
                      · rw [if_pos h10]
                        exact select_pure_inv true trueFilter (fun _ => rfl)
                          st hinv
                      · rw [if_neg h10]
                        by_cases h11 : st.stage = PROBCUT
                        · rw [if_pos h11]
                          exact select_pure_inv false probcutFilter
                            (fun _ => rfl) st hinv
                        · rw [if_neg h11]
                          by_cases h12 : st.stage = QCAPTURE
                          · rw [if_pos h12]
                            exact qcaptureStep_inv st h12 hinv
                          · rw [if_neg h12]
                            by_cases h13 : st.stage = QCHECK_INIT
                            · rw [if_pos h13]
                              exact qcheckInitStep_inv st h13 hinv
                            · rw [if_neg h13]
                              by_cases h14 : st.stage = QCHECK
                              · rw [if_pos h14]
                                exact select_pure_inv false trueFilter
                                  (fun _ => rfl) st hinv
                              · rw [if_neg h14]
                                exact hinv

theorem stateAfter_inv (sm skip : Bool) (st : Picker)
    (hinv : PickerInv st) (n : Nat) :
    PickerInv (stateAfter sm skip st n) := by
  induction n with
  | zero => exact hinv
  | succ k ih => exact next_move_inv sm skip (stateAfter sm skip st k) ih

theorem mkMain_inv (pos : Position) (hi : Hists) (ttm : Move) (d : Int)
    (cm k0 k1 : Move) : PickerInv (mkMain pos hi ttm d cm k0 k1) := by
  refine ⟨le_refl _, ?_, ?_, ?_, ?_, rfl⟩
  · intro _
    exact ⟨le_refl _, le_refl _⟩
  · intro h
    exact absurd h Bool.false_ne_true
  · intro h
    exfalso
    have h' : (if pos.checkers = true then 7 else 0)
        + (if ttm ≠ Move.none ∧ pos.pseudoLegal ttm = true
            then 0 else 1) = 2 := h
    split_ifs at h' <;> omega
  · intro _
    rfl

/-- C7 (amended): between calls to next_move on a main-search picker, the
bounds hold with respect to the array the cursor actually addresses.  While
cur/endMoves address the moves buffer, cur ≤ endMoves ≤ buffer length and
endBadCaptures ≤ endMoves.  While they address the refutations array the
stage is REFUTATION and cur ≤ endMoves ≤ 3 = number of refutation slots;
there endBadCaptures ≤ endMoves can fail, because endMoves then counts
refutation entries while endBadCaptures still counts banked bad captures
in the moves buffer, so the claim as stated is false during REFUTATION. -/
theorem picker_bounds_invariant (sm skip : Bool) (pos : Position)
    (hi : Hists) (ttm : Move) (d : Int) (cm k0 k1 : Move) (n : Nat) :
    ((stateAfter sm skip (mkMain pos hi ttm d cm k0 k1) n).inRefs = false →
      (stateAfter sm skip (mkMain pos hi ttm d cm k0 k1) n).cur
        ≤ (stateAfter sm skip (mkMain pos hi ttm d cm k0 k1) n).endMoves
      ∧ (stateAfter sm skip (mkMain pos hi ttm d cm k0 k1) n).endMoves
        ≤ (stateAfter sm skip (mkMain pos hi ttm d cm k0 k1) n).buf.length
      ∧ (stateAfter sm skip (mkMain pos hi ttm d cm k0 k1) n).endBad
        ≤ (stateAfter sm skip (mkMain pos hi ttm d cm k0 k1) n).endMoves)
    ∧ ((stateAfter sm skip (mkMain pos hi ttm d cm k0 k1) n).inRefs = true →
      (stateAfter sm skip (mkMain pos hi ttm d cm k0 k1) n).stage = REFUTATION
      ∧ (stateAfter sm skip (mkMain pos hi ttm d cm k0 k1) n).cur
        ≤ (stateAfter sm skip (mkMain pos hi ttm d cm k0 k1) n).endMoves
      ∧ (stateAfter sm skip (mkMain pos hi ttm d cm k0 k1) n).endMoves
        ≤ (stateAfter sm skip
            (mkMain pos hi ttm d cm k0 k1) n).refutations.length) := by
  obtain ⟨i1, i2, i3, i4, i5, i6⟩ :=
    stateAfter_inv sm skip _ (mkMain_inv pos hi ttm d cm k0 k1) n
  constructor
  · intro h
    obtain ⟨a, b⟩ := i2 h
    exact ⟨i1, a, b⟩
  · intro h
    obtain ⟨a, b, _⟩ := i3 h
    refine ⟨a, i1, ?_⟩
    rw [i6]
    exact b

/-- Position used for the C7 counterexample and witness: three generated
captures that all fail see_ge, and one pseudo-legal quiet killer. -/
def c7Pos : Position :=
  { pseudoLegal := fun m => decide (m = Move.mkNormal 12 20),
    genCaptures := [Move.mkNormal 0 8, Move.mkNormal 1 9, Move.mkNormal 2 10],
    seeGe := fun _ _ => false }

theorem picker_bounds_refutation_counterexample :
    (stateAfter false false
        (mkMain c7Pos {} Move.none 4 (Move.mkNormal 12 20)
          (Move.mkNormal 12 20) (Move.mkNormal 13 21)) 1).stage = REFUTATION
    ∧ (stateAfter false false
        (mkMain c7Pos {} Move.none 4 (Move.mkNormal 12 20)
          (Move.mkNormal 12 20) (Move.mkNormal 13 21)) 1).endMoves
      < (stateAfter false false
        (mkMain c7Pos {} Move.none 4 (Move.mkNormal 12 20)
          (Move.mkNormal 12 20) (Move.mkNormal 13 21)) 1).endBad := by
  decide

theorem picker_bounds_invariant_witness :
    (stateAfter false false
        (mkMain c7Pos {} Move.none 4 (Move.mkNormal 12 20)
          (Move.mkNormal 12 20) (Move.mkNormal 13 21)) 1).inRefs = true
    ∧ ((stateAfter false false
        (mkMain c7Pos {} Move.none 4 (Move.mkNormal 12 20)
          (Move.mkNormal 12 20) (Move.mkNormal 13 21)) 1).stage = REFUTATION
      ∧ (stateAfter false false
        (mkMain c7Pos {} Move.none 4 (Move.mkNormal 12 20)
          (Move.mkNormal 12 20) (Move.mkNormal 13 21)) 1).cur
        ≤ (stateAfter false false
        (mkMain c7Pos {} Move.none 4 (Move.mkNormal 12 20)
          (Move.mkNormal 12 20) (Move.mkNormal 13 21)) 1).endMoves
      ∧ (stateAfter false false
        (mkMain c7Pos {} Move.none 4 (Move.mkNormal 12 20)
          (Move.mkNormal 12 20) (Move.mkNormal 13 21)) 1).endMoves
        ≤ (stateAfter false false
        (mkMain c7Pos {} Move.none 4 (Move.mkNormal 12 20)
          (Move.mkNormal 12 20) (Move.mkNormal 13 21)) 1).refutations.length) :=
  ⟨by decide,
   (picker_bounds_invariant false false c7Pos {} Move.none 4
      (Move.mkNormal 12 20) (Move.mkNormal 12 20) (Move.mkNormal 13 21) 1).2
      (by decide)⟩

/-! ### C6: evasion ordering -/

theorem maxFrom_spec (l : List ExtMove) (fuel : Nat) : ∀ best k : Nat,
    (l.getD best default).value ≤ (l.getD (maxFrom l fuel best k) default).value
    ∧ (∀ i, k ≤ i → i < k + fuel →
        (l.getD i default).value
          ≤ (l.getD (maxFrom l fuel best k) default).value)
    ∧ (maxFrom l fuel best k = best
        ∨ (k ≤ maxFrom l fuel best k ∧ maxFrom l fuel best k < k + fuel)) := by
  induction fuel with
  | zero =>
      intro best k
      refine ⟨le_refl _, ?_, Or.inl rfl⟩
      intro i h1 h2
      omega
  | succ fuel ih =>
      intro best k
      rw [maxFrom]
      obtain ⟨A, B, C⟩ := ih
        (if (l.getD best default).value < (l.getD k default).value
          then k else best) (k + 1)
      have hbv : (l.getD best default).value
          ≤ (l.getD (if (l.getD best default).value
              < (l.getD k default).value then k else best) default).value := by
        by_cases hlt : (l.getD best default).value < (l.getD k default).value
        · rw [if_pos hlt]
          omega
        · rw [if_neg hlt]
      have hkv : (l.getD k default).value
          ≤ (l.getD (if (l.getD best default).value
              < (l.getD k default).value then k else best) default).value := by
        by_cases hlt : (l.getD best default).value < (l.getD k default).value
        · rw [if_pos hlt]
        · rw [if_neg hlt]
          omega
      refine ⟨le_trans hbv A, ?_, ?_⟩
      · intro i h1 h2
        by_cases hik : i = k
        · subst hik
          exact le_trans hkv A
        · exact B i (by omega) (by omega)
      · rcases C with hC | hC
        · by_cases hlt : (l.getD best default).value < (l.getD k default).value
          · right
            rw [hC, if_pos hlt]
            omega
          · left
            rw [hC, if_neg hlt]
        · right
          omega

theorem swapMax_buf_cur (st : Picker) (hcl : st.cur < st.buf.length) :
    (swapMax st).buf.getD st.cur default
      = st.buf.getD (maxFrom st.buf (st.endMoves - (st.cur + 1))
          st.cur (st.cur + 1)) default := by
  unfold swapMax
  by_cases hj : maxFrom st.buf (st.endMoves - (st.cur + 1))
      st.cur (st.cur + 1) = st.cur
  · rw [hj]
    show ((st.buf.set st.cur (st.buf.getD st.cur default)).set st.cur
        (st.buf.getD st.cur default)).getD st.cur default
      = st.buf.getD st.cur default
    rw [getD_set_self]
    rw [if_pos (by rw [List.length_set]; exact hcl)]
  · show ((st.buf.set st.cur _).set (maxFrom st.buf
        (st.endMoves - (st.cur + 1)) st.cur (st.cur + 1)) _).getD
        st.cur default = _
    rw [getD_set_other _ _ _ _ _ hj]
    rw [getD_set_self]
    rw [if_pos hcl]

theorem swapMax_buf_max (st : Picker) (hc : st.cur < st.endMoves)
    (hem : st.endMoves ≤ st.buf.length) :
    ∀ k, st.cur + 1 ≤ k → k < st.endMoves →
      ((swapMax st).buf.getD k default).value
        ≤ ((swapMax st).buf.getD st.cur default).value := by
  intro k h1 h2
  obtain ⟨A, B, C⟩ := maxFrom_spec st.buf (st.endMoves - (st.cur + 1))
    st.cur (st.cur + 1)
  have hjlt : maxFrom st.buf (st.endMoves - (st.cur + 1)) st.cur (st.cur + 1)
      < st.buf.length := by
    rcases C with hC | hC
    · omega
    · omega
  rw [swapMax_buf_cur st (by omega)]
  by_cases hkj : k = maxFrom st.buf (st.endMoves - (st.cur + 1))
      st.cur (st.cur + 1)
  · have hk2 : (swapMax st).buf.getD k default
        = st.buf.getD st.cur default := by
      unfold swapMax
      rw [hkj]
      show ((st.buf.set st.cur _).set _ (st.buf.getD st.cur default)).getD
          _ default = _
      rw [getD_set_self]
      rw [if_pos (by rw [List.length_set]; exact hjlt)]
    rw [hk2]
    exact A
  · have hkc : ¬ st.cur = k := by omega
    have hk2 : (swapMax st).buf.getD k default
        = st.buf.getD k default := by
      unfold swapMax
      rw [getD_set_other _ _ _ _ _ (fun h => hkj h.symm)]
      rw [getD_set_other _ _ _ _ _ hkc]
    rw [hk2]
    exact B k h1 (by omega)

theorem getD_mem (l : List ExtMove) (i : Nat) (d : ExtMove)
    (h : i < l.length) : l.getD i d ∈ l := by
  induction l generalizing i with
  | nil => simp at h
  | cons a t ih =>
      cases i with
      | zero => exact List.mem_cons_self a t
      | succ n =>
          show t.getD n d ∈ a :: t
          refine List.mem_cons_of_mem a (ih n ?_)
          simp only [List.length_cons] at h
          omega

theorem mem_set_of_mem (l : List ExtMove) (i : Nat) (v e : ExtMove)
    (h : e ∈ l.set i v) : e ∈ l ∨ e = v := by
  induction l generalizing i with
  | nil => simp [List.set] at h
  | cons a t ih =>
      cases i with
      | zero =>
          rw [List.set_cons_zero] at h
          rcases List.mem_cons.mp h with h1 | h1
          · exact Or.inr h1
          · exact Or.inl (List.mem_cons_of_mem a h1)
      | succ n =>
          rw [List.set_cons_succ] at h
          rcases List.mem_cons.mp h with h1 | h1
          · exact Or.inl (h1 ▸ List.mem_cons_self a t)
          · rcases ih n h1 with h2 | h2
            · exact Or.inl (List.mem_cons_of_mem a h2)
            · exact Or.inr h2

theorem swapMax_len (st : Picker) :
    (swapMax st).buf.length = st.buf.length := by
  unfold swapMax
  rw [List.length_set, List.length_set]

theorem swapMax_mem (st : Picker) (e : ExtMove)
    (hcm : st.cur < st.endMoves) (hem : st.endMoves ≤ st.buf.length)
    (h : e ∈ (swapMax st).buf) : e ∈ st.buf := by
  obtain ⟨_, _, C⟩ := maxFrom_spec st.buf (st.endMoves - (st.cur + 1))
    st.cur (st.cur + 1)
  have hjl : maxFrom st.buf (st.endMoves - (st.cur + 1)) st.cur (st.cur + 1)
      < st.buf.length := by
    rcases C with hC | hC <;> omega
  unfold swapMax at h
  rcases mem_set_of_mem _ _ _ _ h with h1 | h1
  · rcases mem_set_of_mem _ _ _ _ h1 with h2 | h2
    · exact h2
    · rw [h2]
      exact getD_mem _ _ _ hjl
  · rw [h1]
    exact getD_mem _ _ _ (by omega)

theorem next_move_stage_eq (sm skip : Bool) (st : Picker)
    (hst : st.stage = 9) :
    next_move sm skip st = select true trueFilter st := by
  have h0 : ¬(st.stage = MAIN_TT ∨ st.stage = EVASION_TT
      ∨ st.stage = QSEARCH_TT ∨ st.stage = PROBCUT_TT) := by
    rw [hst]; decide
  have h1 : ¬ st.stage = CAPTURE_INIT := by rw [hst]; decide
  have h2 : ¬ st.stage = PROBCUT_INIT := by rw [hst]; decide
  have h3 : ¬ st.stage = QCAPTURE_INIT := by rw [hst]; decide
  have h4 : ¬ st.stage = GOOD_CAPTURE := by rw [hst]; decide
  have h5 : ¬ st.stage = REFUTATION := by rw [hst]; decide
  have h6 : ¬ st.stage = QUIET_INIT := by rw [hst]; decide
  have h7 : ¬ st.stage = QUIET := by rw [hst]; decide
  have h8 : ¬ st.stage = BAD_CAPTURE := by rw [hst]; decide
  have h9 : ¬ st.stage = EVASION_INIT := by rw [hst]; decide
  have h10 : st.stage = EVASION := by rw [hst]; rfl
  unfold next_move
  rw [if_neg h0, if_neg h1, if_neg h2, if_neg h3, if_neg h4, if_neg h5,
    if_neg h6, if_neg h7, if_neg h8, if_neg h9, if_pos h10]
  rfl

theorem selectAux_true_emit (s : Picker) (f : Nat) (hir : s.inRefs = false)
    (hc : s.cur < s.endMoves)
    (hne : ((swapMax s).buf.getD s.cur default).move ≠ s.ttMove) :
    selectAux true trueFilter (f + 1) s
      = (((swapMax s).buf.getD s.cur default).move,
         { swapMax s with cur := s.cur + 1 }) := by
  rw [selectAux, if_pos hc]
  have hsw : (if (true : Bool) = true then swapMax s else s) = swapMax s :=
    if_pos rfl
  rw [hsw]
  have hgc : getCur (swapMax s) = (swapMax s).buf.getD s.cur default := by
    unfold getCur
    have hirn : ¬ ((swapMax s).inRefs = true) := by
      rw [show (swapMax s).inRefs = s.inRefs from rfl, hir]
      exact Bool.false_ne_true
    rw [if_neg hirn]
    rfl
  have hne' : (getCur (swapMax s)).move ≠ (swapMax s).ttMove := by
    rw [hgc, show (swapMax s).ttMove = s.ttMove from rfl]
    exact hne
  rw [if_pos hne']
  simp only [trueFilter]
  rw [hgc]
  rfl

theorem selectAux_true_skip (s : Picker) (f : Nat) (hir : s.inRefs = false)
    (hc : s.cur < s.endMoves)
    (hne : ¬ ((swapMax s).buf.getD s.cur default).move ≠ s.ttMove) :
    selectAux true trueFilter (f + 1) s
      = selectAux true trueFilter f { swapMax s with cur := s.cur + 1 } := by
  rw [selectAux, if_pos hc]
  have hsw : (if (true : Bool) = true then swapMax s else s) = swapMax s :=
    if_pos rfl
  rw [hsw]
  have hgc : getCur (swapMax s) = (swapMax s).buf.getD s.cur default := by
    unfold getCur
    have hirn : ¬ ((swapMax s).inRefs = true) := by
      rw [show (swapMax s).inRefs = s.inRefs from rfl, hir]
      exact Bool.false_ne_true
    rw [if_neg hirn]
    rfl
  have hne' : ¬ (getCur (swapMax s)).move ≠ (swapMax s).ttMove := by
    rw [hgc, show (swapMax s).ttMove = s.ttMove from rfl]
    exact hne
  rw [if_neg hne']
  rfl

theorem stateAfter_shift (sm skip : Bool) (s : Picker) (n : Nat) :
    stateAfter sm skip s (n + 1)
      = stateAfter sm skip (next_move sm skip s).2 n := by
  induction n with
  | zero => rfl
  | succ k ih =>
      show (next_move sm skip (stateAfter sm skip s (k + 1))).2 = _
      rw [ih]
      rfl

theorem emitAt_shift (sm skip : Bool) (s : Picker) (k : Nat) :
    emitAt sm skip s (k + 1) = emitAt sm skip (next_move sm skip s).2 k := by
  unfold emitAt
  rw [stateAfter_shift]

theorem evasion_exhaust (sm skip : Bool) (s : Picker) (hst : s.stage = 9)
    (hcge : ¬ s.cur < s.endMoves) :
    next_move sm skip s = (Move.none, s) := by
  rw [next_move_stage_eq sm skip s hst]
  unfold select
  rw [show s.endMoves - s.cur = 0 from by omega]
  rfl

/-- An EVASION-stage scan state: the buffer holds the generated evasions,
each scored by score<EVASIONS>, with no null moves.  The TT move is
unconstrained: in the normal path (entry through EVASION_TT) it is still
non-empty here, and select's pre-filter test skips every buffer entry
equal to it, which changes which moves are emitted but not the ordering
facts proved below. -/
def EV (s : Picker) : Prop :=
  s.stage = 9 ∧ s.inRefs = false
  ∧ s.endMoves ≤ s.buf.length
  ∧ (∀ e ∈ s.buf, e.value = scoreEvasion s.pos s.hists e.move
      ∧ e.move ≠ Move.none)

/-- One call of select<Best> with the always-true filter on a scored
evasion buffer: position, histories, TT move, stage, endMoves and buffer
length are preserved and the new buffer is a rearrangement of the old;
a Move.none result means the scan range is exhausted; a real result is
bounded by any bound on the scanned range (entries equal to the TT move
are skipped, but each one skipped is a running maximum, so the bound
survives the skips) and dominates every entry left in the range. -/
theorem selectAux_ev : ∀ (fuel : Nat) (t : Picker),
    t.inRefs = false →
    t.endMoves ≤ t.buf.length →
    (∀ e ∈ t.buf, e.value = scoreEvasion t.pos t.hists e.move
      ∧ e.move ≠ Move.none) →
    t.endMoves - t.cur ≤ fuel →
    (selectAux true trueFilter fuel t).2.pos = t.pos
    ∧ (selectAux true trueFilter fuel t).2.hists = t.hists
    ∧ (selectAux true trueFilter fuel t).2.stage = t.stage
    ∧ (selectAux true trueFilter fuel t).2.endMoves = t.endMoves
    ∧ (selectAux true trueFilter fuel t).2.inRefs = t.inRefs
    ∧ (selectAux true trueFilter fuel t).2.buf.length = t.buf.length
    ∧ (∀ e ∈ (selectAux true trueFilter fuel t).2.buf, e ∈ t.buf)
    ∧ ((selectAux true trueFilter fuel t).1 = Move.none →
        (selectAux true trueFilter fuel t).2.endMoves
          ≤ (selectAux true trueFilter fuel t).2.cur)
    ∧ (∀ V : Int, (∀ k, t.cur ≤ k → k < t.endMoves →
          (t.buf.getD k default).value ≤ V) →
        (selectAux true trueFilter fuel t).1 ≠ Move.none →
        scoreEvasion t.pos t.hists (selectAux true trueFilter fuel t).1 ≤ V)
    ∧ ((selectAux true trueFilter fuel t).1 ≠ Move.none →
        ∀ k, (selectAux true trueFilter fuel t).2.cur ≤ k →
          k < (selectAux true trueFilter fuel t).2.endMoves →
          ((selectAux true trueFilter fuel t).2.buf.getD k default).value
            ≤ scoreEvasion t.pos t.hists (selectAux true trueFilter fuel t).1) := by
  intro fuel
  induction fuel with
  | zero =>
      intro t hir hem hbuf hfuel
      refine ⟨rfl, rfl, rfl, rfl, rfl, rfl, fun e he => he, ?_, ?_, ?_⟩
      · intro _
        show t.endMoves ≤ t.cur
        omega
      · intro V hb hne
        exact absurd rfl hne
      · intro hne
        exact absurd rfl hne
  | succ f ih =>
      intro t hir hem hbuf hfuel
      by_cases hc : t.cur < t.endMoves
      · have hclen : t.cur < t.buf.length := by omega
        have hMmem : (swapMax t).buf.getD t.cur default ∈ t.buf := by
          refine swapMax_mem t _ hc hem ?_
          refine getD_mem _ _ _ ?_
          rw [swapMax_len]
          omega
        have hMscore := (hbuf _ hMmem).1
        have hMnone := (hbuf _ hMmem).2
        have hMmax := swapMax_buf_max t hc hem
        have hMpos : ∃ jx, t.cur ≤ jx ∧ jx < t.endMoves ∧
            (swapMax t).buf.getD t.cur default = t.buf.getD jx default := by
          obtain ⟨_, _, C⟩ := maxFrom_spec t.buf (t.endMoves - (t.cur + 1))
            t.cur (t.cur + 1)
          refine ⟨maxFrom t.buf (t.endMoves - (t.cur + 1)) t.cur (t.cur + 1),
            ?_, ?_, swapMax_buf_cur t hclen⟩
          · rcases C with hC | hC <;> omega
          · rcases C with hC | hC <;> omega
        by_cases hne : ((swapMax t).buf.getD t.cur default).move ≠ t.ttMove
        · have heq := selectAux_true_emit t f hir hc hne
          rw [heq]
          refine ⟨rfl, rfl, rfl, rfl, rfl, ?_, ?_, ?_, ?_, ?_⟩
          · exact swapMax_len t
          · intro e he
            exact swapMax_mem t e hc hem he
          · intro h
            exact absurd h hMnone
          · intro V hb _
            show scoreEvasion t.pos t.hists
              ((swapMax t).buf.getD t.cur default).move ≤ V
            rw [← hMscore]
            obtain ⟨jx, hj1, hj2, hj3⟩ := hMpos
            rw [hj3]
            exact hb jx hj1 hj2
          · intro _ k h1 h2
            have h1' : t.cur + 1 ≤ k := h1
            have h2' : k < t.endMoves := h2
            show ((swapMax t).buf.getD k default).value
              ≤ scoreEvasion t.pos t.hists
                ((swapMax t).buf.getD t.cur default).move
            rw [← hMscore]
            exact hMmax k h1' h2'
        · have heq := selectAux_true_skip t f hir hc hne
          rw [heq]
          have hir' : ({ swapMax t with cur := t.cur + 1 } : Picker).inRefs
              = false := hir
          have hem' : ({ swapMax t with cur := t.cur + 1 } : Picker).endMoves
              ≤ ({ swapMax t with cur := t.cur + 1 } : Picker).buf.length := by
            show t.endMoves ≤ (swapMax t).buf.length
            rw [swapMax_len]
            exact hem
          have hbuf' : ∀ e ∈ ({ swapMax t with cur := t.cur + 1 } : Picker).buf,
              e.value = scoreEvasion
                ({ swapMax t with cur := t.cur + 1 } : Picker).pos
                ({ swapMax t with cur := t.cur + 1 } : Picker).hists e.move
              ∧ e.move ≠ Move.none := by
            intro e he
            exact hbuf e (swapMax_mem t e hc hem he)
          have hfuel' : ({ swapMax t with cur := t.cur + 1 } : Picker).endMoves
              - ({ swapMax t with cur := t.cur + 1 } : Picker).cur ≤ f := by
            show t.endMoves - (t.cur + 1) ≤ f
            omega
          obtain ⟨p1, p2, p3, p4, p5, p6, p7, p8, p9, p10⟩ :=
            ih { swapMax t with cur := t.cur + 1 } hir' hem' hbuf' hfuel'
          refine ⟨p1, p2, p3, p4, p5, ?_, ?_, p8, ?_, ?_⟩
          · exact p6.trans (swapMax_len t)
          · intro e he
            exact swapMax_mem t e hc hem (p7 e he)
          · intro V hb hne2
            have hMV : ((swapMax t).buf.getD t.cur default).value ≤ V := by
              obtain ⟨jx, hj1, hj2, hj3⟩ := hMpos
              rw [hj3]
              exact hb jx hj1 hj2
            refine p9 V ?_ hne2
            intro k h1 h2
            have h1' : t.cur + 1 ≤ k := h1
            have h2' : k < t.endMoves := h2
            exact le_trans (hMmax k h1' h2') hMV
          · intro hne2 k h1 h2
            exact p10 hne2 k h1 h2
      · have heq : selectAux true trueFilter (f + 1) t = (Move.none, t) := by
          rw [selectAux, if_neg hc]
        rw [heq]
        refine ⟨rfl, rfl, rfl, rfl, rfl, rfl, fun e he => he, ?_, ?_, ?_⟩
        · intro _
          exact Nat.le_of_not_lt hc
        · intro V hb hne
          exact absurd rfl hne
        · intro hne
          exact absurd rfl hne

/-- One next_move call at an EVASION scan state: the invariant is
preserved, position and histories are untouched, a Move.none result means
the state is exhausted, a real result respects any bound on the scanned
range and dominates every entry still in range. -/
theorem ev_call_spec (sm skip : Bool) (s : Picker) (hEV : EV s) :
    EV (next_move sm skip s).2
    ∧ (next_move sm skip s).2.pos = s.pos
    ∧ (next_move sm skip s).2.hists = s.hists
    ∧ (next_move sm skip s).2.stage = s.stage
    ∧ ((next_move sm skip s).1 = Move.none →
        (next_move sm skip s).2.endMoves ≤ (next_move sm skip s).2.cur)
    ∧ (∀ V : Int, (∀ k, s.cur ≤ k → k < s.endMoves →
          (s.buf.getD k default).value ≤ V) →
        (next_move sm skip s).1 ≠ Move.none →
        scoreEvasion s.pos s.hists (next_move sm skip s).1 ≤ V)
    ∧ ((next_move sm skip s).1 ≠ Move.none →
        ∀ k, (next_move sm skip s).2.cur ≤ k →
          k < (next_move sm skip s).2.endMoves →
          ((next_move sm skip s).2.buf.getD k default).value
            ≤ scoreEvasion s.pos s.hists (next_move sm skip s).1) := by
  obtain ⟨hst, hir, hem, hbuf⟩ := hEV
  have hnm : next_move sm skip s
      = selectAux true trueFilter (s.endMoves - s.cur) s := by
    rw [next_move_stage_eq sm skip s hst]
    rfl
  obtain ⟨p1, p2, p3, p4, p5, p6, p7, p8, p9, p10⟩ :=
    selectAux_ev (s.endMoves - s.cur) s hir hem hbuf (le_refl _)
  rw [hnm]
  refine ⟨⟨?_, ?_, ?_, ?_⟩, p1, p2, p3, p8, p9, p10⟩
  · rw [p3]
    exact hst
  · rw [p5]
    exact hir
  · rw [p4, p6]
    exact hem
  · intro e he
    rw [p1, p2]
    exact hbuf e (p7 e he)

theorem evasion_first_bound (sm skip : Bool) (s : Picker) (hEV : EV s)
    (V : Int)
    (hb : ∀ k, s.cur ≤ k → k < s.endMoves →
      (s.buf.getD k default).value ≤ V)
    (hne0 : emitAt sm skip s 0 ≠ Move.none) :
    scoreEvasion s.pos s.hists (emitAt sm skip s 0) ≤ V := by
  obtain ⟨_, _, _, _, _, hA, _⟩ := ev_call_spec sm skip s hEV
  have hne' : (next_move sm skip s).1 ≠ Move.none := hne0
  exact hA V hb hne'

theorem evasion_none_forever (sm skip : Bool) (s : Picker)
    (hst : s.stage = 9) (hcge : ¬ s.cur < s.endMoves) :
    ∀ n, stateAfter sm skip s n = s ∧ emitAt sm skip s n = Move.none := by
  intro n
  induction n with
  | zero =>
      refine ⟨rfl, ?_⟩
      show (next_move sm skip (stateAfter sm skip s 0)).1 = _
      show (next_move sm skip s).1 = _
      rw [evasion_exhaust sm skip s hst hcge]
  | succ k ih =>
      have hs : stateAfter sm skip s (k + 1) = s := by
        show (next_move sm skip (stateAfter sm skip s k)).2 = s
        rw [ih.1, evasion_exhaust sm skip s hst hcge]
      refine ⟨hs, ?_⟩
      show (next_move sm skip (stateAfter sm skip s (k + 1))).1 = _
      rw [hs, evasion_exhaust sm skip s hst hcge]

theorem evasion_desc (sm skip : Bool) : ∀ (j : Nat) (s : Picker), EV s →
    emitAt sm skip s j ≠ Move.none →
    ∀ i, i ≤ j →
      emitAt sm skip s i ≠ Move.none
      ∧ scoreEvasion s.pos s.hists (emitAt sm skip s j)
          ≤ scoreEvasion s.pos s.hists (emitAt sm skip s i) := by
  intro j
  induction j with
  | zero =>
      intro s hEV hne i hij
      have hi0 : i = 0 := by omega
      subst hi0
      exact ⟨hne, le_refl _⟩
  | succ j ih =>
      intro s hEV hne i hij
      obtain ⟨hEV', hpos, hhists, hstg, hnone9, hA, hB⟩ :=
        ev_call_spec sm skip s hEV
      by_cases hr1 : (next_move sm skip s).1 = Move.none
      · exfalso
        apply hne
        rw [emitAt_shift sm skip s j]
        have hst9 : (next_move sm skip s).2.stage = 9 := by
          rw [hstg]
          exact hEV.1
        have hexh : ¬ (next_move sm skip s).2.cur
            < (next_move sm skip s).2.endMoves := by
          have h := hnone9 hr1
          omega
        exact (evasion_none_forever sm skip _ hst9 hexh j).2
      · have hne' : emitAt sm skip (next_move sm skip s).2 j ≠ Move.none := by
          rw [← emitAt_shift sm skip s j]
          exact hne
        cases i with
        | zero =>
            have hih := ih (next_move sm skip s).2 hEV' hne' 0 (Nat.zero_le _)
            refine ⟨hr1, ?_⟩
            have hfb : scoreEvasion (next_move sm skip s).2.pos
                (next_move sm skip s).2.hists
                (emitAt sm skip (next_move sm skip s).2 0)
                ≤ scoreEvasion s.pos s.hists (next_move sm skip s).1 := by
              refine evasion_first_bound sm skip _ hEV' _ ?_ hih.1
              intro k h1 h2
              exact hB hr1 k h1 h2
            rw [emitAt_shift sm skip s j]
            have step1 : scoreEvasion s.pos s.hists
                (emitAt sm skip (next_move sm skip s).2 j)
                ≤ scoreEvasion (next_move sm skip s).2.pos
                  (next_move sm skip s).2.hists
                  (emitAt sm skip (next_move sm skip s).2 0) := by
              rw [← hpos, ← hhists]
              exact hih.2
            exact le_trans step1 hfb
        | succ i' =>
            have hih := ih (next_move sm skip s).2 hEV' hne' i' (by omega)
            refine ⟨?_, ?_⟩
            · rw [emitAt_shift sm skip s i']
              exact hih.1
            · rw [emitAt_shift sm skip s i', emitAt_shift sm skip s j,
                ← hpos, ← hhists]
              exact hih.2

theorem scoreEvasion_sep (pos : Position) (h : Hists) (m1 m2 : Move)
    (hc1 : pos.captureStage m1 = true) (hc2 : pos.captureStage m2 = false)
    (hmh : ∀ a b, -32768 ≤ h.mainHistory a b ∧ h.mainHistory a b ≤ 32767)
    (hch : ∀ a b c, -32768 ≤ h.contHist a b c ∧ h.contHist a b c ≤ 32767)
    (hpv : ∀ p, 0 ≤ pos.pieceValueMG p) :
    scoreEvasion pos h m2 < scoreEvasion pos h m1 := by
  unfold scoreEvasion
  rw [if_pos hc1]
  rw [if_neg (show ¬ pos.captureStage m2 = true by
    rw [hc2]; exact Bool.false_ne_true)]
  have h1 := hmh pos.sideToMove m2.fromTo
  have h2 := hch 0 (pos.movedPiece m2) m2.toSq
  have h3 := hpv (pos.pieceOn m1.toSq)
  have h4 : typeOfPiece (pos.movedPiece m1) < 8 :=
    Nat.mod_lt _ (by omega)
  omega

/-- C6: in the EVASION stage (repeated max-scan over the evasion buffer
scored by score<EVASIONS>, with 16-bit-signed history entries, where
select skips every buffer entry equal to the picker's TT move — in
particular the non-empty TT move still held after entry through
EVASION_TT), every capture evasion scores strictly above every
non-capture evasion, so among the emitted moves all capture evasions come
before all non-capture evasions, and among captures the emission order
weakly descends in victim midgame value minus mover piece-type ordinal
(MVV-LVA). -/
theorem evasion_ordering (sm skip : Bool) (s : Picker)
    (hst : s.stage = EVASION) (hir : s.inRefs = false)
    (hem : s.endMoves ≤ s.buf.length)
    (hbuf : ∀ e ∈ s.buf, e.value = scoreEvasion s.pos s.hists e.move
      ∧ e.move ≠ Move.none)
    (hmh : ∀ a b, -32768 ≤ s.hists.mainHistory a b
      ∧ s.hists.mainHistory a b ≤ 32767)
    (hch : ∀ a b c, -32768 ≤ s.hists.contHist a b c
      ∧ s.hists.contHist a b c ≤ 32767)
    (hpv : ∀ p, 0 ≤ s.pos.pieceValueMG p) :
    ∀ i j, i < j → emitAt sm skip s j ≠ Move.none →
      (s.pos.captureStage (emitAt sm skip s j) = true
        → s.pos.captureStage (emitAt sm skip s i) = true)
      ∧ (s.pos.captureStage (emitAt sm skip s i) = true
        → s.pos.captureStage (emitAt sm skip s j) = true
        → s.pos.pieceValueMG (s.pos.pieceOn (emitAt sm skip s j).toSq)
            - (typeOfPiece (s.pos.movedPiece (emitAt sm skip s j)) : Int)
          ≤ s.pos.pieceValueMG (s.pos.pieceOn (emitAt sm skip s i).toSq)
            - (typeOfPiece (s.pos.movedPiece (emitAt sm skip s i)) : Int)) := by
  intro i j hij hnej
  have hEVs : EV s := ⟨hst, hir, hem, hbuf⟩
  obtain ⟨hnei, hdesc⟩ := evasion_desc sm skip j s hEVs hnej i (by omega)
  constructor
  · intro hcj
    by_contra hci
    have hci2 : s.pos.captureStage (emitAt sm skip s i) = false := by
      revert hci
      cases s.pos.captureStage (emitAt sm skip s i) <;> simp
    have hsep := scoreEvasion_sep s.pos s.hists _ _ hcj hci2 hmh hch hpv
    omega
  · intro hci hcj
    have e1 : scoreEvasion s.pos s.hists (emitAt sm skip s j)
        = s.pos.pieceValueMG (s.pos.pieceOn (emitAt sm skip s j).toSq)
          - (typeOfPiece (s.pos.movedPiece (emitAt sm skip s j)) : Int)
          + 268435456 := by
      unfold scoreEvasion
      rw [if_pos hcj]
    have e2 : scoreEvasion s.pos s.hists (emitAt sm skip s i)
        = s.pos.pieceValueMG (s.pos.pieceOn (emitAt sm skip s i).toSq)
          - (typeOfPiece (s.pos.movedPiece (emitAt sm skip s i)) : Int)
          + 268435456 := by
      unfold scoreEvasion
      rw [if_pos hci]
    rw [e1, e2] at hdesc
    omega

/-- Position used by the C6 witness: moves to square 9 are captures. -/
def c6Pos : Position :=
  { captureStage := fun m => decide (m.toSq = 9) }

/-- EVASION-stage picker used by the C6 witness: a non-capture evasion
followed by three capture evasions, all scored by score<EVASIONS>; the
picker still carries a non-empty TT move that sits in the buffer (the
EVASION_TT path), so the first call skips it before emitting. -/
def c6Picker : Picker :=
  { pos := c6Pos, stage := 9,
    ttMove := Move.mkNormal 1 9,
    buf := [⟨Move.mkNormal 2 10, scoreEvasion c6Pos {} (Move.mkNormal 2 10)⟩,
            ⟨Move.mkNormal 1 9, scoreEvasion c6Pos {} (Move.mkNormal 1 9)⟩,
            ⟨Move.mkNormal 3 9, scoreEvasion c6Pos {} (Move.mkNormal 3 9)⟩,
            ⟨Move.mkNormal 4 9, scoreEvasion c6Pos {} (Move.mkNormal 4 9)⟩],
    endMoves := 4 }

theorem evasion_ordering_witness :
    (0 : Nat) < 1
    ∧ emitAt false false c6Picker 1 ≠ Move.none
    ∧ ((c6Picker.pos.captureStage (emitAt false false c6Picker 1) = true
        → c6Picker.pos.captureStage (emitAt false false c6Picker 0) = true)
      ∧ (c6Picker.pos.captureStage (emitAt false false c6Picker 0) = true
        → c6Picker.pos.captureStage (emitAt false false c6Picker 1) = true
        → c6Picker.pos.pieceValueMG
            (c6Picker.pos.pieceOn (emitAt false false c6Picker 1).toSq)
            - (typeOfPiece
                (c6Picker.pos.movedPiece
                  (emitAt false false c6Picker 1)) : Int)
          ≤ c6Picker.pos.pieceValueMG
            (c6Picker.pos.pieceOn (emitAt false false c6Picker 0).toSq)
            - (typeOfPiece
                (c6Picker.pos.movedPiece
                  (emitAt false false c6Picker 0)) : Int))) :=
  ⟨by decide, by decide,
   evasion_ordering false false c6Picker rfl rfl (by decide) (by decide)
    (fun a b => ⟨show (-32768 : Int) ≤ 0 from by decide,
      show (0 : Int) ≤ 32767 from by decide⟩)
    (fun a b c => ⟨show (-32768 : Int) ≤ 0 from by decide,
      show (0 : Int) ≤ 32767 from by decide⟩)
    (fun p => show (0 : Int) ≤ 0 from by decide)
    0 1 (by decide) (by decide)⟩

/-! ### C4: bad-capture deferral -/

theorem getD_drop (l : List ExtMove) (c k : Nat) (d : ExtMove) :
    (l.drop c).getD k d = l.getD (c + k) d := by
  induction l generalizing c with
  | nil => simp [List.drop]
  | cons a t ih =>
      cases c with
      | zero => rw [Nat.zero_add]; rfl
      | succ c' =>
          show (t.drop c').getD k d = (a :: t).getD (c' + 1 + k) d
          rw [show c' + 1 + k = (c' + k) + 1 from by omega]
          exact ih c'

theorem getD_take (l : List ExtMove) : ∀ (n k : Nat) (d : ExtMove),
    k < n → (l.take n).getD k d = l.getD k d := by
  induction l with
  | nil => intro n k d hk; simp
  | cons a t ih =>
      intro n k d hk
      cases n with
      | zero => omega
      | succ m =>
          cases k with
          | zero => rfl
          | succ q =>
              show (t.take m).getD q d = t.getD q d
              exact ih m q d (by omega)

theorem drop_take_succ (l : List ExtMove) : ∀ (c m : Nat),
    c < l.length →
    (l.drop c).take (m + 1)
      = l.getD c default :: (l.drop (c + 1)).take m := by
  induction l with
  | nil => intro c m h; simp at h
  | cons a t ih =>
      intro c m h
      cases c with
      | zero => rfl
      | succ q =>
          show (t.drop q).take (m + 1)
            = t.getD q default :: (t.drop (q + 1)).take m
          exact ih q m (by simp only [List.length_cons] at h; omega)

theorem take_set_succ (l : List ExtMove) : ∀ (i : Nat) (v : ExtMove),
    i < l.length → (l.set i v).take (i + 1) = l.take i ++ [v] := by
  induction l with
  | nil => intro i v h; simp at h
  | cons a t ih =>
      intro i v h
      cases i with
      | zero => rfl
      | succ q =>
          show a :: (t.set q v).take (q + 1) = a :: t.take q ++ [v]
          rw [ih q v (by simp only [List.length_cons] at h; omega)]
          rfl

theorem take_set_ge (l : List ExtMove) : ∀ (i j : Nat) (v : ExtMove),
    j ≤ i → (l.set i v).take j = l.take j := by
  induction l with
  | nil => intro i j v h; simp [List.set]
  | cons a t ih =>
      intro i j v h
      cases i with
      | zero =>
          have hj : j = 0 := by omega
          subst hj
          rfl
      | succ q =>
          cases j with
          | zero => rfl
          | succ p =>
              show a :: (t.set q v).take p = a :: t.take p
              rw [ih q p v (by omega)]

theorem pis_perm_aux (l : List ExtMove) (limit : Int) :
    (partial_insertion_sort l limit).Perm l := by
  cases l with
  | nil => rw [partial_insertion_sort_nil]
  | cons a rest =>
      rw [partial_insertion_sort_eq]
      refine (loopSpec_perm limit rest [a] []).trans ?_
      simp

/-- The GOOD_CAPTURE failure predicate of movepick.cpp line 315: the entry
is not the TT move and fails see_ge against -69 * value / 1024. -/
def gcFailP (pos : Position) (tt : Move) (e : ExtMove) : Bool :=
  decide (e.move ≠ tt)
    && ! pos.seeGe e.move (Int.tdiv (-69 * e.value) 1024)

/-- The SEE failures (in scan order) among a capture list. -/
def gcFail (pos : Position) (tt : Move) (l : List ExtMove) : List ExtMove :=
  l.filter (gcFailP pos tt)

theorem gcFail_nil (pos : Position) (tt : Move) : gcFail pos tt [] = [] := rfl

theorem gcFail_cons_fail (pos : Position) (tt : Move) (e : ExtMove)
    (l : List ExtMove) (h : gcFailP pos tt e = true) :
    gcFail pos tt (e :: l) = e :: gcFail pos tt l := by
  unfold gcFail
  rw [List.filter_cons, if_pos h]

theorem gcFail_cons_pass (pos : Position) (tt : Move) (e : ExtMove)
    (l : List ExtMove) (h : ¬ gcFailP pos tt e = true) :
    gcFail pos tt (e :: l) = gcFail pos tt l := by
  unfold gcFail
  rw [List.filter_cons, if_neg h]

/-- All remaining emissions of the picker are: after N further calls, the
entries of F in order, each call leaving the picker in BAD_CAPTURE; then
only Move::none(); and no call among the first N ends in BAD_CAPTURE. -/
def BadFuture (sm skip : Bool) (s : Picker) (F : List ExtMove) : Prop :=
  ∃ N : Nat,
    (∀ k, k < F.length →
      emitAt sm skip s (N + k) = (F.getD k default).move
      ∧ (stateAfter sm skip s (N + k + 1)).stage = BAD_CAPTURE)
    ∧ (∀ i, N + F.length ≤ i → emitAt sm skip s i = Move.none)
    ∧ (∀ i, i < N → (stateAfter sm skip s (i + 1)).stage ≠ BAD_CAPTURE)

theorem BadFuture_step (sm skip : Bool) (s : Picker) (F : List ExtMove)
    (hstage : (next_move sm skip s).2.stage ≠ BAD_CAPTURE)
    (h : BadFuture sm skip (next_move sm skip s).2 F) :
    BadFuture sm skip s F := by
  obtain ⟨N, h1, h2, h3⟩ := h
  refine ⟨N + 1, ?_, ?_, ?_⟩
  · intro k hk
    constructor
    · rw [show N + 1 + k = (N + k) + 1 from by omega, emitAt_shift]
      exact (h1 k hk).1
    · rw [show N + 1 + k + 1 = (N + k + 1) + 1 from by omega,
        stateAfter_shift]
      exact (h1 k hk).2
  · intro i hi
    obtain ⟨q, rfl⟩ : ∃ q, i = q + 1 := ⟨i - 1, by omega⟩
    rw [emitAt_shift]
    exact h2 q (by omega)
  · intro i hi
    cases i with
    | zero =>
        show (stateAfter sm skip s 1).stage ≠ _
        exact hstage
    | succ q =>
        rw [stateAfter_shift]
        exact h3 q (by omega)

theorem BadFuture_transfer (sm skip : Bool) (s1 s2 : Picker)
    (heq : next_move sm skip s1 = next_move sm skip s2)
    (h : BadFuture sm skip s2 F) : BadFuture sm skip s1 F := by
  have hems : ∀ m, emitAt sm skip s1 m = emitAt sm skip s2 m := by
    intro m
    cases m with
    | zero =>
        show (next_move sm skip s1).1 = (next_move sm skip s2).1
        rw [heq]
    | succ q =>
        rw [emitAt_shift, emitAt_shift, heq]
  have hsts : ∀ m, stateAfter sm skip s1 (m + 1)
      = stateAfter sm skip s2 (m + 1) := by
    intro m
    rw [stateAfter_shift, stateAfter_shift, heq]
  obtain ⟨N, h1, h2, h3⟩ := h
  refine ⟨N, ?_, ?_, ?_⟩
  · intro k hk
    rw [hems, hsts]
    exact h1 k hk
  · intro i hi
    rw [hems]
    exact h2 i hi
  · intro i hi
    rw [hsts]
    exact h3 i hi

theorem none_forever (sm skip : Bool) (s : Picker)
    (hexh : next_move sm skip s = (Move.none, s)) :
    ∀ n, stateAfter sm skip s n = s ∧ emitAt sm skip s n = Move.none := by
  intro n
  induction n with
  | zero =>
      refine ⟨rfl, ?_⟩
      show (next_move sm skip (stateAfter sm skip s 0)).1 = _
      show (next_move sm skip s).1 = _
      rw [hexh]
  | succ k ih =>
      have hs : stateAfter sm skip s (k + 1) = s := by
        show (next_move sm skip (stateAfter sm skip s k)).2 = s
        rw [ih.1, hexh]
      refine ⟨hs, ?_⟩
      show (next_move sm skip (stateAfter sm skip s (k + 1))).1 = _
      rw [hs, hexh]

theorem next_move_stage2_eq (sm skip : Bool) (st : Picker)
    (hst : st.stage = 2) :
    next_move sm skip st = goodCaptureStep sm skip st := by
  have h0 : ¬(st.stage = MAIN_TT ∨ st.stage = EVASION_TT
      ∨ st.stage = QSEARCH_TT ∨ st.stage = PROBCUT_TT) := by rw [hst]; decide
  have h1 : ¬ st.stage = CAPTURE_INIT := by rw [hst]; decide
  have h2 : ¬ st.stage = PROBCUT_INIT := by rw [hst]; decide
  have h3 : ¬ st.stage = QCAPTURE_INIT := by rw [hst]; decide
  have h4 : st.stage = GOOD_CAPTURE := by rw [hst]; rfl
  unfold next_move
  rw [if_neg h0, if_neg h1, if_neg h2, if_neg h3, if_pos h4]

theorem next_move_stage3_eq (sm skip : Bool) (st : Picker)
    (hst : st.stage = 3) :
    next_move sm skip st = refutationStep sm skip st := by
  have h0 : ¬(st.stage = MAIN_TT ∨ st.stage = EVASION_TT
      ∨ st.stage = QSEARCH_TT ∨ st.stage = PROBCUT_TT) := by rw [hst]; decide
  have h1 : ¬ st.stage = CAPTURE_INIT := by rw [hst]; decide
  have h2 : ¬ st.stage = PROBCUT_INIT := by rw [hst]; decide
  have h3 : ¬ st.stage = QCAPTURE_INIT := by rw [hst]; decide
  have h4 : ¬ st.stage = GOOD_CAPTURE := by rw [hst]; decide
  have h5 : st.stage = REFUTATION := by rw [hst]; rfl
  unfold next_move
  rw [if_neg h0, if_neg h1, if_neg h2, if_neg h3, if_neg h4, if_pos h5]

theorem next_move_stage4_eq (sm skip : Bool) (st : Picker)
    (hst : st.stage = 4) :
    next_move sm skip st = quietInitStep sm skip st := by
  have h0 : ¬(st.stage = MAIN_TT ∨ st.stage = EVASION_TT
      ∨ st.stage = QSEARCH_TT ∨ st.stage = PROBCUT_TT) := by rw [hst]; decide
  have h1 : ¬ st.stage = CAPTURE_INIT := by rw [hst]; decide
  have h2 : ¬ st.stage = PROBCUT_INIT := by rw [hst]; decide
  have h3 : ¬ st.stage = QCAPTURE_INIT := by rw [hst]; decide
  have h4 : ¬ st.stage = GOOD_CAPTURE := by rw [hst]; decide
  have h5 : ¬ st.stage = REFUTATION := by rw [hst]; decide
  have h6 : st.stage = QUIET_INIT := by rw [hst]; rfl
  unfold next_move
  rw [if_neg h0, if_neg h1, if_neg h2, if_neg h3, if_neg h4, if_neg h5,
    if_pos h6]

theorem next_move_stage5_eq (sm skip : Bool) (st : Picker)
    (hst : st.stage = 5) :
    next_move sm skip st = quietStep skip st := by
  have h0 : ¬(st.stage = MAIN_TT ∨ st.stage = EVASION_TT
      ∨ st.stage = QSEARCH_TT ∨ st.stage = PROBCUT_TT) := by rw [hst]; decide
  have h1 : ¬ st.stage = CAPTURE_INIT := by rw [hst]; decide
  have h2 : ¬ st.stage = PROBCUT_INIT := by rw [hst]; decide
  have h3 : ¬ st.stage = QCAPTURE_INIT := by rw [hst]; decide
  have h4 : ¬ st.stage = GOOD_CAPTURE := by rw [hst]; decide
  have h5 : ¬ st.stage = REFUTATION := by rw [hst]; decide
  have h6 : ¬ st.stage = QUIET_INIT := by rw [hst]; decide
  have h7 : st.stage = QUIET := by rw [hst]; rfl
  unfold next_move
  rw [if_neg h0, if_neg h1, if_neg h2, if_neg h3, if_neg h4, if_neg h5,
    if_neg h6, if_pos h7]

theorem next_move_stage6_eq (sm skip : Bool) (st : Picker)
    (hst : st.stage = 6) :
    next_move sm skip st = badCaptureStep st := by
  have h0 : ¬(st.stage = MAIN_TT ∨ st.stage = EVASION_TT
      ∨ st.stage = QSEARCH_TT ∨ st.stage = PROBCUT_TT) := by rw [hst]; decide
  have h1 : ¬ st.stage = CAPTURE_INIT := by rw [hst]; decide
  have h2 : ¬ st.stage = PROBCUT_INIT := by rw [hst]; decide
  have h3 : ¬ st.stage = QCAPTURE_INIT := by rw [hst]; decide
  have h4 : ¬ st.stage = GOOD_CAPTURE := by rw [hst]; decide
  have h5 : ¬ st.stage = REFUTATION := by rw [hst]; decide
  have h6 : ¬ st.stage = QUIET_INIT := by rw [hst]; decide
  have h7 : ¬ st.stage = QUIET := by rw [hst]; decide
  have h8 : st.stage = BAD_CAPTURE := by rw [hst]; rfl
  unfold next_move
  rw [if_neg h0, if_neg h1, if_neg h2, if_neg h3, if_neg h4, if_neg h5,
    if_neg h6, if_neg h7, if_pos h8]

theorem next_move_stage1_eq (sm skip : Bool) (st : Picker)
    (hst : st.stage = 1) :
    next_move sm skip st = goodCaptureStep sm skip (captureInit sm st) := by
  have h0 : ¬(st.stage = MAIN_TT ∨ st.stage = EVASION_TT
      ∨ st.stage = QSEARCH_TT ∨ st.stage = PROBCUT_TT) := by rw [hst]; decide
  have h1 : st.stage = CAPTURE_INIT := by rw [hst]; rfl
  unfold next_move
  rw [if_neg h0, if_pos h1]

theorem select_exhaust (best : Bool) (filt : Picker → Bool × Picker)
    (s : Picker) (h : ¬ s.cur < s.endMoves) :
    select best filt s = (Move.none, s) := by
  unfold select
  rw [show s.endMoves - s.cur = 0 from by omega]
  rfl

theorem select_false_true_emit (s : Picker) (hir : s.inRefs = false)
    (hc : s.cur < s.endMoves)
    (hne : (s.buf.getD s.cur default).move ≠ s.ttMove) :
    select false trueFilter s
      = ((s.buf.getD s.cur default).move, { s with cur := s.cur + 1 }) := by
  unfold select
  obtain ⟨f, hf⟩ : ∃ f, s.endMoves - s.cur = f + 1 :=
    ⟨s.endMoves - s.cur - 1, by omega⟩
  rw [hf, selectAux, if_pos hc]
  have hsw : (if (false : Bool) = true then swapMax s else s) = s := by
    rw [if_neg]
    exact Bool.false_ne_true
  rw [hsw]
  have hgc : getCur s = s.buf.getD s.cur default := by
    unfold getCur
    rw [if_neg (by rw [hir]; exact Bool.false_ne_true)]
  have hne' : (getCur s).move ≠ s.ttMove := by
    rw [hgc]
    exact hne
  rw [if_pos hne']
  simp only [trueFilter]
  rw [hgc]

/-- A BAD_CAPTURE-stage scan state: the cursor walks the banked
bad-capture prefix of the moves buffer. -/
def JBAD (t : Picker) : Prop :=
  t.stage = 6 ∧ t.inRefs = false ∧ t.cur ≤ t.endMoves
  ∧ t.endMoves = t.endBad ∧ t.endMoves ≤ t.buf.length
  ∧ (∀ k, t.cur ≤ k → k < t.endMoves →
      (t.buf.getD k default).move ≠ t.ttMove)

theorem bad_tail (sm skip : Bool) : ∀ (d : Nat) (t : Picker), JBAD t →
    t.endMoves - t.cur = d →
    (∀ k, k < d → emitAt sm skip t k
        = (t.buf.getD (t.cur + k) default).move
      ∧ (stateAfter sm skip t (k + 1)).stage = BAD_CAPTURE)
    ∧ (∀ i, d ≤ i → emitAt sm skip t i = Move.none) := by
  intro d
  induction d with
  | zero =>
      intro t hJ hd
      obtain ⟨hst, hir, hcm, hee, hel, hne⟩ := hJ
      have hexh : next_move sm skip t = (Move.none, t) := by
        rw [next_move_stage6_eq sm skip t hst]
        show select false trueFilter t = _
        exact select_exhaust false trueFilter t (by omega)
      exact ⟨fun k hk => absurd hk (by omega),
        fun i _ => (none_forever sm skip t hexh i).2⟩
  | succ d ih =>
      intro t hJ hd
      obtain ⟨hst, hir, hcm, hee, hel, hnet⟩ := hJ
      have hc : t.cur < t.endMoves := by omega
      have hcall : next_move sm skip t
          = ((t.buf.getD t.cur default).move,
            { t with cur := t.cur + 1 }) := by
        rw [next_move_stage6_eq sm skip t hst]
        show select false trueFilter t = _
        exact select_false_true_emit t hir hc (hnet t.cur (le_refl _) hc)
      have hJ2 : JBAD ({ t with cur := t.cur + 1 } : Picker) := by
        refine ⟨hst, hir, ?_, hee, hel, ?_⟩
        · show t.cur + 1 ≤ t.endMoves
          omega
        · intro k h1 h2
          have h1b : t.cur + 1 ≤ k := h1
          exact hnet k (by omega) h2
      obtain ⟨ih1, ih2⟩ := ih { t with cur := t.cur + 1 } hJ2
        (by show t.endMoves - (t.cur + 1) = d; omega)
      constructor
      · intro k hk
        cases k with
        | zero =>
            constructor
            · show (next_move sm skip (stateAfter sm skip t 0)).1 = _
              show (next_move sm skip t).1 = _
              rw [hcall]
              rfl
            · show (next_move sm skip (stateAfter sm skip t 0)).2.stage = _
              show (next_move sm skip t).2.stage = _
              rw [hcall]
              exact hst
        | succ q =>
            obtain ⟨e1, e2⟩ := ih1 q (by omega)
            constructor
            · rw [emitAt_shift, hcall,
                show t.cur + (q + 1) = t.cur + 1 + q from by omega]
              exact e1
            · rw [show q + 1 + 1 = (q + 1) + 1 from rfl, stateAfter_shift,
                hcall]
              exact e2
      · intro i hi
        cases i with
        | zero => omega
        | succ q =>
            rw [emitAt_shift, hcall]
            exact ih2 q (by omega)

theorem bad_phase (sm skip : Bool) (t : Picker) (hJ : JBAD t) :
    BadFuture sm skip t
      ((t.buf.drop t.cur).take (t.endMoves - t.cur)) := by
  obtain ⟨h1, h2⟩ := bad_tail sm skip (t.endMoves - t.cur) t hJ rfl
  obtain ⟨hst, hir, hcm, hee, hel, hne⟩ := hJ
  have hlen : ((t.buf.drop t.cur).take (t.endMoves - t.cur)).length
      = t.endMoves - t.cur := by
    rw [List.length_take, List.length_drop]
    omega
  refine ⟨0, ?_, ?_, ?_⟩
  · intro k hk
    rw [hlen] at hk
    obtain ⟨e1, e2⟩ := h1 k hk
    refine ⟨?_, ?_⟩
    · rw [Nat.zero_add, e1,
        getD_take (t.buf.drop t.cur) (t.endMoves - t.cur) k default hk,
        getD_drop]
    · rw [Nat.zero_add]
      exact e2
  · intro i hi
    rw [Nat.zero_add, hlen] at hi
    exact h2 i hi
  · intro i hi
    omega

theorem selectAux_false_emit (filt : Picker → Bool × Picker) (s : Picker)
    (f : Nat) (hir : s.inRefs = false) (hc : s.cur < s.endMoves)
    (hne : (s.buf.getD s.cur default).move ≠ s.ttMove)
    (hfilt : filt s = (true, s)) :
    selectAux false filt (f + 1) s
      = ((s.buf.getD s.cur default).move, { s with cur := s.cur + 1 }) := by
  rw [selectAux, if_pos hc]
  have hsw : (if (false : Bool) = true then swapMax s else s) = s := by
    rw [if_neg]
    exact Bool.false_ne_true
  rw [hsw]
  have hgc : getCur s = s.buf.getD s.cur default := by
    unfold getCur
    rw [if_neg (by rw [hir]; exact Bool.false_ne_true)]
  have hne' : (getCur s).move ≠ s.ttMove := by
    rw [hgc]
    exact hne
  rw [if_pos hne', hfilt]
  simp only
  rw [hgc]

theorem selectAux_false_skip (filt : Picker → Bool × Picker) (s : Picker)
    (f : Nat) (hir : s.inRefs = false) (hc : s.cur < s.endMoves)
    (hne : ¬ (s.buf.getD s.cur default).move ≠ s.ttMove) :
    selectAux false filt (f + 1) s
      = selectAux false filt f { s with cur := s.cur + 1 } := by
  rw [selectAux, if_pos hc]
  have hsw : (if (false : Bool) = true then swapMax s else s) = s := by
    rw [if_neg]
    exact Bool.false_ne_true
  rw [hsw]
  have hgc : getCur s = s.buf.getD s.cur default := by
    unfold getCur
    rw [if_neg (by rw [hir]; exact Bool.false_ne_true)]
  have hne' : ¬ (getCur s).move ≠ s.ttMove := by
    rw [hgc]
    exact hne
  rw [if_neg hne']

theorem selectAux_false_bank (filt : Picker → Bool × Picker) (s st2 : Picker)
    (f : Nat) (hir : s.inRefs = false) (hc : s.cur < s.endMoves)
    (hne : (s.buf.getD s.cur default).move ≠ s.ttMove)
    (hfilt : filt s = (false, st2)) :
    selectAux false filt (f + 1) s
      = selectAux false filt f { st2 with cur := st2.cur + 1 } := by
  rw [selectAux, if_pos hc]
  have hsw : (if (false : Bool) = true then swapMax s else s) = s := by
    rw [if_neg]
    exact Bool.false_ne_true
  rw [hsw]
  have hgc : getCur s = s.buf.getD s.cur default := by
    unfold getCur
    rw [if_neg (by rw [hir]; exact Bool.false_ne_true)]
  have hne' : (getCur s).move ≠ s.ttMove := by
    rw [hgc]
    exact hne
  rw [if_pos hne', hfilt]

theorem selectAux_pure_false_buf (filt : Picker → Bool × Picker)
    (hpure : ∀ x : Picker, (filt x).2 = x) (fuel : Nat) : ∀ s : Picker,
    (selectAux false filt fuel s).2.buf = s.buf
    ∧ (selectAux false filt fuel s).2.endBad = s.endBad := by
  induction fuel with
  | zero => intro s; exact ⟨rfl, rfl⟩
  | succ f ih =>
      intro s
      rw [selectAux]
      by_cases hc : s.cur < s.endMoves
      · rw [if_pos hc]
        have hsw : (if (false : Bool) = true then swapMax s else s) = s := by
          rw [if_neg]
          exact Bool.false_ne_true
        rw [hsw]
        by_cases hne : (getCur s).move ≠ s.ttMove
        · rw [if_pos hne]
          rcases hflt : filt s with ⟨ok, st2⟩
          have hst2 : st2 = s := by
            have := hpure s
            rw [hflt] at this
            exact this
          cases ok with
          | true =>
              simp only
              rw [hst2]
              exact ⟨rfl, rfl⟩
          | false =>
              simp only
              rw [hst2]
              exact ih { s with cur := s.cur + 1 }
        · rw [if_neg hne]
          exact ih { s with cur := s.cur + 1 }
      · rw [if_neg hc]
        exact ⟨rfl, rfl⟩

theorem selectAux_pure_progress (best : Bool)
    (filt : Picker → Bool × Picker) (hpure : ∀ x : Picker, (filt x).2 = x)
    (fuel : Nat) (s : Picker)
    (h : (selectAux best filt fuel s).1 ≠ Move.none) :
    s.cur < (selectAux best filt fuel s).2.cur := by
  cases fuel with
  | zero => exact absurd rfl h
  | succ f =>
      rw [selectAux] at h ⊢
      by_cases hc : s.cur < s.endMoves
      · rw [if_pos hc] at h ⊢
        have e1 : (if best then swapMax s else s).cur = s.cur := by
          by_cases hb : best = true <;> simp [hb, swapMax]
        have e2 : (if best then swapMax s else s).endMoves = s.endMoves := by
          by_cases hb : best = true <;> simp [hb, swapMax]
        by_cases hne : (getCur (if best then swapMax s else s)).move
            ≠ (if best then swapMax s else s).ttMove
        · rw [if_pos hne] at h ⊢
          rcases hflt : filt (if best then swapMax s else s) with ⟨ok, st2⟩
          have hst2 : st2 = (if best then swapMax s else s) := by
            have := hpure (if best then swapMax s else s)
            rw [hflt] at this
            exact this
          cases ok with
          | true =>
              simp only
              rw [hst2]
              show s.cur < (if best then swapMax s else s).cur + 1
              rw [e1]
              omega
          | false =>
              simp only
              rw [hst2]
              have hb := (selectAux_pure_bounds best filt hpure f
                { (if best then swapMax s else s) with
                  cur := (if best then swapMax s else s).cur + 1 }
                (by
                  show (if best then swapMax s else s).cur + 1
                    ≤ (if best then swapMax s else s).endMoves
                  rw [e1, e2]
                  omega)).2.1
              refine lt_of_lt_of_le ?_ hb
              show s.cur < (if best then swapMax s else s).cur + 1
              rw [e1]
              omega
        · rw [if_neg hne] at h ⊢
          have hb := (selectAux_pure_bounds best filt hpure f
            { (if best then swapMax s else s) with
              cur := (if best then swapMax s else s).cur + 1 }
            (by
              show (if best then swapMax s else s).cur + 1
                ≤ (if best then swapMax s else s).endMoves
              rw [e1, e2]
              omega)).2.1
          refine lt_of_lt_of_le ?_ hb
          show s.cur < (if best then swapMax s else s).cur + 1
          rw [e1]
          omega
      · rw [if_neg hc] at h
        exact absurd rfl h

theorem quietStep_skip_eq (q : Picker) :
    quietStep true q
      = badCaptureStep { q with
          cur := 0
          endMoves := q.endBad
          inRefs := false
          stage := q.stage + 1 } := by
  unfold quietStep
  rw [if_pos rfl]
  rw [if_neg (fun hcon => hcon rfl)]

theorem quietStep_noskip_emit (q : Picker)
    (h : (select false quietFilter q).1 ≠ Move.none) :
    quietStep false q = select false quietFilter q := by
  unfold quietStep
  rw [if_neg Bool.false_ne_true, if_pos h]

theorem quietStep_noskip_exhaust (q : Picker)
    (h : ¬ (select false quietFilter q).1 ≠ Move.none) :
    quietStep false q
      = badCaptureStep { (select false quietFilter q).2 with
          cur := 0
          endMoves := (select false quietFilter q).2.endBad
          inRefs := false
          stage := (select false quietFilter q).2.stage + 1 } := by
  unfold quietStep
  rw [if_neg Bool.false_ne_true, if_neg h]

theorem select_pure_false_buf (filt : Picker → Bool × Picker)
    (hpure : ∀ x : Picker, (filt x).2 = x) (s : Picker) :
    (select false filt s).2.buf = s.buf
    ∧ (select false filt s).2.endBad = s.endBad :=
  selectAux_pure_false_buf filt hpure (s.endMoves - s.cur) s

theorem select_pure_progress (best : Bool) (filt : Picker → Bool × Picker)
    (hpure : ∀ x : Picker, (filt x).2 = x) (s : Picker)
    (h : (select best filt s).1 ≠ Move.none) :
    s.cur < (select best filt s).2.cur :=
  selectAux_pure_progress best filt hpure (s.endMoves - s.cur) s h

theorem bad_glue (sm skip : Bool) (q b : Picker)
    (hcall : next_move sm skip q = badCaptureStep b)
    (hbJ : JBAD b)
    (hfb : (b.buf.drop b.cur).take (b.endMoves - b.cur)
      = q.buf.take q.endBad) :
    BadFuture sm skip q (q.buf.take q.endBad) := by
  have h2 : next_move sm skip q = next_move sm skip b := by
    rw [hcall, next_move_stage6_eq sm skip b hbJ.1]
  refine BadFuture_transfer sm skip q b h2 ?_
  rw [← hfb]
  exact bad_phase sm skip b hbJ

theorem quiet_phase (sm skip : Bool) :
    ∀ (d : Nat) (q : Picker),
    q.stage = 5 → q.inRefs = false → q.cur ≤ q.endMoves →
    q.endMoves ≤ q.buf.length → q.endBad ≤ q.buf.length →
    (∀ k, k < q.endBad → (q.buf.getD k default).move ≠ q.ttMove) →
    q.endMoves - q.cur ≤ d →
    BadFuture sm skip q (q.buf.take q.endBad) := by
  by_cases hsk : skip = true
  · subst hsk
    intro d q hst hir hcm hel hebl hbk hd
    refine bad_glue sm true q
      { q with
        cur := 0
        endMoves := q.endBad
        inRefs := false
        stage := q.stage + 1 } ?_ ?_ ?_
    · rw [next_move_stage5_eq sm true q hst]
      exact quietStep_skip_eq q
    · refine ⟨?_, rfl, Nat.zero_le _, rfl, ?_, ?_⟩
      · show q.stage + 1 = 6
        omega
      · show q.endBad ≤ q.buf.length
        exact hebl
      · intro k hk1 hk2
        exact hbk k hk2
    · show (q.buf.drop 0).take (q.endBad - 0) = q.buf.take q.endBad
      rw [List.drop_zero, Nat.sub_zero]
  · have hskf : skip = false := by revert hsk; cases skip <;> simp
    subst hskf
    intro d
    induction d with
    | zero =>
        intro q hst hir hcm hel hebl hbk hd
        have hex : select false quietFilter q = (Move.none, q) :=
          select_exhaust false quietFilter q (by omega)
        refine bad_glue sm false q
          { q with
            cur := 0
            endMoves := q.endBad
            inRefs := false
            stage := q.stage + 1 } ?_ ?_ ?_
        · rw [next_move_stage5_eq sm false q hst]
          rw [quietStep_noskip_exhaust q
            (by rw [hex]; exact fun hcon => hcon rfl)]
          rw [hex]
        · refine ⟨?_, rfl, Nat.zero_le _, rfl, ?_, ?_⟩
          · show q.stage + 1 = 6
            omega
          · show q.endBad ≤ q.buf.length
            exact hebl
          · intro k hk1 hk2
            exact hbk k hk2
        · show (q.buf.drop 0).take (q.endBad - 0) = q.buf.take q.endBad
          rw [List.drop_zero, Nat.sub_zero]
    | succ d ih =>
        intro q hst hir hcm hel hebl hbk hd
        obtain ⟨hbuf2, hebd2⟩ :=
          select_pure_false_buf quietFilter (fun _ => rfl) q
        obtain ⟨hb1, hb2, hb3, hb4, hb5, hb6, hb7, hb8⟩ :=
          select_pure_bounds false quietFilter (fun _ => rfl) q hcm
        obtain ⟨_, htt2, _, _, _, _, _, _⟩ :=
          select_spec false quietFilter quietFilter_pres q
        by_cases hr1 : (select false quietFilter q).1 ≠ Move.none
        · have hcall : next_move sm false q = select false quietFilter q := by
            rw [next_move_stage5_eq sm false q hst]
            exact quietStep_noskip_emit q hr1
          have hprog :=
            select_pure_progress false quietFilter (fun _ => rfl) q hr1
          have hBF : BadFuture sm false (select false quietFilter q).2
              ((select false quietFilter q).2.buf.take
                (select false quietFilter q).2.endBad) := by
            refine ih (select false quietFilter q).2 ?_ ?_ hb1 ?_ ?_ ?_ ?_
            · rw [hb7]
              exact hst
            · rw [hb6]
              exact hir
            · rw [hb3, hbuf2]
              exact hel
            · rw [hebd2, hbuf2]
              exact hebl
            · intro k hk
              rw [hbuf2, htt2]
              refine hbk k ?_
              rw [hebd2] at hk
              exact hk
            · rw [hb3]
              omega
          have hBF2 : BadFuture sm false (select false quietFilter q).2
              (q.buf.take q.endBad) := by
            rw [← hbuf2, ← hebd2]
            exact hBF
          refine BadFuture_step sm false q (q.buf.take q.endBad) ?_ ?_
          · rw [hcall, hb7, hst]
            decide
          · rw [hcall]
            exact hBF2
        · refine bad_glue sm false q
            { (select false quietFilter q).2 with
              cur := 0
              endMoves := (select false quietFilter q).2.endBad
              inRefs := false
              stage := (select false quietFilter q).2.stage + 1 } ?_ ?_ ?_
          · rw [next_move_stage5_eq sm false q hst]
            exact quietStep_noskip_exhaust q hr1
          · refine ⟨?_, rfl, Nat.zero_le _, rfl, ?_, ?_⟩
            · show (select false quietFilter q).2.stage + 1 = 6
              rw [hb7, hst]
            · show (select false quietFilter q).2.endBad
                ≤ (select false quietFilter q).2.buf.length
              rw [hebd2, hbuf2]
              exact hebl
            · intro k hk1 hk2
              show ((select false quietFilter q).2.buf.getD k default).move
                ≠ (select false quietFilter q).2.ttMove
              rw [hbuf2, htt2]
              refine hbk k ?_
              have hk2b : k < (select false quietFilter q).2.endBad := hk2
              rw [hebd2] at hk2b
              exact hk2b
          · show ((select false quietFilter q).2.buf.drop 0).take
                ((select false quietFilter q).2.endBad - 0)
              = q.buf.take q.endBad
            rw [List.drop_zero, Nat.sub_zero, hbuf2, hebd2]

theorem getD_append_left (l1 l2 : List ExtMove) : ∀ (k : Nat) (d : ExtMove),
    k < l1.length → (l1 ++ l2).getD k d = l1.getD k d := by
  induction l1 with
  | nil => intro k d h; simp at h
  | cons a t ih =>
      intro k d h
      cases k with
      | zero => rfl
      | succ q =>
          show (t ++ l2).getD q d = t.getD q d
          exact ih q d (by simp only [List.length_cons] at h; omega)

theorem take_append_self (l l2 : List ExtMove) : ∀ (n : Nat),
    n ≤ l.length → (l.take n ++ l2).take n = l.take n := by
  induction l with
  | nil =>
      intro n h
      have hn : n = 0 := by simp at h; omega
      subst hn
      rfl
  | cons a t ih =>
      intro n h
      cases n with
      | zero => rfl
      | succ m =>
          show a :: (t.take m ++ l2).take m = a :: t.take m
          rw [ih m (by simp only [List.length_cons] at h; omega)]

theorem quietInitStep_skip_eq (sm : Bool) (qt : Picker) :
    quietInitStep sm true qt
      = quietStep true { qt with stage := qt.stage + 1 } := by
  unfold quietInitStep
  rw [if_pos rfl]

theorem quietInitStep_noskip_eq (sm : Bool) (qt : Picker) :
    quietInitStep sm false qt
      = quietStep false
        { qt with
          cur := qt.endBad
          inRefs := false
          buf := qt.buf.take qt.endBad
            ++ partial_insertion_sort
                (qt.pos.genQuiets.map
                  (fun m =>
                    (⟨m, scoreQuiet sm qt.pos qt.hists m⟩ : ExtMove)))
                (-3000 * qt.depth)
          endMoves := qt.endBad + qt.pos.genQuiets.length
          stage := qt.stage + 1 } := by
  unfold quietInitStep
  rw [if_neg Bool.false_ne_true]

theorem qi_phase (sm skip : Bool) (qt : Picker) (hst : qt.stage = 4)
    (hebl : qt.endBad ≤ qt.buf.length)
    (hbk : ∀ k, k < qt.endBad → (qt.buf.getD k default).move ≠ qt.ttMove) :
    BadFuture sm skip qt (qt.buf.take qt.endBad) := by
  by_cases hsk : skip = true
  · subst hsk
    refine bad_glue sm true qt
      { qt with
        cur := 0
        endMoves := qt.endBad
        inRefs := false
        stage := qt.stage + 1 + 1 } ?_ ?_ ?_
    · rw [next_move_stage4_eq sm true qt hst, quietInitStep_skip_eq sm qt,
        quietStep_skip_eq]
    · refine ⟨?_, rfl, Nat.zero_le _, rfl, ?_, ?_⟩
      · show qt.stage + 1 + 1 = 6
        omega
      · show qt.endBad ≤ qt.buf.length
        exact hebl
      · intro k hk1 hk2
        exact hbk k hk2
    · show (qt.buf.drop 0).take (qt.endBad - 0) = qt.buf.take qt.endBad
      rw [List.drop_zero, Nat.sub_zero]
  · have hskf : skip = false := by revert hsk; cases skip <;> simp
    subst hskf
    set QI := ({ qt with
      cur := qt.endBad
      inRefs := false
      buf := qt.buf.take qt.endBad
        ++ partial_insertion_sort
            (qt.pos.genQuiets.map
              (fun m => (⟨m, scoreQuiet sm qt.pos qt.hists m⟩ : ExtMove)))
            (-3000 * qt.depth)
      endMoves := qt.endBad + qt.pos.genQuiets.length
      stage := qt.stage + 1 } : Picker) with hQI
    have hQIst : QI.stage = 5 := by
      rw [hQI]
      show qt.stage + 1 = 5
      omega
    have hcall : next_move sm false qt = next_move sm false QI := by
      rw [next_move_stage4_eq sm false qt hst,
        quietInitStep_noskip_eq sm qt,
        next_move_stage5_eq sm false QI hQIst]
    refine BadFuture_transfer sm false qt QI hcall ?_
    have hlen : QI.buf.length = qt.endBad + qt.pos.genQuiets.length := by
      rw [hQI]
      show (qt.buf.take qt.endBad ++ partial_insertion_sort
        (qt.pos.genQuiets.map
          (fun m => (⟨m, scoreQuiet sm qt.pos qt.hists m⟩ : ExtMove)))
        (-3000 * qt.depth)).length = _
      rw [List.length_append, List.length_take, pis_length,
        List.length_map]
      omega
    have hpool : QI.buf.take QI.endBad = qt.buf.take qt.endBad := by
      rw [hQI]
      show (qt.buf.take qt.endBad ++ partial_insertion_sort
        (qt.pos.genQuiets.map
          (fun m => (⟨m, scoreQuiet sm qt.pos qt.hists m⟩ : ExtMove)))
        (-3000 * qt.depth)).take qt.endBad = qt.buf.take qt.endBad
      exact take_append_self qt.buf _ qt.endBad hebl
    rw [← hpool]
    refine quiet_phase sm false (QI.endMoves - QI.cur) QI hQIst rfl ?_ ?_ ?_
      ?_ (le_refl _)
    · show qt.endBad ≤ qt.endBad + qt.pos.genQuiets.length
      omega
    · show qt.endBad + qt.pos.genQuiets.length ≤ QI.buf.length
      rw [hlen]
    · show qt.endBad ≤ QI.buf.length
      rw [hlen]
      omega
    · intro k hk
      have hkeb : k < qt.endBad := hk
      show (QI.buf.getD k default).move ≠ qt.ttMove
      rw [hQI]
      show ((qt.buf.take qt.endBad ++ partial_insertion_sort
        (qt.pos.genQuiets.map
          (fun m => (⟨m, scoreQuiet sm qt.pos qt.hists m⟩ : ExtMove)))
        (-3000 * qt.depth)).getD k default).move ≠ qt.ttMove
      rw [getD_append_left _ _ k default
        (by rw [List.length_take]; omega)]
      rw [getD_take qt.buf qt.endBad k default hkeb]
      exact hbk k hkeb

theorem refutationStep_emit_eq (sm skip : Bool) (rs : Picker)
    (h : (select false refFilter rs).1 ≠ Move.none) :
    refutationStep sm skip rs = select false refFilter rs := by
  unfold refutationStep
  rw [if_pos h]

theorem refutationStep_exhaust_eq (sm skip : Bool) (rs : Picker)
    (h : ¬ (select false refFilter rs).1 ≠ Move.none) :
    refutationStep sm skip rs
      = quietInitStep sm skip { (select false refFilter rs).2 with
          stage := (select false refFilter rs).2.stage + 1 } := by
  unfold refutationStep
  rw [if_neg h]

theorem ref_phase (sm skip : Bool) : ∀ (d : Nat) (rs : Picker),
    rs.stage = 3 → rs.cur ≤ rs.endMoves → rs.endBad ≤ rs.buf.length →
    (∀ k, k < rs.endBad → (rs.buf.getD k default).move ≠ rs.ttMove) →
    rs.endMoves - rs.cur ≤ d →
    BadFuture sm skip rs (rs.buf.take rs.endBad) := by
  intro d
  induction d with
  | zero =>
      intro rs hst hcm hebl hbk hd
      obtain ⟨hbuf2, hebd2⟩ :=
        select_pure_false_buf refFilter (fun _ => rfl) rs
      obtain ⟨hb1, hb2, hb3, hb4, hb5, hb6, hb7, hb8⟩ :=
        select_pure_bounds false refFilter (fun _ => rfl) rs hcm
      obtain ⟨_, htt2, _, _, _, _, _, _⟩ :=
        select_spec false refFilter refFilter_pres rs
      by_cases hr1 : (select false refFilter rs).1 ≠ Move.none
      · exfalso
        have hprog :=
          select_pure_progress false refFilter (fun _ => rfl) rs hr1
        rw [hb3] at hb1
        omega
      · have hqt4 : ({ (select false refFilter rs).2 with
            stage := (select false refFilter rs).2.stage + 1 }
              : Picker).stage = 4 := by
          show (select false refFilter rs).2.stage + 1 = 4
          rw [hb7, hst]
        have hcall : next_move sm skip rs
            = next_move sm skip { (select false refFilter rs).2 with
                stage := (select false refFilter rs).2.stage + 1 } := by
          rw [next_move_stage3_eq sm skip rs hst,
            refutationStep_exhaust_eq sm skip rs hr1,
            next_move_stage4_eq sm skip _ hqt4]
        refine BadFuture_transfer sm skip rs _ hcall ?_
        have hq := qi_phase sm skip
          { (select false refFilter rs).2 with
            stage := (select false refFilter rs).2.stage + 1 }
          hqt4
          (by
            show (select false refFilter rs).2.endBad
              ≤ (select false refFilter rs).2.buf.length
            rw [hebd2, hbuf2]
            exact hebl)
          (by
            intro k hk
            show ((select false refFilter rs).2.buf.getD k default).move
              ≠ (select false refFilter rs).2.ttMove
            rw [hbuf2, htt2]
            refine hbk k ?_
            have hk2 : k < (select false refFilter rs).2.endBad := hk
            rw [hebd2] at hk2
            exact hk2)
        have hpool : ({ (select false refFilter rs).2 with
            stage := (select false refFilter rs).2.stage + 1 }
              : Picker).buf.take
            ({ (select false refFilter rs).2 with
              stage := (select false refFilter rs).2.stage + 1 }
                : Picker).endBad
            = rs.buf.take rs.endBad := by
          show (select false refFilter rs).2.buf.take
            (select false refFilter rs).2.endBad = _
          rw [hbuf2, hebd2]
        rw [hpool] at hq
        exact hq
  | succ d ih =>
      intro rs hst hcm hebl hbk hd
      obtain ⟨hbuf2, hebd2⟩ :=
        select_pure_false_buf refFilter (fun _ => rfl) rs
      obtain ⟨hb1, hb2, hb3, hb4, hb5, hb6, hb7, hb8⟩ :=
        select_pure_bounds false refFilter (fun _ => rfl) rs hcm
      obtain ⟨_, htt2, _, _, _, _, _, _⟩ :=
        select_spec false refFilter refFilter_pres rs
      by_cases hr1 : (select false refFilter rs).1 ≠ Move.none
      · have hcall : next_move sm skip rs = select false refFilter rs := by
          rw [next_move_stage3_eq sm skip rs hst]
          exact refutationStep_emit_eq sm skip rs hr1
        have hprog :=
          select_pure_progress false refFilter (fun _ => rfl) rs hr1
        have hBF : BadFuture sm skip (select false refFilter rs).2
            ((select false refFilter rs).2.buf.take
              (select false refFilter rs).2.endBad) := by
          refine ih (select false refFilter rs).2 ?_ hb1 ?_ ?_ ?_
          · rw [hb7]
            exact hst
          · rw [hebd2, hbuf2]
            exact hebl
          · intro k hk
            rw [hbuf2, htt2]
            refine hbk k ?_
            rw [hebd2] at hk
            exact hk
          · rw [hb3]
            omega
        have hBF2 : BadFuture sm skip (select false refFilter rs).2
            (rs.buf.take rs.endBad) := by
          rw [← hbuf2, ← hebd2]
          exact hBF
        refine BadFuture_step sm skip rs (rs.buf.take rs.endBad) ?_ ?_
        · rw [hcall, hb7, hst]
          decide
        · rw [hcall]
          exact hBF2
      · have hqt4 : ({ (select false refFilter rs).2 with
            stage := (select false refFilter rs).2.stage + 1 }
              : Picker).stage = 4 := by
          show (select false refFilter rs).2.stage + 1 = 4
          rw [hb7, hst]
        have hcall : next_move sm skip rs
            = next_move sm skip { (select false refFilter rs).2 with
                stage := (select false refFilter rs).2.stage + 1 } := by
          rw [next_move_stage3_eq sm skip rs hst,
            refutationStep_exhaust_eq sm skip rs hr1,
            next_move_stage4_eq sm skip _ hqt4]
        refine BadFuture_transfer sm skip rs _ hcall ?_
        have hq := qi_phase sm skip
          { (select false refFilter rs).2 with
            stage := (select false refFilter rs).2.stage + 1 }
          hqt4
          (by
            show (select false refFilter rs).2.endBad
              ≤ (select false refFilter rs).2.buf.length
            rw [hebd2, hbuf2]
            exact hebl)
          (by
            intro k hk
            show ((select false refFilter rs).2.buf.getD k default).move
              ≠ (select false refFilter rs).2.ttMove
            rw [hbuf2, htt2]
            refine hbk k ?_
            have hk2 : k < (select false refFilter rs).2.endBad := hk
            rw [hebd2] at hk2
            exact hk2)
        have hpool : ({ (select false refFilter rs).2 with
            stage := (select false refFilter rs).2.stage + 1 }
              : Picker).buf.take
            ({ (select false refFilter rs).2 with
              stage := (select false refFilter rs).2.stage + 1 }
                : Picker).endBad
            = rs.buf.take rs.endBad := by
          show (select false refFilter rs).2.buf.take
            (select false refFilter rs).2.endBad = _
          rw [hbuf2, hebd2]
        rw [hpool] at hq
        exact hq

theorem drop_set_lt (l : List ExtMove) : ∀ (i j : Nat) (v : ExtMove),
    i < j → (l.set i v).drop j = l.drop j := by
  induction l with
  | nil => intro i j v h; simp [List.set]
  | cons a t ih =>
      intro i j v h
      cases i with
      | zero =>
          cases j with
          | zero => omega
          | succ q => rfl
      | succ p =>
          cases j with
          | zero => omega
          | succ q =>
              show (t.set p v).drop q = t.drop q
              exact ih p q v (by omega)

/-- The bad-capture pool of a GOOD_CAPTURE scan state: the banked prefix
followed by the SEE failures still to come in the unscanned slice. -/
def gcPool (s : Picker) : List ExtMove :=
  s.buf.take s.endBad
    ++ gcFail s.pos s.ttMove
        ((s.buf.drop s.cur).take (s.endMoves - s.cur))

theorem selectAux_gc_scan (fuel : Nat) : ∀ s : Picker,
    s.inRefs = false → s.endBad ≤ s.cur → s.cur ≤ s.endMoves →
    s.endMoves ≤ s.buf.length →
    (∀ k, s.cur ≤ k → k < s.endMoves →
      (s.buf.getD k default).move ≠ Move.none) →
    (∀ k, k < s.endBad → (s.buf.getD k default).move ≠ s.ttMove) →
    fuel = s.endMoves - s.cur →
    ((selectAux false gcFilter fuel s).2.inRefs = false
      ∧ (selectAux false gcFilter fuel s).2.endBad
          ≤ (selectAux false gcFilter fuel s).2.cur
      ∧ (selectAux false gcFilter fuel s).2.cur
          ≤ (selectAux false gcFilter fuel s).2.endMoves
      ∧ (selectAux false gcFilter fuel s).2.endMoves
          ≤ (selectAux false gcFilter fuel s).2.buf.length)
    ∧ (∀ k, (selectAux false gcFilter fuel s).2.cur ≤ k →
        k < (selectAux false gcFilter fuel s).2.endMoves →
        ((selectAux false gcFilter fuel s).2.buf.getD k default).move
          ≠ Move.none)
    ∧ (∀ k, k < (selectAux false gcFilter fuel s).2.endBad →
        ((selectAux false gcFilter fuel s).2.buf.getD k default).move
          ≠ (selectAux false gcFilter fuel s).2.ttMove)
    ∧ ((selectAux false gcFilter fuel s).2.pos = s.pos
      ∧ (selectAux false gcFilter fuel s).2.ttMove = s.ttMove
      ∧ (selectAux false gcFilter fuel s).2.stage = s.stage
      ∧ (selectAux false gcFilter fuel s).2.endMoves = s.endMoves)
    ∧ gcPool (selectAux false gcFilter fuel s).2 = gcPool s
    ∧ ((selectAux false gcFilter fuel s).1 = Move.none →
        (selectAux false gcFilter fuel s).2.cur
          = (selectAux false gcFilter fuel s).2.endMoves)
    ∧ ((selectAux false gcFilter fuel s).1 ≠ Move.none →
        s.cur < (selectAux false gcFilter fuel s).2.cur) := by
  induction fuel with
  | zero =>
      intro s hir hbc hcm hel hnn hbk hfe
      refine ⟨⟨hir, hbc, hcm, hel⟩, hnn, hbk, ⟨rfl, rfl, rfl, rfl⟩, rfl,
        ?_, ?_⟩
      · intro _
        show s.cur = s.endMoves
        omega
      · intro h
        exact absurd rfl h
  | succ f ih =>
      intro s hir hbc hcm hel hnn hbk hfe
      have hc : s.cur < s.endMoves := by omega
      have hcl : s.cur < s.buf.length := by omega
      have hgc : getCur s = s.buf.getD s.cur default := by
        unfold getCur
        rw [if_neg (by rw [hir]; exact Bool.false_ne_true)]
      by_cases hne : (s.buf.getD s.cur default).move ≠ s.ttMove
      · by_cases hsee : s.pos.seeGe (s.buf.getD s.cur default).move
            (Int.tdiv (-69 * (s.buf.getD s.cur default).value) 1024) = true
        · have hgcf : gcFilter s = (true, s) := by
            unfold gcFilter
            rw [hgc, if_pos hsee]
          rw [selectAux_false_emit gcFilter s f hir hc hne hgcf]
          refine ⟨⟨hir, ?_, ?_, hel⟩, ?_, ?_, ⟨rfl, rfl, rfl, rfl⟩,
            ?_, ?_, ?_⟩
          · show s.endBad ≤ s.cur + 1
            omega
          · show s.cur + 1 ≤ s.endMoves
            omega
          · intro k hk1 hk2
            have hk1b : s.cur + 1 ≤ k := hk1
            exact hnn k (by omega) hk2
          · intro k hk
            exact hbk k hk
          · show s.buf.take s.endBad
                ++ gcFail s.pos s.ttMove
                  ((s.buf.drop (s.cur + 1)).take
                    (s.endMoves - (s.cur + 1)))
              = s.buf.take s.endBad
                ++ gcFail s.pos s.ttMove
                  ((s.buf.drop s.cur).take (s.endMoves - s.cur))
            congr 1
            rw [show s.endMoves - s.cur = (s.endMoves - (s.cur + 1)) + 1
              from by omega]
            rw [drop_take_succ s.buf s.cur _ hcl]
            rw [gcFail_cons_pass]
            unfold gcFailP
            rw [hsee]
            simp
          · intro h
            exact absurd h (hnn s.cur (le_refl _) hc)
          · intro _
            show s.cur < s.cur + 1
            omega
        · have hgcf : gcFilter s
              = (false, { s with
              buf := s.buf.set s.endBad (s.buf.getD s.cur default)
              endBad := s.endBad + 1 }) := by
            unfold gcFilter
            rw [hgc, if_neg hsee]
          rw [selectAux_false_bank gcFilter s _ f hir hc hne hgcf]
          have hseef : s.pos.seeGe (s.buf.getD s.cur default).move
              (Int.tdiv (-69 * (s.buf.getD s.cur default).value) 1024)
                = false := by
            revert hsee
            cases s.pos.seeGe (s.buf.getD s.cur default).move
              (Int.tdiv (-69 * (s.buf.getD s.cur default).value) 1024) <;>
              simp
          obtain ⟨⟨r1, r2, r3, r4⟩, rnn, rbk, ⟨rp, rtt, rstg, rem⟩,
              rpool, rnone, rprog⟩ :=
            ih { { s with
              buf := s.buf.set s.endBad (s.buf.getD s.cur default)
              endBad := s.endBad + 1 } with
                cur := ({ s with
              buf := s.buf.set s.endBad (s.buf.getD s.cur default)
              endBad := s.endBad + 1 } : Picker).cur + 1 }
              hir
              (by show s.endBad + 1 ≤ s.cur + 1; omega)
              (by show s.cur + 1 ≤ s.endMoves; omega)
              (by
                show s.endMoves ≤ (s.buf.set s.endBad
                  (s.buf.getD s.cur default)).length
                rw [List.length_set]
                exact hel)
              (by
                intro k hk1 hk2
                have hk1b : s.cur + 1 ≤ k := hk1
                have hk2b : k < s.endMoves := hk2
                show ((s.buf.set s.endBad
                  (s.buf.getD s.cur default)).getD k default).move
                  ≠ Move.none
                rw [getD_set_other _ _ _ _ _ (show s.endBad ≠ k by omega)]
                exact hnn k (by omega) hk2b)
              (by
                intro k hk
                have hkb : k < s.endBad + 1 := hk
                show ((s.buf.set s.endBad
                  (s.buf.getD s.cur default)).getD k default).move
                  ≠ s.ttMove
                by_cases hke : k = s.endBad
                · subst hke
                  rw [getD_set_self]
                  rw [if_pos (by omega)]
                  exact hne
                · rw [getD_set_other _ _ _ _ _
                    (fun hcon => hke hcon.symm)]
                  exact hbk k (by omega))
              (by show f = s.endMoves - (s.cur + 1); omega)
          refine ⟨⟨r1, r2, r3, r4⟩, rnn, rbk,
            ⟨rp, rtt, rstg, rem⟩, ?_, rnone, ?_⟩
          · refine rpool.trans ?_
            show (s.buf.set s.endBad (s.buf.getD s.cur default)).take
                (s.endBad + 1)
                ++ gcFail s.pos s.ttMove
                  (((s.buf.set s.endBad
                      (s.buf.getD s.cur default)).drop (s.cur + 1)).take
                    (s.endMoves - (s.cur + 1)))
              = s.buf.take s.endBad
                ++ gcFail s.pos s.ttMove
                  ((s.buf.drop s.cur).take (s.endMoves - s.cur))
            rw [take_set_succ s.buf s.endBad _ (by omega)]
            rw [drop_set_lt s.buf s.endBad (s.cur + 1) _ (by omega)]
            rw [show s.endMoves - s.cur = (s.endMoves - (s.cur + 1)) + 1
              from by omega]
            rw [drop_take_succ s.buf s.cur _ hcl]
            rw [gcFail_cons_fail]
            · rw [List.append_assoc]
              rfl
            · unfold gcFailP
              rw [hseef]
              simp only [Bool.not_false, Bool.and_true, decide_eq_true_eq]
              exact hne
          · intro h
            refine lt_of_le_of_lt ?_ (rprog h)
            show s.cur ≤ s.cur + 1
            omega
      · rw [selectAux_false_skip gcFilter s f hir hc hne]
        obtain ⟨⟨r1, r2, r3, r4⟩, rnn, rbk, ⟨rp, rtt, rstg, rem⟩,
            rpool, rnone, rprog⟩ :=
          ih { s with cur := s.cur + 1 }
            hir
            (by show s.endBad ≤ s.cur + 1; omega)
            (by show s.cur + 1 ≤ s.endMoves; omega)
            hel
            (by
              intro k hk1 hk2
              have hk1b : s.cur + 1 ≤ k := hk1
              exact hnn k (by omega) hk2)
            (by
              intro k hk
              exact hbk k hk)
            (by show f = s.endMoves - (s.cur + 1); omega)
        refine ⟨⟨r1, r2, r3, r4⟩, rnn, rbk, ⟨rp, rtt, rstg, rem⟩,
          ?_, rnone, ?_⟩
        · refine rpool.trans ?_
          show s.buf.take s.endBad
              ++ gcFail s.pos s.ttMove
                ((s.buf.drop (s.cur + 1)).take (s.endMoves - (s.cur + 1)))
            = s.buf.take s.endBad
              ++ gcFail s.pos s.ttMove
                ((s.buf.drop s.cur).take (s.endMoves - s.cur))
          congr 1
          rw [show s.endMoves - s.cur = (s.endMoves - (s.cur + 1)) + 1
            from by omega]
          rw [drop_take_succ s.buf s.cur _ hcl]
          rw [gcFail_cons_pass]
          unfold gcFailP
          have hmeq : (s.buf.getD s.cur default).move = s.ttMove :=
            not_not.mp hne
          rw [hmeq]
          simp
        · intro h
          refine lt_of_le_of_lt ?_ (rprog h)
          show s.cur ≤ s.cur + 1
          omega

theorem goodCaptureStep_emit_eq (sm skip : Bool) (s : Picker)
    (h : (select false gcFilter s).1 ≠ Move.none) :
    goodCaptureStep sm skip s = select false gcFilter s := by
  unfold goodCaptureStep
  rw [if_pos h]

theorem goodCaptureStep_exhaust_eq (sm skip : Bool) (s : Picker)
    (h : ¬ (select false gcFilter s).1 ≠ Move.none) :
    goodCaptureStep sm skip s
      = refutationStep sm skip
        { (select false gcFilter s).2 with
          cur := 0
          inRefs := true
          endMoves :=
            if ((select false gcFilter s).2.refutations.getD 0 default).move
                  = ((select false gcFilter s).2.refutations.getD 2
                      default).move
                ∨ ((select false gcFilter s).2.refutations.getD 1
                      default).move
                  = ((select false gcFilter s).2.refutations.getD 2
                      default).move
            then 2 else 3
          stage := (select false gcFilter s).2.stage + 1 } := by
  unfold goodCaptureStep
  rw [if_neg h]

theorem gc_phase (sm skip : Bool) : ∀ (d : Nat) (s : Picker),
    s.stage = 2 → s.inRefs = false → s.endBad ≤ s.cur →
    s.cur ≤ s.endMoves → s.endMoves ≤ s.buf.length →
    (∀ k, s.cur ≤ k → k < s.endMoves →
      (s.buf.getD k default).move ≠ Move.none) →
    (∀ k, k < s.endBad → (s.buf.getD k default).move ≠ s.ttMove) →
    s.endMoves - s.cur ≤ d →
    BadFuture sm skip s (gcPool s) := by
  intro d
  induction d with
  | zero =>
      intro s hst hir hbc hcm hel hnn hbk hd
      obtain ⟨⟨r1, r2, r3, r4⟩, rnn, rbk, ⟨rp, rtt, rstg, rem⟩,
          rpool, rnone, rprog⟩ :=
        selectAux_gc_scan (s.endMoves - s.cur) s hir hbc hcm hel hnn hbk rfl
      by_cases hr1 : (select false gcFilter s).1 ≠ Move.none
      · exfalso
        have hpr : s.cur < (select false gcFilter s).2.cur := rprog hr1
        have hcb : (select false gcFilter s).2.cur
            ≤ (select false gcFilter s).2.endMoves := r3
        have hemb : (select false gcFilter s).2.endMoves = s.endMoves := rem
        omega
      · have R2 : (select false gcFilter s).2.endBad
            ≤ (select false gcFilter s).2.cur := r2
        have R3 : (select false gcFilter s).2.cur
            ≤ (select false gcFilter s).2.endMoves := r3
        have R4 : (select false gcFilter s).2.endMoves
            ≤ (select false gcFilter s).2.buf.length := r4
        have Rbk : ∀ k, k < (select false gcFilter s).2.endBad →
            ((select false gcFilter s).2.buf.getD k default).move
              ≠ (select false gcFilter s).2.ttMove := rbk
        have Rstg : (select false gcFilter s).2.stage = s.stage := rstg
        have Rnone : (select false gcFilter s).2.cur
            = (select false gcFilter s).2.endMoves := rnone (not_not.mp hr1)
        have hRSst : ({ (select false gcFilter s).2 with
          cur := 0
          inRefs := true
          endMoves :=
            if ((select false gcFilter s).2.refutations.getD 0 default).move
                  = ((select false gcFilter s).2.refutations.getD 2
                      default).move
                ∨ ((select false gcFilter s).2.refutations.getD 1
                      default).move
                  = ((select false gcFilter s).2.refutations.getD 2
                      default).move
            then 2 else 3
          stage := (select false gcFilter s).2.stage + 1 } : Picker).stage = 3 := by
          show (select false gcFilter s).2.stage + 1 = 3
          rw [Rstg, hst]
        have hcall : next_move sm skip s
            = next_move sm skip { (select false gcFilter s).2 with
          cur := 0
          inRefs := true
          endMoves :=
            if ((select false gcFilter s).2.refutations.getD 0 default).move
                  = ((select false gcFilter s).2.refutations.getD 2
                      default).move
                ∨ ((select false gcFilter s).2.refutations.getD 1
                      default).move
                  = ((select false gcFilter s).2.refutations.getD 2
                      default).move
            then 2 else 3
          stage := (select false gcFilter s).2.stage + 1 } := by
          rw [next_move_stage2_eq sm skip s hst,
            goodCaptureStep_exhaust_eq sm skip s hr1,
            next_move_stage3_eq sm skip _ hRSst]
        refine BadFuture_transfer sm skip s _ hcall ?_
        have hq := ref_phase sm skip 3
          { (select false gcFilter s).2 with
          cur := 0
          inRefs := true
          endMoves :=
            if ((select false gcFilter s).2.refutations.getD 0 default).move
                  = ((select false gcFilter s).2.refutations.getD 2
                      default).move
                ∨ ((select false gcFilter s).2.refutations.getD 1
                      default).move
                  = ((select false gcFilter s).2.refutations.getD 2
                      default).move
            then 2 else 3
          stage := (select false gcFilter s).2.stage + 1 }
          hRSst
          (Nat.zero_le _)
          (by
            show (select false gcFilter s).2.endBad
              ≤ (select false gcFilter s).2.buf.length
            omega)
          (by
            intro k hk
            exact Rbk k hk)
          (by
            show (if _ then 2 else 3) - 0 ≤ 3
            rw [Nat.sub_zero]
            exact ite_le_23 _)
        have hpool : ({ (select false gcFilter s).2 with
          cur := 0
          inRefs := true
          endMoves :=
            if ((select false gcFilter s).2.refutations.getD 0 default).move
                  = ((select false gcFilter s).2.refutations.getD 2
                      default).move
                ∨ ((select false gcFilter s).2.refutations.getD 1
                      default).move
                  = ((select false gcFilter s).2.refutations.getD 2
                      default).move
            then 2 else 3
          stage := (select false gcFilter s).2.stage + 1 } : Picker).buf.take
              ({ (select false gcFilter s).2 with
          cur := 0
          inRefs := true
          endMoves :=
            if ((select false gcFilter s).2.refutations.getD 0 default).move
                  = ((select false gcFilter s).2.refutations.getD 2
                      default).move
                ∨ ((select false gcFilter s).2.refutations.getD 1
                      default).move
                  = ((select false gcFilter s).2.refutations.getD 2
                      default).move
            then 2 else 3
          stage := (select false gcFilter s).2.stage + 1 } : Picker).endBad
            = gcPool s := by
          show (select false gcFilter s).2.buf.take
            (select false gcFilter s).2.endBad = gcPool s
          rw [← rpool]
          show _ = gcPool (select false gcFilter s).2
          unfold gcPool
          rw [show (select false gcFilter s).2.endMoves
            - (select false gcFilter s).2.cur = 0 from by omega]
          rw [List.take_zero, gcFail_nil, List.append_nil]
        rw [hpool] at hq
        exact hq
  | succ d ih =>
      intro s hst hir hbc hcm hel hnn hbk hd
      obtain ⟨⟨r1, r2, r3, r4⟩, rnn, rbk, ⟨rp, rtt, rstg, rem⟩,
          rpool, rnone, rprog⟩ :=
        selectAux_gc_scan (s.endMoves - s.cur) s hir hbc hcm hel hnn hbk rfl
      have R1 : (select false gcFilter s).2.inRefs = false := r1
      have R2 : (select false gcFilter s).2.endBad
          ≤ (select false gcFilter s).2.cur := r2
      have R3 : (select false gcFilter s).2.cur
          ≤ (select false gcFilter s).2.endMoves := r3
      have R4 : (select false gcFilter s).2.endMoves
          ≤ (select false gcFilter s).2.buf.length := r4
      have Rnn : ∀ k, (select false gcFilter s).2.cur ≤ k →
          k < (select false gcFilter s).2.endMoves →
          ((select false gcFilter s).2.buf.getD k default).move
            ≠ Move.none := rnn
      have Rbk : ∀ k, k < (select false gcFilter s).2.endBad →
          ((select false gcFilter s).2.buf.getD k default).move
            ≠ (select false gcFilter s).2.ttMove := rbk
      have Rstg : (select false gcFilter s).2.stage = s.stage := rstg
      have Rem : (select false gcFilter s).2.endMoves = s.endMoves := rem
      have Rpool : gcPool (select false gcFilter s).2 = gcPool s := rpool
      by_cases hr1 : (select false gcFilter s).1 ≠ Move.none
      · have hcall : next_move sm skip s = select false gcFilter s := by
          rw [next_move_stage2_eq sm skip s hst]
          exact goodCaptureStep_emit_eq sm skip s hr1
        have hpr : s.cur < (select false gcFilter s).2.cur := rprog hr1
        have hBF : BadFuture sm skip (select false gcFilter s).2
            (gcPool (select false gcFilter s).2) := by
          refine ih (select false gcFilter s).2 ?_ R1 R2 R3 R4 Rnn Rbk ?_
          · rw [Rstg]
            exact hst
          · rw [Rem]
            omega
        rw [Rpool] at hBF
        refine BadFuture_step sm skip s (gcPool s) ?_ ?_
        · rw [hcall, Rstg, hst]
          decide
        · rw [hcall]
          exact hBF
      · have Rnone : (select false gcFilter s).2.cur
            = (select false gcFilter s).2.endMoves := rnone (not_not.mp hr1)
        have hRSst : ({ (select false gcFilter s).2 with
          cur := 0
          inRefs := true
          endMoves :=
            if ((select false gcFilter s).2.refutations.getD 0 default).move
                  = ((select false gcFilter s).2.refutations.getD 2
                      default).move
                ∨ ((select false gcFilter s).2.refutations.getD 1
                      default).move
                  = ((select false gcFilter s).2.refutations.getD 2
                      default).move
            then 2 else 3
          stage := (select false gcFilter s).2.stage + 1 } : Picker).stage = 3 := by
          show (select false gcFilter s).2.stage + 1 = 3
          rw [Rstg, hst]
        have hcall : next_move sm skip s
            = next_move sm skip { (select false gcFilter s).2 with
          cur := 0
          inRefs := true
          endMoves :=
            if ((select false gcFilter s).2.refutations.getD 0 default).move
                  = ((select false gcFilter s).2.refutations.getD 2
                      default).move
                ∨ ((select false gcFilter s).2.refutations.getD 1
                      default).move
                  = ((select false gcFilter s).2.refutations.getD 2
                      default).move
            then 2 else 3
          stage := (select false gcFilter s).2.stage + 1 } := by
          rw [next_move_stage2_eq sm skip s hst,
            goodCaptureStep_exhaust_eq sm skip s hr1,
            next_move_stage3_eq sm skip _ hRSst]
        refine BadFuture_transfer sm skip s _ hcall ?_
        have hq := ref_phase sm skip 3
          { (select false gcFilter s).2 with
          cur := 0
          inRefs := true
          endMoves :=
            if ((select false gcFilter s).2.refutations.getD 0 default).move
                  = ((select false gcFilter s).2.refutations.getD 2
                      default).move
                ∨ ((select false gcFilter s).2.refutations.getD 1
                      default).move
                  = ((select false gcFilter s).2.refutations.getD 2
                      default).move
            then 2 else 3
          stage := (select false gcFilter s).2.stage + 1 }
          hRSst
          (Nat.zero_le _)
          (by
            show (select false gcFilter s).2.endBad
              ≤ (select false gcFilter s).2.buf.length
            omega)
          (by
            intro k hk
            exact Rbk k hk)
          (by
            show (if _ then 2 else 3) - 0 ≤ 3
            rw [Nat.sub_zero]
            exact ite_le_23 _)
        have hpool : ({ (select false gcFilter s).2 with
          cur := 0
          inRefs := true
          endMoves :=
            if ((select false gcFilter s).2.refutations.getD 0 default).move
                  = ((select false gcFilter s).2.refutations.getD 2
                      default).move
                ∨ ((select false gcFilter s).2.refutations.getD 1
                      default).move
                  = ((select false gcFilter s).2.refutations.getD 2
                      default).move
            then 2 else 3
          stage := (select false gcFilter s).2.stage + 1 } : Picker).buf.take
              ({ (select false gcFilter s).2 with
          cur := 0
          inRefs := true
          endMoves :=
            if ((select false gcFilter s).2.refutations.getD 0 default).move
                  = ((select false gcFilter s).2.refutations.getD 2
                      default).move
                ∨ ((select false gcFilter s).2.refutations.getD 1
                      default).move
                  = ((select false gcFilter s).2.refutations.getD 2
                      default).move
            then 2 else 3
          stage := (select false gcFilter s).2.stage + 1 } : Picker).endBad
            = gcPool s := by
          show (select false gcFilter s).2.buf.take
            (select false gcFilter s).2.endBad = gcPool s
          rw [← Rpool]
          show _ = gcPool (select false gcFilter s).2
          unfold gcPool
          rw [show (select false gcFilter s).2.endMoves
            - (select false gcFilter s).2.cur = 0 from by omega]
          rw [List.take_zero, gcFail_nil, List.append_nil]
        rw [hpool] at hq
        exact hq

theorem capture_start (sm skip : Bool) (s1 : Picker) (hst : s1.stage = 1)
    (hnn : ∀ m ∈ s1.pos.genCaptures, m ≠ Move.none) :
    BadFuture sm skip s1
      (gcFail s1.pos s1.ttMove (partial_insertion_sort (s1.pos.genCaptures.map (fun m => scoreCapture sm s1.pos s1.hists m)) (-2147483648))) := by
  have hcs2 : (captureInit sm s1).stage = 2 := by
    show s1.stage + 1 = 2
    omega
  have hcall : next_move sm skip s1
      = next_move sm skip (captureInit sm s1) := by
    rw [next_move_stage1_eq sm skip s1 hst,
      next_move_stage2_eq sm skip _ hcs2]
  refine BadFuture_transfer sm skip s1 _ hcall ?_
  have hg := gc_phase sm skip (captureInit sm s1).endMoves
    (captureInit sm s1) hcs2 rfl (Nat.zero_le _) (Nat.zero_le _)
    (by
      show (s1.pos.genCaptures.map (fun m => scoreCapture sm s1.pos s1.hists m)).length ≤ (partial_insertion_sort (s1.pos.genCaptures.map (fun m => scoreCapture sm s1.pos s1.hists m)) (-2147483648)).length
      rw [pis_length])
    (by
      intro k hk1 hk2
      have hk2b : k < (s1.pos.genCaptures.map (fun m => scoreCapture sm s1.pos s1.hists m)).length := hk2
      have hkl : k < (partial_insertion_sort (s1.pos.genCaptures.map (fun m => scoreCapture sm s1.pos s1.hists m)) (-2147483648)).length := by
        rw [pis_length]
        exact hk2b
      have hmem : (partial_insertion_sort (s1.pos.genCaptures.map (fun m => scoreCapture sm s1.pos s1.hists m)) (-2147483648)).getD k default ∈ (partial_insertion_sort (s1.pos.genCaptures.map (fun m => scoreCapture sm s1.pos s1.hists m)) (-2147483648)) :=
        getD_mem _ _ _ hkl
      have hmem2 : (partial_insertion_sort (s1.pos.genCaptures.map (fun m => scoreCapture sm s1.pos s1.hists m)) (-2147483648)).getD k default ∈ (s1.pos.genCaptures.map (fun m => scoreCapture sm s1.pos s1.hists m)) :=
        (pis_perm_aux _ _).mem_iff.mp hmem
      obtain ⟨m, hm, hme⟩ := List.mem_map.mp hmem2
      show ((partial_insertion_sort (s1.pos.genCaptures.map (fun m => scoreCapture sm s1.pos s1.hists m)) (-2147483648)).getD k default).move ≠ Move.none
      rw [← hme]
      show m ≠ Move.none
      exact hnn m hm)
    (by
      intro k hk
      exact absurd (show k < 0 from hk) (Nat.not_lt_zero k))
    (by
      show (s1.pos.genCaptures.map (fun m => scoreCapture sm s1.pos s1.hists m)).length - 0 ≤ (s1.pos.genCaptures.map (fun m => scoreCapture sm s1.pos s1.hists m)).length
      omega)
  have hpool : gcPool (captureInit sm s1)
      = gcFail s1.pos s1.ttMove (partial_insertion_sort (s1.pos.genCaptures.map (fun m => scoreCapture sm s1.pos s1.hists m)) (-2147483648)) := by
    unfold gcPool
    show (partial_insertion_sort (s1.pos.genCaptures.map (fun m => scoreCapture sm s1.pos s1.hists m)) (-2147483648)).take 0
        ++ gcFail s1.pos s1.ttMove
          (((partial_insertion_sort (s1.pos.genCaptures.map (fun m => scoreCapture sm s1.pos s1.hists m)) (-2147483648)).drop 0).take ((s1.pos.genCaptures.map (fun m => scoreCapture sm s1.pos s1.hists m)).length - 0))
      = _
    rw [List.take_zero, List.nil_append, List.drop_zero, Nat.sub_zero]
    rw [show (s1.pos.genCaptures.map (fun m => scoreCapture sm s1.pos s1.hists m)).length = (partial_insertion_sort (s1.pos.genCaptures.map (fun m => scoreCapture sm s1.pos s1.hists m)) (-2147483648)).length from (pis_length _ _).symm]
    rw [List.take_length]
  rw [← hpool]
  exact hg


/-- C4: in a main-search picker (side not in check) iterated to
exhaustion, the captures that are examined in GOOD_CAPTURE, differ from
the TT move and fail see_ge(c, -69 * c.value / 1024) are exactly the
entries of gcFail over the sorted capture buffer; none of them is emitted
before the BAD_CAPTURE stage, and starting at some call N they are
emitted exactly once each, in the order in which the failures occurred,
every such call ending in BAD_CAPTURE, after which the picker emits only
Move::none(). -/
theorem bad_capture_deferral (sm skip : Bool) (pos : Position) (hi : Hists)
    (ttm : Move) (dp : Int) (cm k0 k1 : Move)
    (hchk : pos.checkers = false)
    (hnn : ∀ m ∈ pos.genCaptures, m ≠ Move.none) :
    (∀ e ∈ gcFail pos ttm (partial_insertion_sort (pos.genCaptures.map (fun m => scoreCapture sm pos hi m)) (-2147483648)),
      e.move ≠ ttm
      ∧ pos.seeGe e.move (Int.tdiv (-69 * e.value) 1024) = false
      ∧ e ∈ (partial_insertion_sort (pos.genCaptures.map (fun m => scoreCapture sm pos hi m)) (-2147483648)))
    ∧ BadFuture sm skip (mkMain pos hi ttm dp cm k0 k1)
        (gcFail pos ttm (partial_insertion_sort (pos.genCaptures.map (fun m => scoreCapture sm pos hi m)) (-2147483648))) := by
  constructor
  · intro e he
    obtain ⟨hmem, hpred⟩ := List.mem_filter.mp he
    unfold gcFailP at hpred
    rw [Bool.and_eq_true] at hpred
    obtain ⟨hp1, hp2⟩ := hpred
    refine ⟨of_decide_eq_true hp1, ?_, hmem⟩
    revert hp2
    cases pos.seeGe e.move (Int.tdiv (-69 * e.value) 1024) <;> simp
  · have hstage : (mkMain pos hi ttm dp cm k0 k1).stage
        = (if ttm ≠ Move.none ∧ pos.pseudoLegal ttm = true
            then 0 else 1) := by
      show (if pos.checkers = true then EVASION_TT else MAIN_TT)
        + (if ttm ≠ Move.none ∧ pos.pseudoLegal ttm = true
            then 0 else 1) = _
      rw [if_neg (by rw [hchk]; exact Bool.false_ne_true)]
      rw [show MAIN_TT = 0 from rfl, Nat.zero_add]
    by_cases hcond : ttm ≠ Move.none ∧ pos.pseudoLegal ttm = true
    · have hst0 : (mkMain pos hi ttm dp cm k0 k1).stage = 0 := by
        rw [hstage, if_pos hcond]
      have htt : next_move sm skip (mkMain pos hi ttm dp cm k0 k1)
          = ((mkMain pos hi ttm dp cm k0 k1).ttMove,
            { (mkMain pos hi ttm dp cm k0 k1) with stage := (mkMain pos hi ttm dp cm k0 k1).stage + 1 }) := by
        have hd0 : (mkMain pos hi ttm dp cm k0 k1).stage = MAIN_TT ∨ (mkMain pos hi ttm dp cm k0 k1).stage = EVASION_TT
            ∨ (mkMain pos hi ttm dp cm k0 k1).stage = QSEARCH_TT ∨ (mkMain pos hi ttm dp cm k0 k1).stage = PROBCUT_TT :=
          Or.inl hst0
        unfold next_move
        rw [if_pos hd0]
      refine BadFuture_step sm skip _ _ ?_ ?_
      · rw [htt]
        show (mkMain pos hi ttm dp cm k0 k1).stage + 1 ≠ BAD_CAPTURE
        rw [hst0]
        decide
      · rw [htt]
        have hres := capture_start sm skip
          { (mkMain pos hi ttm dp cm k0 k1) with stage := (mkMain pos hi ttm dp cm k0 k1).stage + 1 }
          (by
            show (mkMain pos hi ttm dp cm k0 k1).stage + 1 = 1
            rw [hst0])
          (by
            intro m hm
            exact hnn m hm)
        exact hres
    · have hst1 : (mkMain pos hi ttm dp cm k0 k1).stage = 1 := by
        rw [hstage, if_neg hcond]
      have hres := capture_start sm skip (mkMain pos hi ttm dp cm k0 k1) hst1
        (by
          intro m hm
          exact hnn m hm)
      exact hres

/-- Position used by the C4 witness: two generated captures, the one to
square 9 passes see_ge and the other fails it. -/
def c4Pos : Position :=
  { genCaptures := [Move.mkNormal 0 8, Move.mkNormal 1 9],
     seeGe := fun m _ => decide (m.toSq = 9) }

theorem bad_capture_deferral_witness :
    c4Pos.checkers = false
    ∧ (∀ m ∈ c4Pos.genCaptures, m ≠ Move.none)
    ∧ ((∀ e ∈ gcFail c4Pos Move.none (partial_insertion_sort (c4Pos.genCaptures.map (fun m => scoreCapture false c4Pos {} m)) (-2147483648)),
        e.move ≠ Move.none
        ∧ c4Pos.seeGe e.move (Int.tdiv (-69 * e.value) 1024) = false
        ∧ e ∈ (partial_insertion_sort (c4Pos.genCaptures.map (fun m => scoreCapture false c4Pos {} m)) (-2147483648)))
      ∧ BadFuture false false
          (mkMain c4Pos {} Move.none 4 Move.none Move.none Move.none)
          (gcFail c4Pos Move.none (partial_insertion_sort (c4Pos.genCaptures.map (fun m => scoreCapture false c4Pos {} m)) (-2147483648)))) :=
  ⟨rfl, by decide,
   bad_capture_deferral false false c4Pos {} Move.none 4 Move.none
     Move.none Move.none rfl (by decide)⟩

end SFClassic
